import Mathlib

/-!
# Marbles / eKYC chaincode (`chaincode/marbles_chaincode.go`)

A shallow embedding of the chaincode's ledger operations and of the trade
matching engine, followed by the properties proved about them.

Modelling conventions.

* The ledger is a finite map from keys to stored byte strings.  The program
  looks at a stored value only through `json.Unmarshal` into one of three Go
  types (`Ekyc`, `[]string`, `AllTrades`), so a stored value is represented by
  the three results of those decodings (`Blob`).  `json.Unmarshal` leaves its
  target untouched on absent or malformed input and skips a member whose JSON
  type does not fit the field; the callers ignore its error.  A stored value
  also keeps the text of its member `timestamp` when that member is a JSON
  string: no decoder of the program reads it, but `read` hands the bytes out.
* The values that the program encodes with `json.Marshal` are given by their
  decodings.  The one value it writes as a text built by hand, the marble of
  `init_marble`, is modelled as that text and decoded by a model of
  `encoding/json`.
* Go `int64` / `int` values are only compared, never computed with; they are
  integers here.
* `stub.GetState`, `stub.PutState` and `stub.DelState` are taken to succeed
  (no ledger failure).
* A Go run-time panic (slice index out of range) is an explicit outcome.
-/

namespace Chaincode

/-! ## Data model -/

/-- Go struct `Ekyc` (a marble / record). -/
structure Ekyc where
  AadharNum : String
  Timestamp : Int
  Size : Int
  User : String
deriving DecidableEq, Repr

/-- Go struct `Description`. -/
structure Description where
  Timestamp : Int
  Size : Int
deriving DecidableEq, Repr

/-- Go struct `AnOpenTrade`. -/
structure AnOpenTrade where
  User : String
  Timestamp : Int
  Want : Description
  Willing : List Description
deriving DecidableEq, Repr

/-- Go struct `AllTrades`. -/
structure AllTrades where
  OpenTrades : List AnOpenTrade
deriving DecidableEq, Repr

/-- The zero value `Ekyc{}`. -/
def Ekyc.zero : Ekyc := ⟨"", 0, 0, ""⟩

/-- The zero value `Description{}`. -/
def Description.zero : Description := ⟨0, 0⟩

/-- The zero value `AnOpenTrade{}`. -/
def AnOpenTrade.zero : AnOpenTrade := ⟨"", 0, Description.zero, []⟩

/-- The zero value of `AllTrades` (a nil slice of trades). -/
def AllTrades.zero : AllTrades := ⟨[]⟩

/-- A stored value, as the three `json.Unmarshal` targets of the program see it,
with the text of the member `timestamp` when the value is a JSON object in which that
member is a JSON string (the category given to `init_marble`). -/
structure Blob where
  asEkyc : Ekyc
  asStrings : List String
  asTrades : AllTrades
  timestampString : Option String
deriving DecidableEq, Repr

/-- The ledger: key to stored value, `none` when the key is absent. -/
def Store : Type := String → Option Blob

/-- The ledger with no key. -/
def Store.empty : Store := fun _ => none

/-- Go `stub.GetState(key)`. -/
def GetState (s : Store) (key : String) : Option Blob := s key

/-- Go `stub.PutState(key, value)`. -/
def PutState (s : Store) (key : String) (value : Blob) : Store :=
  fun k => if k = key then some value else s k

/-- Go `stub.DelState(key)`. -/
def DelState (s : Store) (key : String) : Store :=
  fun k => if k = key then none else s k

/-- What a chaincode function hands back: `nil, nil`, `nil, errors.New(msg)`,
or a run-time panic on a slice index out of range. -/
inductive Outcome where
  | ok : Outcome
  | error (msg : String) : Outcome
  | indexPanic : Outcome
deriving DecidableEq, Repr

/-! ## Constants -/

/-- Key of the list of marble ids. -/
def marbleIndexStr : String := "_marbleindex"

/-- Key of the open trades. -/
def openTradesStr : String := "_opentrades"

/-- Key of the list of banks. -/
def bankIndexStr : String := "_allBank"

/-! ## Library functions of Go used by the chaincode -/

/-- A run of upper-case letters and where their lower-case letters start: the code
points `lo`, `lo + step`, ... up to `hi` map to `target`, `target + step`, ... -/
structure CaseRange where
  lo : Nat
  hi : Nat
  step : Nat
  target : Nat
deriving DecidableEq, Repr

/-- The letters beyond ASCII that `unicode.ToLower` changes: the simple lower-case
mapping of the Unicode character database, in runs of constant distance. -/
def lowerCaseRanges : List CaseRange :=
  [CaseRange.mk 192 214 1 224, CaseRange.mk 216 222 1 248, CaseRange.mk 256 302 2 257,
    CaseRange.mk 304 304 1 105, CaseRange.mk 306 310 2 307, CaseRange.mk 313 327 2 314,
    CaseRange.mk 330 374 2 331, CaseRange.mk 376 376 1 255, CaseRange.mk 377 381 2 378,
    CaseRange.mk 385 385 1 595, CaseRange.mk 386 388 2 387, CaseRange.mk 390 390 1 596,
    CaseRange.mk 391 391 1 392, CaseRange.mk 393 394 1 598, CaseRange.mk 395 395 1 396,
    CaseRange.mk 398 398 1 477, CaseRange.mk 399 399 1 601, CaseRange.mk 400 400 1 603,
    CaseRange.mk 401 401 1 402, CaseRange.mk 403 403 1 608, CaseRange.mk 404 404 1 611,
    CaseRange.mk 406 406 1 617, CaseRange.mk 407 407 1 616, CaseRange.mk 408 408 1 409,
    CaseRange.mk 412 412 1 623, CaseRange.mk 413 413 1 626, CaseRange.mk 415 415 1 629,
    CaseRange.mk 416 420 2 417, CaseRange.mk 422 422 1 640, CaseRange.mk 423 423 1 424,
    CaseRange.mk 425 425 1 643, CaseRange.mk 428 428 1 429, CaseRange.mk 430 430 1 648,
    CaseRange.mk 431 431 1 432, CaseRange.mk 433 434 1 650, CaseRange.mk 435 437 2 436,
    CaseRange.mk 439 439 1 658, CaseRange.mk 440 440 1 441, CaseRange.mk 444 444 1 445,
    CaseRange.mk 452 452 1 454, CaseRange.mk 453 453 1 454, CaseRange.mk 455 455 1 457,
    CaseRange.mk 456 456 1 457, CaseRange.mk 458 458 1 460, CaseRange.mk 459 475 2 460,
    CaseRange.mk 478 494 2 479, CaseRange.mk 497 497 1 499, CaseRange.mk 498 500 2 499,
    CaseRange.mk 502 502 1 405, CaseRange.mk 503 503 1 447, CaseRange.mk 504 542 2 505,
    CaseRange.mk 544 544 1 414, CaseRange.mk 546 562 2 547, CaseRange.mk 570 570 1 11365,
    CaseRange.mk 571 571 1 572, CaseRange.mk 573 573 1 410, CaseRange.mk 574 574 1 11366,
    CaseRange.mk 577 577 1 578, CaseRange.mk 579 579 1 384, CaseRange.mk 580 580 1 649,
    CaseRange.mk 581 581 1 652, CaseRange.mk 582 590 2 583, CaseRange.mk 880 882 2 881,
    CaseRange.mk 886 886 1 887, CaseRange.mk 895 895 1 1011, CaseRange.mk 902 902 1 940,
    CaseRange.mk 904 906 1 941, CaseRange.mk 908 908 1 972, CaseRange.mk 910 911 1 973,
    CaseRange.mk 913 929 1 945, CaseRange.mk 931 939 1 963, CaseRange.mk 975 975 1 983,
    CaseRange.mk 984 1006 2 985, CaseRange.mk 1012 1012 1 952, CaseRange.mk 1015 1015 1 1016,
    CaseRange.mk 1017 1017 1 1010, CaseRange.mk 1018 1018 1 1019, CaseRange.mk 1021 1023 1 891,
    CaseRange.mk 1024 1039 1 1104, CaseRange.mk 1040 1071 1 1072, CaseRange.mk 1120 1152 2 1121,
    CaseRange.mk 1162 1214 2 1163, CaseRange.mk 1216 1216 1 1231, CaseRange.mk 1217 1229 2 1218,
    CaseRange.mk 1232 1326 2 1233, CaseRange.mk 1329 1366 1 1377, CaseRange.mk 4256 4293 1 11520,
    CaseRange.mk 4295 4295 1 11559, CaseRange.mk 4301 4301 1 11565,
    CaseRange.mk 5024 5103 1 43888, CaseRange.mk 5104 5109 1 5112, CaseRange.mk 7312 7354 1 4304,
    CaseRange.mk 7357 7359 1 4349, CaseRange.mk 7680 7828 2 7681, CaseRange.mk 7838 7838 1 223,
    CaseRange.mk 7840 7934 2 7841, CaseRange.mk 7944 7951 1 7936, CaseRange.mk 7960 7965 1 7952,
    CaseRange.mk 7976 7983 1 7968, CaseRange.mk 7992 7999 1 7984, CaseRange.mk 8008 8013 1 8000,
    CaseRange.mk 8025 8031 2 8017, CaseRange.mk 8040 8047 1 8032, CaseRange.mk 8072 8079 1 8064,
    CaseRange.mk 8088 8095 1 8080, CaseRange.mk 8104 8111 1 8096, CaseRange.mk 8120 8121 1 8112,
    CaseRange.mk 8122 8123 1 8048, CaseRange.mk 8124 8124 1 8115, CaseRange.mk 8136 8139 1 8050,
    CaseRange.mk 8140 8140 1 8131, CaseRange.mk 8152 8153 1 8144, CaseRange.mk 8154 8155 1 8054,
    CaseRange.mk 8168 8169 1 8160, CaseRange.mk 8170 8171 1 8058, CaseRange.mk 8172 8172 1 8165,
    CaseRange.mk 8184 8185 1 8056, CaseRange.mk 8186 8187 1 8060, CaseRange.mk 8188 8188 1 8179,
    CaseRange.mk 8486 8486 1 969, CaseRange.mk 8490 8490 1 107, CaseRange.mk 8491 8491 1 229,
    CaseRange.mk 8498 8498 1 8526, CaseRange.mk 8544 8559 1 8560, CaseRange.mk 8579 8579 1 8580,
    CaseRange.mk 9398 9423 1 9424, CaseRange.mk 11264 11311 1 11312,
    CaseRange.mk 11360 11360 1 11361, CaseRange.mk 11362 11362 1 619,
    CaseRange.mk 11363 11363 1 7549, CaseRange.mk 11364 11364 1 637,
    CaseRange.mk 11367 11371 2 11368, CaseRange.mk 11373 11373 1 593,
    CaseRange.mk 11374 11374 1 625, CaseRange.mk 11375 11375 1 592,
    CaseRange.mk 11376 11376 1 594, CaseRange.mk 11378 11378 1 11379,
    CaseRange.mk 11381 11381 1 11382, CaseRange.mk 11390 11391 1 575,
    CaseRange.mk 11392 11490 2 11393, CaseRange.mk 11499 11501 2 11500,
    CaseRange.mk 11506 11506 1 11507, CaseRange.mk 42560 42604 2 42561,
    CaseRange.mk 42624 42650 2 42625, CaseRange.mk 42786 42798 2 42787,
    CaseRange.mk 42802 42862 2 42803, CaseRange.mk 42873 42875 2 42874,
    CaseRange.mk 42877 42877 1 7545, CaseRange.mk 42878 42886 2 42879,
    CaseRange.mk 42891 42891 1 42892, CaseRange.mk 42893 42893 1 613,
    CaseRange.mk 42896 42898 2 42897, CaseRange.mk 42902 42920 2 42903,
    CaseRange.mk 42922 42922 1 614, CaseRange.mk 42923 42923 1 604,
    CaseRange.mk 42924 42924 1 609, CaseRange.mk 42925 42925 1 620,
    CaseRange.mk 42926 42926 1 618, CaseRange.mk 42928 42928 1 670,
    CaseRange.mk 42929 42929 1 647, CaseRange.mk 42930 42930 1 669,
    CaseRange.mk 42931 42931 1 43859, CaseRange.mk 42932 42946 2 42933,
    CaseRange.mk 42948 42948 1 42900, CaseRange.mk 42949 42949 1 642,
    CaseRange.mk 42950 42950 1 7566, CaseRange.mk 42951 42953 2 42952,
    CaseRange.mk 42960 42960 1 42961, CaseRange.mk 42966 42968 2 42967,
    CaseRange.mk 42997 42997 1 42998, CaseRange.mk 65313 65338 1 65345,
    CaseRange.mk 66560 66599 1 66600, CaseRange.mk 66736 66771 1 66776,
    CaseRange.mk 66928 66938 1 66967, CaseRange.mk 66940 66954 1 66979,
    CaseRange.mk 66956 66962 1 66995, CaseRange.mk 66964 66965 1 67003,
    CaseRange.mk 68736 68786 1 68800, CaseRange.mk 71840 71871 1 71872,
    CaseRange.mk 93760 93791 1 93792, CaseRange.mk 125184 125217 1 125218]

/-- Go `unicode.ToLower` on a code point. -/
def lowerCode (n : Nat) : Nat :=
  if n < 128 then
    if 65 ≤ n ∧ n ≤ 90 then n + 32 else n
  else
    match lowerCaseRanges.find? fun r => decide (r.lo ≤ n ∧ n ≤ r.hi ∧ (n - r.lo) % r.step = 0) with
    | some r => r.target + (n - r.lo)
    | none => n

/-- Go `strings.ToLower`: every character mapped by `unicode.ToLower`. -/
def ToLower (s : String) : String := ⟨s.data.map fun c => Char.ofNat (lowerCode c.toNat)⟩

/-- Value of a run of decimal digits, `none` when a character is not a digit. -/
def parseDigits : List Char → Nat → Option Nat
  | [], acc => some acc
  | c :: cs, acc => if c.isDigit then parseDigits cs (acc * 10 + (c.toNat - 48)) else none

/-- Go `strconv.ParseInt(s, 10, 64)`: the value returned and whether `err == nil`.
A syntax error returns 0, a range error returns the nearest `int64`. -/
def ParseInt (s : String) : Int × Bool :=
  let cs := s.data
  let neg : Bool := cs.head? = some '-'
  let body := if cs.head? = some '-' ∨ cs.head? = some '+' then cs.tail else cs
  if body = [] then (0, false)
  else
    match parseDigits body 0 with
    | none => (0, false)
    | some un =>
      if neg = false ∧ un ≥ 2 ^ 63 then (2 ^ 63 - 1, false)
      else if neg = true ∧ un > 2 ^ 63 then (-(2 ^ 63), false)
      else (if neg then -(un : Int) else (un : Int), true)

/-- Go `strconv.Atoi` (`int` is 64 bits wide). -/
def Atoi (s : String) : Int × Bool := ParseInt s

/-- Result of `json.Unmarshal(bytes, &res)` on a fresh `Ekyc{}`. -/
def unmarshalEkyc (bytes : Option Blob) : Ekyc :=
  match bytes with
  | none => Ekyc.zero
  | some b => b.asEkyc

/-- Result of `json.Unmarshal(bytes, &list)` on a nil `[]string`. -/
def unmarshalStrings (bytes : Option Blob) : List String :=
  match bytes with
  | none => []
  | some b => b.asStrings

/-- Result of `json.Unmarshal(bytes, &trades)` on a fresh `AllTrades`. -/
def unmarshalTrades (bytes : Option Blob) : AllTrades :=
  match bytes with
  | none => AllTrades.zero
  | some b => b.asTrades

/-- Bytes that are no JSON object and no JSON array of strings (a bare number,
plain text): every decoding leaves its target at the zero value. -/
def plainBytes : Blob := ⟨Ekyc.zero, [], AllTrades.zero, none⟩

/-- Go `json.Marshal` of a `[]string`: a JSON array (or `null`), which fits neither struct. -/
def marshalStrings (l : List String) : Blob := ⟨Ekyc.zero, l, AllTrades.zero, none⟩

/-- Go `json.Marshal` of an `Ekyc`: an object with the members `aadharNum`, `timestamp`
(a number), `size`, `user`; it has no member `open_trades` and is no array. -/
def marshalEkyc (e : Ekyc) : Blob := ⟨e, [], AllTrades.zero, none⟩

/-- Go `json.Marshal` of an `AllTrades`: an object whose only member is `open_trades`. -/
def marshalTrades (t : AllTrades) : Blob := ⟨Ekyc.zero, [], t, none⟩

/-- Go `json.Marshal` of an `AnOpenTrade`: an object with the members `user`, `timestamp`,
`want`, `willing`; the first two are also members of `Ekyc`. -/
def marshalOpenTrade (o : AnOpenTrade) : Blob :=
  ⟨⟨"", o.Timestamp, 0, o.User⟩, [], AllTrades.zero, none⟩

/-- Go `json.Marshal` of a `Description`: an object with the members `timestamp`, `size`,
both also members of `Ekyc`. -/
def marshalDescription (d : Description) : Blob :=
  ⟨⟨"", d.Timestamp, d.Size, ""⟩, [], AllTrades.zero, none⟩

/-- A string that stands for itself inside a JSON string literal: no double quote
(code 34), no backslash (code 92), no control character (code below 32). -/
def jsonPlain (s : String) : Bool :=
  s.data.all fun c => c.toNat != 34 && c.toNat != 92 && decide (32 ≤ c.toNat)

/-! ## The text of a created marble and its decoding

`init_marble` builds the stored text by concatenation, so the text is JSON of the
intended shape only when the id, the category and the owner need no escaping.  The
text is modelled as it is built, and `encoding/json` as far as the three decoding
targets of the program go: the syntax of JSON (an invalid text decodes to nothing),
members matched to fields by name ignoring case, a later member of the same name
decoded over the earlier one, a value of the wrong type skipped. -/

/-- A JSON value; a number keeps its text. -/
inductive JVal where
  | null : JVal
  | bool (b : Bool) : JVal
  | num (text : String) : JVal
  | str (s : String) : JVal
  | arr (items : List JVal) : JVal
  | obj (members : List (String × JVal)) : JVal

/-- Drop the JSON white space at the head: space, tab, line feed, carriage return. -/
def skipWs : List Char → List Char
  | [] => []
  | c :: cs => if c = ' ' ∨ c = '\t' ∨ c = '\n' ∨ c = '\r' then skipWs cs else c :: cs

/-- The value of a hexadecimal digit. -/
def hexVal (c : Char) : Option Nat :=
  if '0' ≤ c ∧ c ≤ '9' then some (c.toNat - 48)
  else if 'a' ≤ c ∧ c ≤ 'f' then some (c.toNat - 87)
  else if 'A' ≤ c ∧ c ≤ 'F' then some (c.toNat - 55)
  else none

/-- Four hexadecimal digits at the head, as a number. -/
def hex4 : List Char → Option (Nat × List Char)
  | a :: b :: c :: d :: rest =>
    match hexVal a, hexVal b, hexVal c, hexVal d with
    | some x, some y, some z, some w => some (((x * 16 + y) * 16 + z) * 16 + w, rest)
    | _, _, _, _ => none
  | _ => none

/-- The character of a one-letter escape. -/
def unescape (e : Char) : Option Char :=
  if e = '"' ∨ e = '\\' ∨ e = '/' then some e
  else if e = 'b' then some (Char.ofNat 8)
  else if e = 'f' then some (Char.ofNat 12)
  else if e = 'n' then some (Char.ofNat 10)
  else if e = 'r' then some (Char.ofNat 13)
  else if e = 't' then some (Char.ofNat 9)
  else none

/-- The low half of a surrogate pair written as a second escape right after a high
half `r`: the character of the pair and the text after it. -/
def lowSurrogate (r : Nat) (cs : List Char) : Option (Char × List Char) :=
  match cs with
  | b :: u :: rest =>
    if b = '\\' ∧ u = 'u' then
      match hex4 rest with
      | some (r2, rest2) =>
        if r < 56320 ∧ 56320 ≤ r2 ∧ r2 < 57344 then
          some (Char.ofNat ((r - 55296) * 1024 + (r2 - 56320) + 65536), rest2)
        else none
      | none => none
    else none
  | _ => none

/-- The content of a JSON string, read after its opening quote up to the closing one,
and the text that follows.  A control character, an unknown escape or a missing
closing quote makes the text invalid. -/
def scanString : Nat → List Char → Option (List Char × List Char)
  | 0, _ => none
  | _ + 1, [] => none
  | fuel + 1, c :: rest =>
    if c = '"' then some ([], rest)
    else if c = '\\' then
      match rest with
      | [] => none
      | e :: rest2 =>
        if e = 'u' then
          match hex4 rest2 with
          | none => none
          | some (r, rest3) =>
            if 55296 ≤ r ∧ r < 57344 then
              match lowSurrogate r rest3 with
              | some (ch, rest4) => (scanString fuel rest4).map fun p => (ch :: p.1, p.2)
              | none => (scanString fuel rest3).map fun p => (Char.ofNat 65533 :: p.1, p.2)
            else (scanString fuel rest3).map fun p => (Char.ofNat r :: p.1, p.2)
        else
          match unescape e with
          | some ch => (scanString fuel rest2).map fun p => (ch :: p.1, p.2)
          | none => none
    else if c.toNat < 32 then none
    else (scanString fuel rest).map fun p => (c :: p.1, p.2)

/-- The digits at the head, and the text after them. -/
def spanDigits : List Char → List Char × List Char
  | [] => ([], [])
  | c :: cs =>
    if c.isDigit then ((spanDigits cs).1.cons c, (spanDigits cs).2) else ([], c :: cs)

/-- The fraction of a JSON number, if one starts here: a dot and one digit or more. -/
def scanFraction (cs : List Char) : Option (List Char × List Char) :=
  match cs with
  | c :: rest =>
    if c = '.' then
      if (spanDigits rest).1 = [] then none
      else some (c :: (spanDigits rest).1, (spanDigits rest).2)
    else some ([], cs)
  | [] => some ([], [])

/-- The exponent of a JSON number, if one starts here. -/
def scanExponent (cs : List Char) : Option (List Char × List Char) :=
  match cs with
  | c :: rest =>
    if c = 'e' ∨ c = 'E' then
      match rest with
      | sg :: rest2 =>
        if sg = '+' ∨ sg = '-' then
          if (spanDigits rest2).1 = [] then none
          else some (c :: sg :: (spanDigits rest2).1, (spanDigits rest2).2)
        else if (spanDigits rest).1 = [] then none
        else some (c :: (spanDigits rest).1, (spanDigits rest).2)
      | [] => none
    else some ([], cs)
  | [] => some ([], [])

/-- The integer part of a JSON number: a zero alone, or digits not starting with
zero. -/
def scanInteger (cs : List Char) : Option (List Char × List Char) :=
  match cs with
  | c :: rest =>
    if c = '0' then some ([c], rest)
    else if c.isDigit then some (c :: (spanDigits rest).1, (spanDigits rest).2)
    else none
  | [] => none

/-- The text of a JSON number at the head, and the text after it. -/
def scanNumber (cs : List Char) : Option (List Char × List Char) :=
  let sign : List Char := if cs.head? = some '-' then ['-'] else []
  let body := if cs.head? = some '-' then cs.tail else cs
  match scanInteger body with
  | none => none
  | some (i, r1) =>
    match scanFraction r1 with
    | none => none
    | some (f, r2) =>
      match scanExponent r2 with
      | none => none
      | some (e, r3) => some (sign ++ i ++ f ++ e, r3)

/-- The text after `word` when the text starts with it. -/
def dropWord (word cs : List Char) : Option (List Char) :=
  if word.isPrefixOf cs then some (cs.drop word.length) else none

/-- Go `maxNestingDepth` of `encoding/json`: a text with more objects and arrays open
at once is refused. -/
def maxNestingDepth : Nat := 10000

mutual

/-- One JSON value at the head, white space before it skipped, and the text after
it; `fuel` bounds the number of values and members read, `depth` is the number of
objects and arrays that are open. -/
def parseValue : Nat → Nat → List Char → Option (JVal × List Char)
  | 0, _, _ => none
  | fuel + 1, depth, cs =>
    match skipWs cs with
    | [] => none
    | c :: rest =>
      if c = '{' then
        if maxNestingDepth ≤ depth then none
        else
          match skipWs rest with
          | [] => none
          | d :: rest2 =>
            if d = '}' then some (JVal.obj [], rest2)
            else (parseMembers fuel (depth + 1) (d :: rest2)).map fun p => (JVal.obj p.1, p.2)
      else if c = '[' then
        if maxNestingDepth ≤ depth then none
        else
          match skipWs rest with
          | [] => none
          | d :: rest2 =>
            if d = ']' then some (JVal.arr [], rest2)
            else (parseElements fuel (depth + 1) (d :: rest2)).map fun p => (JVal.arr p.1, p.2)
      else if c = '"' then
        (scanString (rest.length + 1) rest).map fun p => (JVal.str (String.mk p.1), p.2)
      else if c = 't' then
        (dropWord ['r', 'u', 'e'] rest).map fun r => (JVal.bool true, r)
      else if c = 'f' then
        (dropWord ['a', 'l', 's', 'e'] rest).map fun r => (JVal.bool false, r)
      else if c = 'n' then
        (dropWord ['u', 'l', 'l'] rest).map fun r => (JVal.null, r)
      else (scanNumber (c :: rest)).map fun p => (JVal.num (String.mk p.1), p.2)

/-- The members of an object from the key at the head (white space skipped) to the
closing brace. -/
def parseMembers : Nat → Nat → List Char → Option (List (String × JVal) × List Char)
  | 0, _, _ => none
  | fuel + 1, depth, cs =>
    match skipWs cs with
    | [] => none
    | q :: rest =>
      if q = '"' then
        match scanString (rest.length + 1) rest with
        | none => none
        | some (key, rest2) =>
          match skipWs rest2 with
          | [] => none
          | colon :: rest3 =>
            if colon = ':' then
              match parseValue fuel depth rest3 with
              | none => none
              | some (v, rest4) =>
                match skipWs rest4 with
                | [] => none
                | e :: rest5 =>
                  if e = '}' then some ([(String.mk key, v)], rest5)
                  else if e = ',' then
                    (parseMembers fuel depth rest5).map fun p =>
                      ((String.mk key, v) :: p.1, p.2)
                  else none
            else none
      else none

/-- The elements of an array from the value at the head to the closing bracket. -/
def parseElements : Nat → Nat → List Char → Option (List JVal × List Char)
  | 0, _, _ => none
  | fuel + 1, depth, cs =>
    match parseValue fuel depth cs with
    | none => none
    | some (v, rest) =>
      match skipWs rest with
      | [] => none
      | e :: rest2 =>
        if e = ']' then some ([v], rest2)
        else if e = ',' then (parseElements fuel depth rest2).map fun p => (v :: p.1, p.2)
        else none

end

/-- The value of a JSON text: one value, with white space around it and nothing
else; `none` when the text is not valid JSON or is nested too deep. -/
def parseJSON (text : String) : Option JVal :=
  match parseValue (text.length + 1) 0 text.data with
  | some (v, rest) => if skipWs rest = [] then some v else none
  | none => none

/-- The fold of a character under which the decoder compares a member name with a
field name: upper-case letters of ASCII go to lower case, and the long s and the
Kelvin sign to `s` and `k`. -/
def foldChar (c : Char) : Char :=
  if c.isUpper then c.toLower
  else if c.toNat = 383 then 's'
  else if c.toNat = 8490 then 'k'
  else c

/-- Whether the member name `key` stands for the field tagged `name`. -/
def keyIs (name key : String) : Bool :=
  key.data.map foldChar = name.data.map foldChar

/-- Decoding into a `string` field: a JSON string is stored, `null` and any value of
another type leave the field as it is. -/
def decString (cur : String) : JVal → String
  | JVal.str s => s
  | _ => cur

/-- Decoding into an `int` or `int64` field: a JSON number that `ParseInt` accepts is
stored, anything else leaves the field as it is. -/
def decInt (cur : Int) : JVal → Int
  | JVal.num text => if (ParseInt text).2 then (ParseInt text).1 else cur
  | _ => cur

/-- Decoding into an `Ekyc`: the members of an object in their order. -/
def decEkyc (cur : Ekyc) : JVal → Ekyc
  | JVal.obj members =>
    members.foldl (fun e m =>
      if keyIs "aadharNum" m.1 then { e with AadharNum := decString e.AadharNum m.2 }
      else if keyIs "timestamp" m.1 then { e with Timestamp := decInt e.Timestamp m.2 }
      else if keyIs "size" m.1 then { e with Size := decInt e.Size m.2 }
      else if keyIs "user" m.1 then { e with User := decString e.User m.2 }
      else e) cur
  | _ => cur

/-- Decoding into a `Description`. -/
def decDescription (cur : Description) : JVal → Description
  | JVal.obj members =>
    members.foldl (fun d m =>
      if keyIs "timestamp" m.1 then { d with Timestamp := decInt d.Timestamp m.2 }
      else if keyIs "size" m.1 then { d with Size := decInt d.Size m.2 }
      else d) cur
  | _ => cur

/-- Decoding into a slice, given by the elements of its array and its length: the
elements of a JSON array are decoded in place, one after the other, over what the
array holds, the length becomes their number; an empty array gives a new empty slice
and `null` the nil slice; any other value leaves the slice as it is. -/
def decSlice {α : Type} (dec : α → JVal → α) (zero : α) (mem : List α) (len : Nat) :
    JVal → List α × Nat
  | JVal.arr [] => ([], 0)
  | JVal.arr items =>
    ((items.enum.map fun p => dec (mem.getD p.1 zero) p.2) ++ mem.drop items.length,
      items.length)
  | JVal.null => ([], 0)
  | _ => (mem, len)

/-- An `AnOpenTrade` while it is decoded: `Willing` holds the elements of the array
of the slice, `willingLen` the length of the slice. -/
structure TradeMem where
  trade : AnOpenTrade
  willingLen : Nat

/-- Decoding into an `AnOpenTrade`. -/
def decTrade (cur : TradeMem) : JVal → TradeMem
  | JVal.obj members =>
    members.foldl (fun t m =>
      if keyIs "user" m.1 then
        { t with trade := { t.trade with User := decString t.trade.User m.2 } }
      else if keyIs "timestamp" m.1 then
        { t with trade := { t.trade with Timestamp := decInt t.trade.Timestamp m.2 } }
      else if keyIs "want" m.1 then
        { t with trade := { t.trade with Want := decDescription t.trade.Want m.2 } }
      else if keyIs "willing" m.1 then
        { trade := { t.trade with Willing :=
            (decSlice decDescription Description.zero t.trade.Willing t.willingLen m.2).1 },
          willingLen := (decSlice decDescription Description.zero t.trade.Willing t.willingLen m.2).2 }
      else t) cur
  | _ => cur

/-- Decoding into a fresh `AllTrades`. -/
def decTrades : JVal → AllTrades
  | JVal.obj members =>
    let slice := members.foldl (fun (sl : List TradeMem × Nat) m =>
      if keyIs "open_trades" m.1 then decSlice decTrade ⟨AnOpenTrade.zero, 0⟩ sl.1 sl.2 m.2
      else sl) ([], 0)
    ⟨(slice.1.take slice.2).map fun t => { t.trade with Willing := t.trade.Willing.take t.willingLen }⟩
  | _ => AllTrades.zero

/-- Decoding into a nil `[]string`. -/
def decStrings : JVal → List String
  | JVal.arr items => items.map (decString "")
  | _ => []

/-- The text of the member `timestamp` of an object when it is a JSON string; of
several members of that name the last counts. -/
def timestampText : JVal → Option String
  | JVal.obj members =>
    match (members.filter fun m => m.1 = "timestamp").getLast? with
    | some (_, JVal.str s) => some s
    | _ => none
  | _ => none

/-- A stored text as the decoders of the program see it; a text that is not valid
JSON sets nothing. -/
def unmarshalText (text : String) : Blob :=
  match parseJSON text with
  | none => ⟨Ekyc.zero, [], AllTrades.zero, none⟩
  | some v => ⟨decEkyc Ekyc.zero v, decStrings v, decTrades v, timestampText v⟩

/-- The decimal digits of a natural number; `fuel` bounds their number. -/
def natDigits : Nat → Nat → List Char
  | 0, _ => []
  | fuel + 1, n =>
    if n < 10 then [Char.ofNat (48 + n)]
    else natDigits fuel (n / 10) ++ [Char.ofNat (48 + n % 10)]

/-- Go `strconv.Itoa`. -/
def Itoa (n : Int) : String :=
  String.mk (if n < 0 then '-' :: natDigits (n.natAbs + 1) n.natAbs
    else natDigits (n.toNat + 1) n.toNat)

/-- The text that `init_marble` builds by hand. -/
def marbleText (aadharNum timestamp : String) (size : Int) (user : String) : String :=
  "\x7b\"aadharNum\": \"" ++ aadharNum ++ "\", \"timestamp\": \"" ++ timestamp ++
    "\", \"size\": " ++ Itoa size ++ ", \"user\": \"" ++ user ++ "\"\x7d"

/-- The value stored by `init_marble`, as the decoders of the program see it: the text
built by hand, decoded.  When the id, the category and the owner need no escaping
the text is an object with the members `aadharNum`, `timestamp` (the category, a JSON
string, which does not fit the `int64` field and is skipped), `size` and `user`. -/
def marbleLiteral (aadharNum timestamp : String) (size : Int) (user : String) : Blob :=
  unmarshalText (marbleText aadharNum timestamp size user)

/-- What the model does not compute: the clock and the reading of free-form bytes. -/
structure Env where
  /-- the value of `makeTimestamp()` -/
  makeTimestamp : Int
  /-- the text of `time.Now().Format(time.RFC850)` -/
  clock : String
  /-- a byte string written as is, seen through the decoders -/
  bytes : String → Blob
  /-- the text `string(valAsbytes)` of a stored value -/
  text : Option Blob → String


/-! ## The chaincode -/

/-- Go `Init`: reset the index of marbles and the open trades. -/
def Init (s : Store) (args : List String) : Outcome × Store :=
  match args with
  | [a0] =>
    if (Atoi a0).2 = false then
      (Outcome.error "=========Expecting integer value for asset holding", s)
    else
      let s1 := PutState s "kyc" plainBytes
      let s2 := PutState s1 "bank" plainBytes
      let s3 := PutState s2 bankIndexStr (marshalStrings [])
      let s4 := PutState s3 marbleIndexStr (marshalStrings [])
      let s5 := PutState s4 openTradesStr (marshalTrades AllTrades.zero)
      (Outcome.ok, s5)
  | _ => (Outcome.error "Incorrect number of arguments....Expecting 1", s)

/-- Go `read`: the stored bytes, `nil` when the key is absent. -/
def read (s : Store) (args : List String) : Except String (Option Blob) :=
  match args with
  | [a0] => Except.ok (GetState s a0)
  | _ => Except.error "Incorrect number of arguments. Expecting AadharNum to be queried"

/-- Go `readBank`: the stored bytes, `nil` when the key is absent. -/
def readBank (s : Store) (args : List String) : Except String (Option Blob) :=
  match args with
  | [a0] => Except.ok (GetState s a0)
  | _ => Except.error "Incorrect number of arguments. Expecting bankName to be queried"

/-- Go `readAll`: the stored list of banks. -/
def readAll (s : Store) (_args : List String) : Except String (Option Blob) :=
  Except.ok (GetState s bankIndexStr)

/-- Go `Delete`: remove the key, and its first occurrence in the index of marbles. -/
def Delete (s : Store) (args : List String) : Outcome × Store :=
  match args with
  | [aadharNum] =>
    let s1 := DelState s aadharNum
    let marbleIndex := unmarshalStrings (GetState s1 marbleIndexStr)
    -- the loop removes the first entry equal to aadharNum, then breaks
    let marbleIndex1 := marbleIndex.erase aadharNum
    (Outcome.ok, PutState s1 marbleIndexStr (marshalStrings marbleIndex1))
  | _ => (Outcome.error "Incorrect number of arguments. Expecting 1", s)

/-- Go `Write`: store the value followed by a semicolon and the time. -/
def Write (env : Env) (s : Store) (args : List String) : Outcome × Store :=
  match args with
  | [a0, a1] => (Outcome.ok, PutState s a0 (env.bytes (a1 ++ ";" ++ env.clock)))
  | _ => (Outcome.error "=============Incorrect number of arguments. Expecting 2. aadharNum of the variable and value to set", s)

/-- Go `WriteBank`: store the bank, append its name to the text of the list of banks. -/
def WriteBank (env : Env) (s : Store) (args : List String) : Outcome × Store :=
  match args with
  | [a0, a1, a2, a3] =>
    let s1 := PutState s a0 (env.bytes (a1 ++ ";" ++ a2 ++ ";" ++ a3))
    let valueAll := env.text (GetState s1 bankIndexStr) ++ ";" ++ a0
    (Outcome.ok, PutState s1 bankIndexStr (env.bytes valueAll))
  | _ => (Outcome.error "=============Incorrect number of arguments. Expecting 2. aadharNum of the variable and value to set", s)

/-- Go `init_marble`: create a marble and append its id to the index. -/
def init_marble (s : Store) (args : List String) : Outcome × Store :=
  match args with
  | [a0, a1, a2, a3] =>
    if a0.length ≤ 0 then (Outcome.error "1st argument must be a non-empty string", s)
    else if a1.length ≤ 0 then (Outcome.error "2nd argument must be a non-empty string", s)
    else if a2.length ≤ 0 then (Outcome.error "3rd argument must be a non-empty string", s)
    else if a3.length ≤ 0 then (Outcome.error "4th argument must be a non-empty string", s)
    else
      let aadharNum := a0
      let timestamp := ToLower a1
      let user := ToLower a3
      let size := Atoi a2
      if size.2 = false then (Outcome.error "3rd argument must be a numeric string", s)
      else
        let res := unmarshalEkyc (GetState s aadharNum)
        if res.AadharNum = aadharNum then (Outcome.error "Aadhar number arleady exists", s)
        else
          let s1 := PutState s aadharNum (marbleLiteral aadharNum timestamp size.1 user)
          let marbleIndex := unmarshalStrings (GetState s1 marbleIndexStr)
          let marbleIndex1 := marbleIndex ++ [aadharNum]
          (Outcome.ok, PutState s1 marbleIndexStr (marshalStrings marbleIndex1))
  | _ => (Outcome.error "========Incorrect number of arguments. Expecting 4", s)

/-- Go `set_user`: rewrite the marble under `args[0]` with `args[1]` as user. -/
def set_user (s : Store) (args : List String) : Outcome × Store :=
  match args with
  | a0 :: a1 :: _ =>
    let res := unmarshalEkyc (GetState s a0)
    let res1 : Ekyc := { res with User := a1 }
    (Outcome.ok, PutState s a0 (marshalEkyc res1))
  | _ => (Outcome.error "Incorrect number of arguments. Expecting 2", s)

/-- The loop of `open_trade` over `args[3], args[5], ...`: the index `i` advances by
two per round and `args[i+1]` is read; `fuel` bounds the number of rounds. -/
def open_trade_loop (args : List String) : Nat → Nat → AnOpenTrade → Store →
    Outcome × AnOpenTrade × Store
  | 0, _, opn, s => (Outcome.ok, opn, s)
  | fuel + 1, i, opn, s =>
    if i < args.length then
      match args[i + 1]? with
      | none => (Outcome.indexPanic, opn, s)
      | some a =>
        let will_size := Atoi a
        if will_size.2 = false then (Outcome.error ("is not a numeric string " ++ a), opn, s)
        else
          let timestamp1 := (ParseInt (args.getD 0 "")).1
          let trade_away : Description := ⟨timestamp1, will_size.1⟩
          let s1 := PutState s "_debug2" (marshalDescription trade_away)
          let opn1 : AnOpenTrade := { opn with Willing := opn.Willing ++ [trade_away] }
          open_trade_loop args fuel (i + 2) opn1 s1
    else (Outcome.ok, opn, s)

/-- Go `open_trade`: append a trade to the open trades; `now` is `makeTimestamp()`. -/
def open_trade (now : Int) (s : Store) (args : List String) : Outcome × Store :=
  if args.length < 5 then (Outcome.error "Incorrect number of arguments. Expecting like 5?", s)
  else if args.length % 2 = 0 then
    (Outcome.error "Incorrect number of arguments. Expecting an odd number", s)
  else
    let size1 := Atoi (args.getD 2 "")
    if size1.2 = false then (Outcome.error "3rd argument must be a numeric string", s)
    else
      let timestamp := (ParseInt (args.getD 0 "")).1
      let opn : AnOpenTrade := ⟨args.getD 0 "", now, ⟨timestamp, size1.1⟩, []⟩
      let s1 := PutState s "_debug1" (marshalOpenTrade opn)
      match open_trade_loop args args.length 3 opn s1 with
      | (Outcome.ok, opn1, s2) =>
        let trades := unmarshalTrades (GetState s2 openTradesStr)
        let trades1 : AllTrades := ⟨trades.OpenTrades ++ [opn1]⟩
        (Outcome.ok, PutState s2 openTradesStr (marshalTrades trades1))
      | (r, _, s2) => (r, s2)

/-- The scan of `findMarble4Trade` over the index of marbles. -/
def findMarble4Trade_loop (s : Store) (user : String) (timestamp size : Int) :
    List String → Option Ekyc
  | [] => none
  | key :: rest =>
    let res := unmarshalEkyc (GetState s key)
    if ToLower res.User = ToLower user ∧ res.Timestamp = timestamp ∧ res.Size = size then
      some res
    else findMarble4Trade_loop s user timestamp size rest

/-- Go `findMarble4Trade`: the first marble of the index with this user, timestamp
and size; `none` is the error return. -/
def findMarble4Trade (s : Store) (user : String) (timestamp size : Int) : Option Ekyc :=
  findMarble4Trade_loop s user timestamp size (unmarshalStrings (GetState s marbleIndexStr))

/-- The range loop of `perform_trade`.  The bound of the loop is the length of the
book at loop entry (`fuel` rounds remain, the round in hand has index `i`), while
`trades.OpenTrades[i]` is read from the current slice, which the removal shortens:
an index past its end is a run-time panic. -/
def perform_trade_loop (args1 args2 : String) (timestamp : Int) (args4 : String) (size : Int) :
    Nat → Nat → List AnOpenTrade → Store → Outcome × Store
  | 0, _, _, s => (Outcome.ok, s)
  | fuel + 1, i, trades, s =>
    match trades[i]? with
    | none => (Outcome.indexPanic, s)
    | some t =>
      if t.Timestamp = timestamp then
        let closersMarble := unmarshalEkyc (GetState s args2)
        if closersMarble.Size ≠ t.Want.Size then
          (Outcome.error "marble in input does not meet trade requriements", s)
        else
          let timestamp1 := (ParseInt args4).1
          match findMarble4Trade s t.User timestamp1 size with
          | some ekyc =>
            let s1 := (set_user s [args2, t.User]).2
            let s2 := (set_user s1 [ekyc.AadharNum, args1]).2
            let trades1 := trades.eraseIdx i
            let s3 := PutState s2 openTradesStr (marshalTrades ⟨trades1⟩)
            perform_trade_loop args1 args2 timestamp args4 size fuel (i + 1) trades1 s3
          | none => perform_trade_loop args1 args2 timestamp args4 size fuel (i + 1) trades s
      else perform_trade_loop args1 args2 timestamp args4 size fuel (i + 1) trades s

/-- Go `perform_trade`: close an open trade and move ownership. -/
def perform_trade (s : Store) (args : List String) : Outcome × Store :=
  match args with
  | a0 :: a1 :: a2 :: _ :: a4 :: a5 :: _ =>
    let timestamp := ParseInt a0
    if timestamp.2 = false then (Outcome.error "1st argument must be a numeric string", s)
    else
      let size := Atoi a5
      if size.2 = false then (Outcome.error "6th argument must be a numeric string", s)
      else
        let trades := unmarshalTrades (GetState s openTradesStr)
        perform_trade_loop a1 a2 timestamp.1 a4 size.1 trades.OpenTrades.length 0
          trades.OpenTrades s
  | _ => (Outcome.error "Incorrect number of arguments. Expecting 6", s)

/-- The loop of `remove_trade`: the first trade with this timestamp is removed and
the book written, then the loop breaks. -/
def remove_trade_loop (timestamp : Int) (all : List AnOpenTrade) (s : Store) :
    Nat → List AnOpenTrade → Store
  | _, [] => s
  | i, t :: rest =>
    if t.Timestamp = timestamp then
      PutState s openTradesStr (marshalTrades ⟨all.eraseIdx i⟩)
    else remove_trade_loop timestamp all s (i + 1) rest

/-- Go `remove_trade`: cancel an open trade. -/
def remove_trade (s : Store) (args : List String) : Outcome × Store :=
  match args with
  | a0 :: _ =>
    let timestamp := ParseInt a0
    if timestamp.2 = false then (Outcome.error "1st argument must be a numeric string", s)
    else
      let trades := unmarshalTrades (GetState s openTradesStr)
      (Outcome.ok, remove_trade_loop timestamp.1 trades.OpenTrades s 0 trades.OpenTrades)
  | _ => (Outcome.error "Incorrect number of arguments. Expecting 1", s)

/-- The inner loop of `cleanTrades` over the options of one trade, at index `x`:
an option for which no marble is found is removed in place (`x--` then `x++` keep the
index), any other advances the index; the loop ends when `x` reaches the length.
`fuel` bounds the number of rounds. -/
def cleanTrades_options (s : Store) (user : String) :
    Nat → Nat → List Description → Bool → List Description × Bool
  | 0, _, willing, didWork => (willing, didWork)
  | fuel + 1, x, willing, didWork =>
    match willing[x]? with
    | none => (willing, didWork)
    | some d =>
      match findMarble4Trade s user d.Timestamp d.Size with
      | none => cleanTrades_options s user fuel x (willing.eraseIdx x) true
      | some _ => cleanTrades_options s user fuel (x + 1) willing didWork

/-- The outer loop of `cleanTrades` over the trades, at index `i`: the options of
trade `i` are cleaned, and the trade is removed in place when none is left.
`fuel` bounds the number of rounds. -/
def cleanTrades_loop (s : Store) :
    Nat → Nat → List AnOpenTrade → Bool → List AnOpenTrade × Bool
  | 0, _, trades, didWork => (trades, didWork)
  | fuel + 1, i, trades, didWork =>
    match trades[i]? with
    | none => (trades, didWork)
    | some t =>
      let r := cleanTrades_options s t.User t.Willing.length 0 t.Willing didWork
      let trades1 := trades.set i { t with Willing := r.1 }
      if r.1.length = 0 then cleanTrades_loop s fuel i (trades1.eraseIdx i) true
      else cleanTrades_loop s fuel (i + 1) trades1 r.2

/-- Go `cleanTrades`: drop the options that no marble backs and the trades left
without option; the book is written only when something was dropped. -/
def cleanTrades (s : Store) : Store :=
  let trades := unmarshalTrades (GetState s openTradesStr)
  let r := cleanTrades_loop s trades.OpenTrades.length 0 trades.OpenTrades false
  if r.2 = true then PutState s openTradesStr (marshalTrades ⟨r.1⟩) else s

/-- Go `Invoke`: the entry point for invocations. -/
def Invoke (env : Env) (s : Store) (function : String) (args : List String) :
    Outcome × Store :=
  if function = "init" then Init s args
  else if function = "delete" then
    let r := Delete s args
    (r.1, cleanTrades r.2)
  else if function = "write" then Write env s args
  else if function = "writeBank" then WriteBank env s args
  else if function = "init_marble" then init_marble s args
  else if function = "set_user" then
    let r := set_user s args
    (r.1, cleanTrades r.2)
  else if function = "open_trade" then open_trade env.makeTimestamp s args
  else if function = "perform_trade" then
    let r := perform_trade s args
    -- a panic leaves `perform_trade` without reaching `cleanTrades`
    if r.1 = Outcome.indexPanic then r else (r.1, cleanTrades r.2)
  else if function = "remove_trade" then remove_trade s args
  else (Outcome.error "Received unknown function invocation", s)

/-- Go `Query`: the entry point for queries. -/
def Query (s : Store) (function : String) (args : List String) :
    Except String (Option Blob) :=
  if function = "read" then read s args
  else if function = "readBank" then readBank s args
  else if function = "readAll" then readAll s args
  else Except.error "Received unknown function query=Query"

/-! ## Reference definitions -/

/-- The test of `findMarble4Trade` on one record: same user up to case, same
timestamp, same size. -/
def matches4Trade (res : Ekyc) (user : String) (timestamp size : Int) : Bool :=
  decide (ToLower res.User = ToLower user ∧ res.Timestamp = timestamp ∧ res.Size = size)

/-- The index of marbles stored in the ledger (RecordIndex). -/
def recordIndex (s : Store) : List String := unmarshalStrings (GetState s marbleIndexStr)

/-- The open trades stored in the ledger (TradeBook). -/
def tradeBook (s : Store) : List AnOpenTrade := (unmarshalTrades (GetState s openTradesStr)).OpenTrades

/-- The record read from a key. -/
def record (s : Store) (key : String) : Ekyc := unmarshalEkyc (GetState s key)

/-- Whether an option of a trade of `user` is backed: `findMarble4Trade` succeeds. -/
def backed (s : Store) (user : String) (e : Description) : Bool :=
  (findMarble4Trade s user e.Timestamp e.Size).isSome

/-- Sweep, step 1 of the specification: the willing list of a trade is replaced by
the sublist of its backed entries. -/
def sweep_prune (s : Store) (t : AnOpenTrade) : AnOpenTrade :=
  { t with Willing := t.Willing.filter (backed s t.User) }

/-- Sweep as the specification words it: prune every willing list, then drop every
trade whose willing list is empty. -/
def sweep_spec (s : Store) (trades : List AnOpenTrade) : List AnOpenTrade :=
  (trades.map (sweep_prune s)).filter fun t => !t.Willing.isEmpty

/-- A live record: the id is not empty and the value under it decodes to a record
with that id field (the test of `init_marble` for an existing marble). -/
def liveRecord (s : Store) (id : String) : Prop := id ≠ "" ∧ (record s id).AadharNum = id

instance (s : Store) (id : String) : Decidable (liveRecord s id) :=
  inferInstanceAs (Decidable (id ≠ "" ∧ (record s id).AadharNum = id))

/-- A create (`init_marble`) or a delete (`Delete`) with its arguments. -/
inductive LedgerOp where
  | create (args : List String) : LedgerOp
  | delete (args : List String) : LedgerOp

/-- The ledger after one create or delete. -/
def LedgerOp.run (s : Store) : LedgerOp → Store
  | LedgerOp.create args => (init_marble s args).2
  | LedgerOp.delete args => (Delete s args).2

/-- The ledger after a sequence of creates and deletes. -/
def runOps (s : Store) (ops : List LedgerOp) : Store := ops.foldl LedgerOp.run s

/-- The operation does not name the key of the index of marbles as its id, and the
arguments of a create are `jsonPlain`. -/
def LedgerOp.regular : LedgerOp → Prop
  | LedgerOp.create args => args.head? ≠ some marbleIndexStr ∧ ∀ a ∈ args, jsonPlain a = true
  | LedgerOp.delete args => args.head? ≠ some marbleIndexStr

instance : DecidablePred LedgerOp.regular := fun op =>
  match op with
  | LedgerOp.create args =>
    inferInstanceAs
      (Decidable (args.head? ≠ some marbleIndexStr ∧ ∀ a ∈ args, jsonPlain a = true))
  | LedgerOp.delete args => inferInstanceAs (Decidable (args.head? ≠ some marbleIndexStr))

/-- Trade `t2` is trade `t` with some of its willing entries dropped: same owner, id
and want, and a willing list that is a sublist of that of `t`. -/
def prunedFrom (t t2 : AnOpenTrade) : Prop :=
  t2.User = t.User ∧ t2.Timestamp = t.Timestamp ∧ t2.Want = t.Want ∧
    List.Sublist t2.Willing t.Willing

/-- A trade on which a round of the scan does nothing: another id, or the sizes agree
and no marble of the opener is found. -/
def scanSkips (s : Store) (args2 : String) (timestamp : Int) (args4 : String) (size : Int)
    (t : AnOpenTrade) : Prop :=
  t.Timestamp ≠ timestamp ∨
    ((record s args2).Size = t.Want.Size ∧
      findMarble4Trade s t.User (ParseInt args4).1 size = none)


/-- The invariant carried through creates and deletes: the index lists exactly the live
records, once each, and the value under the key of the index is no record. -/
def indexConsistent (s : Store) : Prop :=
  (∀ id ∈ recordIndex s, liveRecord s id) ∧ (∀ id, liveRecord s id → id ∈ recordIndex s) ∧
    (recordIndex s).Nodup ∧ record s marbleIndexStr = Ekyc.zero

/-! ## Example ledgers -/

/-- A ledger with two marbles of bob and alice, both listed in the index. -/
def exampleFinder : Store :=
  PutState (PutState (PutState Store.empty marbleIndexStr (marshalStrings ["A1", "A2"]))
    "A1" (marshalEkyc ⟨"A1", 0, 5, "bob"⟩)) "A2" (marshalEkyc ⟨"A2", 0, 7, "alice"⟩)

/-- The ledger `exampleFinder` with two open trades of alice, the second of which
offers a shape she does not own. -/
def exampleSweep : Store :=
  PutState exampleFinder openTradesStr
    (marshalTrades ⟨[⟨"alice", 10, ⟨0, 5⟩, [⟨0, 7⟩, ⟨0, 9⟩]⟩, ⟨"alice", 11, ⟨0, 5⟩, [⟨0, 8⟩]⟩]⟩)

/-- A ledger whose index lists the key of the open trades, and whose value under that
key is a JSON object with the member `open_trades` (two trades of bob) and also the
members `aadharNum`, `timestamp`, `size`, `user` of a marble of bob.  Nothing keeps
`init_marble` from that id (which puts it in the index) nor `writeBank` from that key
(which stores the text its caller gives). -/
def exampleReservedKey : Store :=
  PutState (PutState Store.empty marbleIndexStr (marshalStrings [openTradesStr]))
    openTradesStr
    ⟨⟨"x", 1, 1, "bob"⟩, [],
      ⟨[⟨"bob", 10, ⟨0, 5⟩, [⟨1, 1⟩]⟩, ⟨"bob", 11, ⟨0, 5⟩, [⟨5, 5⟩]⟩]⟩, none⟩

/-- The ledger established by `Init` on an empty ledger. -/
def scenarioInit : Store := (Init Store.empty ["0"]).2

/-- The ledger after the creation of A1 (size 5, bob) and A2 (size 7, alice). -/
def scenarioMarbles : Store :=
  (init_marble (init_marble scenarioInit ["A1", "blue", "5", "bob"]).2
    ["A2", "red", "7", "alice"]).2

/-- The ledger after alice opens, at time `now`, a trade wanting size 5 and willing to
give size 7. -/
def scenarioTrade (now : Int) : Store :=
  (open_trade now scenarioMarbles ["alice", "blue", "5", "red", "7"]).2

/-- A ledger with the marble A1 of bob and, under the indexed key `k`, the record that
`set_user` writes on a key holding no marble (empty id field, timestamp 0, size 0,
owner alice; the key is indexed when a marble was created under it and its value then
overwritten by `write`), and with one trade of alice wanting size 5 and willing to give
the shape of that record. -/
def examplePhantom : Store :=
  PutState
    (PutState
      (PutState (PutState Store.empty marbleIndexStr (marshalStrings ["A1", "k"]))
        "A1" (marshalEkyc ⟨"A1", 0, 5, "bob"⟩))
      "k" (marshalEkyc ⟨"", 0, 0, "alice"⟩))
    openTradesStr (marshalTrades ⟨[⟨"alice", 10, ⟨0, 5⟩, [⟨0, 0⟩]⟩]⟩)

/-- The ledger `exampleFinder` with one trade of alice wanting size 5 and willing to
give size 7. -/
def exampleOneTrade : Store :=
  PutState exampleFinder openTradesStr (marshalTrades ⟨[⟨"alice", 10, ⟨0, 5⟩, [⟨0, 7⟩]⟩]⟩)

/-- The ledger `exampleFinder` with three trades of alice, the first and the third
with the same id 10: the first wants size 5, the third wants size 6. -/
def exampleSameId : Store :=
  PutState exampleFinder openTradesStr
    (marshalTrades ⟨[⟨"alice", 10, ⟨0, 5⟩, [⟨0, 7⟩]⟩, ⟨"alice", 11, ⟨0, 5⟩, [⟨0, 7⟩]⟩,
      ⟨"alice", 10, ⟨0, 6⟩, [⟨0, 7⟩]⟩]⟩)

/-- A ledger whose index lists the key `k` twice (`init_marble` appends without
looking at the index, and runs again on an id whose value was overwritten), with under
`k` a marble of the user with the empty name (timestamp 0, size 0), and one trade of
that user willing to give that shape. -/
def exampleTwiceIndexed : Store :=
  PutState
    (PutState (PutState Store.empty marbleIndexStr (marshalStrings ["k", "k"]))
      "k" (marshalEkyc ⟨"k", 0, 0, ""⟩))
    openTradesStr (marshalTrades ⟨[⟨"", 10, ⟨0, 5⟩, [⟨0, 0⟩]⟩]⟩)

/-- A clock and a reading of free-form bytes, for the examples that go through `Invoke`. -/
def exampleEnv : Env := ⟨1000, "Monday, 02-Jan-06 15:04:05 UTC", fun _ => plainBytes, fun _ => ""⟩

/-! ## Further reference definitions -/

/-- The offered sizes read by the loop of `open_trade` from the arguments after the
first three: of each pair, the second entry (`args[4]`, `args[6]`, ...). -/
def offeredSizes : List String → List String
  | _ :: z :: rest => z :: offeredSizes rest
  | _ => []

/-- Whether the text is a decimal numeral for `strconv`: an optional sign followed by
one digit or more. -/
def isNumeral (s : String) : Bool :=
  let cs := s.data
  let body := if cs.head? = some '-' ∨ cs.head? = some '+' then cs.tail else cs
  !body.isEmpty && (parseDigits body 0).isSome

/-! ## Further example ledgers -/

/-- The ledger of the scenario with a further marble created under the id `_debug1`. -/
def exampleDebugKey : Store :=
  (init_marble scenarioMarbles ["_debug1", "green", "9", "carol"]).2

/-! ## Example ledgers of the later claims -/

/-- The ledger of the scenario after alice opened the same trade twice, at the times
1000 and 1001. -/
def exampleTwoTrades : Store :=
  (open_trade 1001 (scenarioTrade 1000) ["alice", "blue", "5", "red", "7"]).2

/-- The ledger after `Init`, the creation of a marble `k`, a `write` of a text over
it, the creation of `k` again (the text is no record, so the id passes for new: the
index lists `k` twice) and `Delete` of `k`: the index still lists `k` once, and no
value is stored under it. -/
def exampleIndexedAbsent : Store :=
  (Delete
    (init_marble
      (Write exampleEnv (init_marble scenarioInit ["k", "blue", "5", "bob"]).2 ["k", "x"]).2
      ["k", "blue", "5", "bob"]).2
    ["k"]).2

/-- The ledger after `Init`, the creation of A1 (size 7, of `owner`) and of A2 (size 7,
of alice), and a trade opened by alice at time 10, wanting size 7 and willing to give
size 7. -/
def exampleCloserOwner (owner : String) : Store :=
  (open_trade 10
    (init_marble (init_marble scenarioInit ["A1", "blue", "7", owner]).2
      ["A2", "red", "7", "alice"]).2
    ["alice", "blue", "7", "red", "7"]).2

/-- The ledger of the scenario after `set_user` gave A1 to `ÉMILE`: the owner is
stored as given, in capitals. -/
def exampleUnicodeOwner : Store := (set_user scenarioMarbles ["A1", "ÉMILE"]).2

/-! # Lemmas -/

set_option linter.unusedVariables false

/-! ## Library functions -/

theorem atoi_range (s : String) (h : (Atoi s).2 = true) :
    -(2 ^ 63) ≤ (Atoi s).1 ∧ (Atoi s).1 < 2 ^ 63 := by
  unfold Atoi ParseInt at h ⊢
  simp only at h ⊢
  generalize (if s.data.head? = some '-' ∨ s.data.head? = some '+' then s.data.tail
    else s.data) = body at h ⊢
  generalize decide (s.data.head? = some '-') = neg at h ⊢
  by_cases hb : body = []
  · rw [if_pos hb] at h
    exact absurd h (by simp)
  · rw [if_neg hb] at h ⊢
    generalize parseDigits body 0 = r at h ⊢
    cases r with
    | none =>
      exact absurd h (by simp)
    | some un =>
      simp only at h ⊢
      by_cases c1 : neg = false ∧ un ≥ 2 ^ 63
      · rw [if_pos c1] at h
        exact absurd h (by simp)
      · rw [if_neg c1] at h ⊢
        by_cases c2 : neg = true ∧ un > 2 ^ 63
        · rw [if_pos c2] at h
          exact absurd h (by simp)
        · rw [if_neg c2]
          cases neg with
          | true =>
            have : ¬ un > 2 ^ 63 := fun hc => c2 ⟨rfl, hc⟩
            simp only [if_true]
            constructor <;> omega
          | false =>
            have : ¬ un ≥ 2 ^ 63 := fun hc => c1 ⟨rfl, hc⟩
            simp only [Bool.false_eq_true, if_false]
            constructor <;> omega

set_option maxRecDepth 100000 in
/-- Every run of the table maps into the characters beyond the backslash. -/
theorem lowerCaseRanges_sound : ∀ r ∈ lowerCaseRanges,
    93 ≤ r.target ∧ r.lo ≤ r.hi ∧
      (r.target + (r.hi - r.lo) < 55296 ∨
        (57343 < r.target ∧ r.target + (r.hi - r.lo) < 1114112)) := by
  decide

theorem toNat_ofNat_valid (n : Nat) (h : n < 55296 ∨ (57343 < n ∧ n < 1114112)) :
    (Char.ofNat n).toNat = n := by
  have hv : n.isValidChar := h
  simp only [Char.ofNat, hv, Char.ofNatAux, Char.toNat, dif_pos]
  rfl

theorem lowerCode_plain (c : Char)
    (h : (c.toNat != 34 && c.toNat != 92 && decide (32 ≤ c.toNat)) = true) :
    ((Char.ofNat (lowerCode c.toNat)).toNat != 34 && (Char.ofNat (lowerCode c.toNat)).toNat != 92
      && decide (32 ≤ (Char.ofNat (lowerCode c.toNat)).toNat)) = true := by
  unfold lowerCode
  by_cases h128 : c.toNat < 128
  · rw [if_pos h128]
    by_cases hu : 65 ≤ c.toNat ∧ c.toNat ≤ 90
    · rw [if_pos hu]
      obtain ⟨h65, h90⟩ := hu
      generalize c.toNat = k at h65 h90
      interval_cases k <;> decide
    · rw [if_neg hu, Char.ofNat_toNat]
      exact h
  · rw [if_neg h128]
    split
    · rename_i r hr
      have hmem := List.mem_of_find?_eq_some hr
      have hp := List.find?_some hr
      simp only [decide_eq_true_eq] at hp
      obtain ⟨h93, hle, hvalid⟩ := lowerCaseRanges_sound r hmem
      have hv : r.target + (c.toNat - r.lo) < 55296 ∨
          (57343 < r.target + (c.toNat - r.lo) ∧ r.target + (c.toNat - r.lo) < 1114112) := by
        omega
      rw [toNat_ofNat_valid _ hv]
      simp only [Bool.and_eq_true, bne_iff_ne, ne_eq, decide_eq_true_eq]
      omega
    · rw [Char.ofNat_toNat]
      exact h

/-- The lower-casing of letters within and beyond ASCII. -/
theorem toLower_examples :
    ToLower "Alice" = "alice" ∧ ToLower "ÉMILE" = "émile" ∧ ToLower "ΣΟΦΊΑ" = "σοφία" ∧
      ToLower "blue 16" = "blue 16" := by
  decide

theorem jsonPlain_toLower (s : String) (h : jsonPlain s = true) :
    jsonPlain (ToLower s) = true := by
  unfold jsonPlain ToLower at *
  simp only [List.all_eq_true, List.mem_map, forall_exists_index, and_imp,
    forall_apply_eq_imp_iff₂] at h ⊢
  intro c hc
  exact lowerCode_plain c (h c hc)

/-! ## The text of a created marble -/

theorem scanString_plain (rest : List Char) :
    ∀ (cs : List Char) (fuel : Nat),
      (cs.all fun c => c.toNat != 34 && c.toNat != 92 && decide (32 ≤ c.toNat)) = true →
      cs.length < fuel → scanString fuel (cs ++ '"' :: rest) = some (cs, rest)
  | [], fuel, _, hfuel => by
    obtain ⟨f, rfl⟩ : ∃ f, fuel = f + 1 := ⟨fuel - 1, by simp at hfuel; omega⟩
    simp [scanString]
  | c :: cs, fuel, hplain, hfuel => by
    obtain ⟨f, rfl⟩ : ∃ f, fuel = f + 1 := ⟨fuel - 1, by simp at hfuel; omega⟩
    simp only [List.all_cons, Bool.and_eq_true, bne_iff_ne, ne_eq, decide_eq_true_eq] at hplain
    obtain ⟨⟨⟨h34, h92⟩, h32⟩, hrest⟩ := hplain
    have hq : c ≠ '"' := fun h => h34 (by rw [h]; rfl)
    have hb : c ≠ '\\' := fun h => h92 (by rw [h]; rfl)
    have hc : ¬ c.toNat < 32 := by omega
    have ih := scanString_plain rest cs f hrest (by simp at hfuel; omega)
    simp [scanString, hq, hb, hc, ih]

theorem parseDigits_append : ∀ (xs ys : List Char) (acc : Nat),
    parseDigits (xs ++ ys) acc = (parseDigits xs acc).bind (parseDigits ys)
  | [], ys, acc => by simp [parseDigits]
  | c :: xs, ys, acc => by
    simp only [List.cons_append, parseDigits]
    split_ifs
    · exact parseDigits_append xs ys _
    · rfl

theorem digit_char (n : Nat) (h : n < 10) :
    (Char.ofNat (48 + n)).isDigit = true ∧ (Char.ofNat (48 + n)).toNat - 48 = n ∧
      (Char.ofNat (48 + n) = '0' ↔ n = 0) := by
  interval_cases n <;> decide

theorem parseDigits_natDigits : ∀ (fuel n : Nat), n < fuel →
    parseDigits (natDigits fuel n) 0 = some n
  | 0, n, h => by omega
  | fuel + 1, n, h => by
    by_cases h10 : n < 10
    · obtain ⟨hd, hv, -⟩ := digit_char n h10
      simp [natDigits, h10, parseDigits, hd, hv]
    · have ih := parseDigits_natDigits fuel (n / 10) (by omega)
      obtain ⟨hd, hv, -⟩ := digit_char (n % 10) (Nat.mod_lt _ (by norm_num))
      simp only [natDigits, h10, if_false, parseDigits_append, ih, Option.some_bind,
        parseDigits, hd, if_true, hv]
      congr 1
      omega

theorem natDigits_all_digits : ∀ (fuel n : Nat),
    ∀ c ∈ natDigits fuel n, c.isDigit = true
  | 0, n => by simp [natDigits]
  | fuel + 1, n => by
    intro c hc
    by_cases h10 : n < 10
    · simp only [natDigits, h10, if_true, List.mem_singleton] at hc
      rw [hc]
      exact (digit_char n h10).1
    · simp only [natDigits, h10, if_false, List.mem_append, List.mem_singleton] at hc
      rcases hc with hc | hc
      · exact natDigits_all_digits fuel (n / 10) c hc
      · rw [hc]
        exact (digit_char (n % 10) (Nat.mod_lt _ (by norm_num))).1

/-- The digits of a positive number start with a digit other than zero. -/
theorem natDigits_head : ∀ (fuel n : Nat), n < fuel → 0 < n →
    ∃ d ds, natDigits fuel n = d :: ds ∧ d ≠ '0' ∧ d.isDigit = true
  | 0, n, h, _ => by omega
  | fuel + 1, n, h, hpos => by
    by_cases h10 : n < 10
    · refine ⟨Char.ofNat (48 + n), [], by simp [natDigits, h10], ?_, (digit_char n h10).1⟩
      intro h0
      have := (digit_char n h10).2.2.mp h0
      omega
    · obtain ⟨d, ds, heq, hd, hdig⟩ := natDigits_head fuel (n / 10) (by omega) (by omega)
      exact ⟨d, ds ++ [Char.ofNat (48 + n % 10)], by simp [natDigits, h10, heq], hd, hdig⟩

theorem natDigits_zero (fuel : Nat) : natDigits (fuel + 1) 0 = ['0'] := rfl

theorem natDigits_cons (m : Nat) :
    ∃ d ds, natDigits (m + 1) m = d :: ds ∧ d.isDigit = true ∧ (d = '0' → m = 0 ∧ ds = []) := by
  by_cases h0 : m = 0
  · subst h0
    exact ⟨'0', [], rfl, by decide, fun _ => ⟨rfl, rfl⟩⟩
  · obtain ⟨d, ds, heq, hd, hdig⟩ := natDigits_head (m + 1) m (by omega) (by omega)
    exact ⟨d, ds, heq, hdig, fun h => absurd h hd⟩

/-- The text of `Itoa` is read back by `ParseInt`. -/
theorem parseInt_itoa (n : Int) (hlo : -(2 ^ 63) ≤ n) (hhi : n < 2 ^ 63) :
    ParseInt (Itoa n) = (n, true) := by
  by_cases hneg : n < 0
  · obtain ⟨d, ds, heq, hdig, -⟩ := natDigits_cons n.natAbs
    have hp := parseDigits_natDigits (n.natAbs + 1) n.natAbs (by omega)
    rw [heq] at hp
    have hle : ¬ n.natAbs > 2 ^ 63 := by omega
    have hval : -(n.natAbs : Int) = n := by omega
    simp [ParseInt, Itoa, hneg, heq, hp, hle, hval]
    rw [if_neg (by omega), abs_of_neg hneg, neg_neg]
  · obtain ⟨d, ds, heq, hdig, -⟩ := natDigits_cons n.toNat
    have hp := parseDigits_natDigits (n.toNat + 1) n.toNat (by omega)
    rw [heq] at hp
    have hm : d ≠ '-' := fun h => by rw [h] at hdig; exact absurd hdig (by decide)
    have hpl : d ≠ '+' := fun h => by rw [h] at hdig; exact absurd hdig (by decide)
    have hlt : ¬ n.toNat ≥ 2 ^ 63 := by omega
    have hval : (n.toNat : Int) = n := by omega
    simp [ParseInt, Itoa, hneg, heq, hp, hm, hpl, hlt, hval]
    omega

theorem spanDigits_digits (c : Char) (rest : List Char) (hc : c.isDigit = false) :
    ∀ ds : List Char, (∀ d ∈ ds, d.isDigit = true) →
      spanDigits (ds ++ c :: rest) = (ds, c :: rest)
  | [], _ => by simp [spanDigits, hc]
  | d :: ds, h => by
    have ih := spanDigits_digits c rest hc ds (fun x hx => h x (List.mem_cons_of_mem _ hx))
    have hd := h d (List.mem_cons_self _ _)
    simp [spanDigits, hd, ih]

/-- The text of `Itoa` before a comma is one JSON number. -/
theorem scanNumber_itoa (n : Int) (rest : List Char) :
    scanNumber ((Itoa n).data ++ ',' :: rest) = some ((Itoa n).data, ',' :: rest) := by
  have hdigits : ∀ m : Nat, scanNumber (natDigits (m + 1) m ++ ',' :: rest) =
      some (natDigits (m + 1) m, ',' :: rest) ∧
      scanInteger (natDigits (m + 1) m ++ ',' :: rest) =
        some (natDigits (m + 1) m, ',' :: rest) := by
    intro m
    obtain ⟨d, ds, heq, hdig, hzero⟩ := natDigits_cons m
    have hall : ∀ x ∈ ds, x.isDigit = true := fun x hx =>
      natDigits_all_digits (m + 1) m x (by rw [heq]; exact List.mem_cons_of_mem _ hx)
    have hm : d ≠ '-' := fun h => by rw [h] at hdig; exact absurd hdig (by decide)
    have hint : scanInteger (d :: ds ++ ',' :: rest) = some (d :: ds, ',' :: rest) := by
      by_cases h0 : d = '0'
      · obtain ⟨-, hds⟩ := hzero h0
        subst hds
        simp [scanInteger, h0]
      · have hsp := spanDigits_digits ',' rest (by decide) ds hall
        simp [scanInteger, h0, hdig, hsp]
    rw [heq]
    refine ⟨?_, hint⟩
    simp only [scanNumber, List.cons_append, List.head?_cons, Option.some.injEq, hm, if_false]
    have hint2 : scanInteger (d :: (ds ++ ',' :: rest)) = some (d :: ds, ',' :: rest) := hint
    rw [hint2]
    simp [scanFraction, scanExponent]
  by_cases hneg : n < 0
  · have h := (hdigits n.natAbs).2
    simp only [Itoa, hneg, if_true, List.cons_append, scanNumber, List.head?_cons, List.tail_cons,
      h]
    simp [scanFraction, scanExponent]
  · have h := (hdigits n.toNat).1
    simpa [Itoa, hneg] using h

theorem itoa_cons (n : Int) :
    ∃ d ds, (Itoa n).data = d :: ds ∧ (d = '-' ∨ d.isDigit = true) := by
  by_cases hneg : n < 0
  · exact ⟨'-', natDigits (n.natAbs + 1) n.natAbs, by simp [Itoa, hneg], Or.inl rfl⟩
  · obtain ⟨d, ds, heq, hdig, -⟩ := natDigits_cons n.toNat
    exact ⟨d, ds, by simp [Itoa, hneg, heq], Or.inr hdig⟩

/-- A string value after a blank, written without escapes. -/
theorem parseValue_string (f depth : Nat) (v rest : List Char)
    (hplain : (v.all fun c => c.toNat != 34 && c.toNat != 92 && decide (32 ≤ c.toNat)) = true) :
    parseValue (f + 1) depth (' ' :: '"' :: (v ++ '"' :: rest)) =
      some (JVal.str (String.mk v), rest) := by
  have hscan := fun fuel => scanString_plain rest v fuel hplain
  simp only [parseValue, skipWs]
  simp only [Char.reduceEq, or_false, false_or, or_true, true_or, if_true, if_false]
  rw [hscan _ (by simp only [List.length_append, List.length_cons]; omega)]
  rfl

/-- A number value after a blank and before a comma, as `Itoa` writes it. -/
theorem parseValue_number (f depth : Nat) (n : Int) (rest : List Char) :
    parseValue (f + 1) depth (' ' :: ((Itoa n).data ++ ',' :: rest)) =
      some (JVal.num (Itoa n), ',' :: rest) := by
  have hscan := scanNumber_itoa n rest
  obtain ⟨d, ds, heq, hd⟩ := itoa_cons n
  rw [heq] at hscan
  have hne : d ≠ ' ' ∧ d ≠ '\t' ∧ d ≠ '\n' ∧ d ≠ '\r' ∧ d ≠ '{' ∧ d ≠ '[' ∧ d ≠ '"' ∧
      d ≠ 't' ∧ d ≠ 'f' ∧ d ≠ 'n' := by
    rcases hd with hd | hd
    · subst hd
      decide
    · refine ⟨?_, ?_, ?_, ?_, ?_, ?_, ?_, ?_, ?_, ?_⟩ <;>
        exact fun h => by rw [h] at hd; exact absurd hd (by decide)
  obtain ⟨h1, h2, h3, h4, h5, h6, h7, h8, h9, h10⟩ := hne
  have hstr : String.mk (d :: ds) = Itoa n := by
    rw [← heq]
  simp only [List.cons_append] at hscan
  simp [parseValue, skipWs, heq, h1, h2, h3, h4, h5, h6, h7, h8, h9, h10, hscan, hstr]

/-- A member that a comma follows. -/
theorem parseMembers_comma (f depth : Nat) (cs k vtext rest : List Char) (v : JVal)
    (hws : skipWs cs = '"' :: (k ++ '"' :: ':' :: vtext))
    (hplain : (k.all fun c => c.toNat != 34 && c.toNat != 92 && decide (32 ≤ c.toNat)) = true)
    (hv : parseValue f depth vtext = some (v, ',' :: rest)) :
    parseMembers (f + 1) depth cs =
      (parseMembers f depth rest).map fun p => ((String.mk k, v) :: p.1, p.2) := by
  have hscan := fun fuel => scanString_plain (':' :: vtext) k fuel hplain
  simp only [parseMembers, hws, if_true]
  rw [hscan _ (by simp only [List.length_append, List.length_cons]; omega)]
  simp [skipWs, hv]

/-- The last member of an object. -/
theorem parseMembers_last (f depth : Nat) (cs k vtext rest : List Char) (v : JVal)
    (hws : skipWs cs = '"' :: (k ++ '"' :: ':' :: vtext))
    (hplain : (k.all fun c => c.toNat != 34 && c.toNat != 92 && decide (32 ≤ c.toNat)) = true)
    (hv : parseValue f depth vtext = some (v, '}' :: rest)) :
    parseMembers (f + 1) depth cs = some ([(String.mk k, v)], rest) := by
  have hscan := fun fuel => scanString_plain (':' :: vtext) k fuel hplain
  simp only [parseMembers, hws, if_true]
  rw [hscan _ (by simp only [List.length_append, List.length_cons]; omega)]
  simp [skipWs, hv]

/-- An object at the top of a text, whose first member starts right after the brace. -/
theorem parseValue_object (f : Nat) (rest : List Char) :
    parseValue (f + 1) 0 ('{' :: '"' :: rest) =
      (parseMembers f 1 ('"' :: rest)).map fun p => (JVal.obj p.1, p.2) := by
  simp [parseValue, skipWs, maxNestingDepth]

theorem jsonPlain_all (s : String) (h : jsonPlain s = true) :
    (s.data.all fun c => c.toNat != 34 && c.toNat != 92 && decide (32 ≤ c.toNat)) = true := h

/-- The characters of the text of a marble. -/
theorem marbleText_data (aadharNum timestamp : String) (size : Int) (user : String) :
    (marbleText aadharNum timestamp size user).data =
      '{' :: '"' :: ("aadharNum".data ++ '"' :: ':' :: ' ' :: '"' :: (aadharNum.data ++
        '"' :: ',' :: ' ' :: '"' :: ("timestamp".data ++ '"' :: ':' :: ' ' :: '"' ::
          (timestamp.data ++ '"' :: ',' :: ' ' :: '"' :: ("size".data ++ '"' :: ':' ::
            ' ' :: ((Itoa size).data ++ ',' :: ' ' :: '"' :: ("user".data ++ '"' :: ':' ::
              ' ' :: '"' :: (user.data ++ ['"', '}'])))))))) := by
  simp only [marbleText, String.data_append]
  simp

/-- The text of a marble whose strings need no escaping is a JSON object of four
members. -/
theorem parseJSON_marbleText (aadharNum timestamp : String) (size : Int) (user : String)
    (h1 : jsonPlain aadharNum = true) (h2 : jsonPlain timestamp = true)
    (h3 : jsonPlain user = true) :
    parseJSON (marbleText aadharNum timestamp size user) =
      some (JVal.obj [("aadharNum", JVal.str aadharNum), ("timestamp", JVal.str timestamp),
        ("size", JVal.num (Itoa size)), ("user", JVal.str user)]) := by
  have hlen : 5 ≤ (marbleText aadharNum timestamp size user).length := by
    rw [String.length, marbleText_data]
    simp only [List.length_cons, List.length_append]
    omega
  obtain ⟨g, hg⟩ : ∃ g, (marbleText aadharNum timestamp size user).length = g + 5 :=
    ⟨_, (Nat.sub_add_cancel hlen).symm⟩
  have v4 := parseValue_string g 1 user.data ['}'] (jsonPlain_all _ h3)
  have m4 := parseMembers_last (g + 1) 1 (' ' :: '"' :: ("user".data ++ '"' :: ':' ::
      ' ' :: '"' :: (user.data ++ ['"', '}']))) "user".data _ [] _
    (by simp [skipWs]) (by decide) v4
  have v3 := parseValue_number (g + 1) 1 size (' ' :: '"' :: ("user".data ++ '"' :: ':' ::
      ' ' :: '"' :: (user.data ++ ['"', '}'])))
  have m3 := parseMembers_comma (g + 2) 1 (' ' :: '"' :: ("size".data ++ '"' :: ':' ::
      ' ' :: ((Itoa size).data ++ ',' :: ' ' :: '"' :: ("user".data ++ '"' :: ':' ::
        ' ' :: '"' :: (user.data ++ ['"', '}']))))) "size".data _ _ _
    (by simp [skipWs]) (by decide) v3
  rw [m4] at m3
  have v2 := parseValue_string (g + 2) 1 timestamp.data (',' :: ' ' :: '"' :: ("size".data ++
      '"' :: ':' :: ' ' :: ((Itoa size).data ++ ',' :: ' ' :: '"' :: ("user".data ++ '"' ::
        ':' :: ' ' :: '"' :: (user.data ++ ['"', '}']))))) (jsonPlain_all _ h2)
  have m2 := parseMembers_comma (g + 3) 1 (' ' :: '"' :: ("timestamp".data ++ '"' :: ':' ::
      ' ' :: '"' :: (timestamp.data ++ '"' :: ',' :: ' ' :: '"' :: ("size".data ++ '"' ::
        ':' :: ' ' :: ((Itoa size).data ++ ',' :: ' ' :: '"' :: ("user".data ++ '"' :: ':' ::
          ' ' :: '"' :: (user.data ++ ['"', '}']))))))) "timestamp".data _ _ _
    (by simp [skipWs]) (by decide) v2
  rw [m3] at m2
  have v1 := parseValue_string (g + 3) 1 aadharNum.data (',' :: ' ' :: '"' ::
      ("timestamp".data ++ '"' :: ':' :: ' ' :: '"' :: (timestamp.data ++ '"' :: ',' :: ' ' ::
        '"' :: ("size".data ++ '"' :: ':' :: ' ' :: ((Itoa size).data ++ ',' :: ' ' :: '"' ::
          ("user".data ++ '"' :: ':' :: ' ' :: '"' :: (user.data ++ ['"', '}'])))))))
    (jsonPlain_all _ h1)
  have m1 := parseMembers_comma (g + 4) 1 ('"' :: ("aadharNum".data ++ '"' :: ':' :: ' ' ::
      '"' :: (aadharNum.data ++ '"' :: ',' :: ' ' :: '"' :: ("timestamp".data ++ '"' :: ':' ::
        ' ' :: '"' :: (timestamp.data ++ '"' :: ',' :: ' ' :: '"' :: ("size".data ++ '"' ::
          ':' :: ' ' :: ((Itoa size).data ++ ',' :: ' ' :: '"' :: ("user".data ++ '"' ::
            ':' :: ' ' :: '"' :: (user.data ++ ['"', '}']))))))))) "aadharNum".data _ _ _
    (by simp [skipWs]) (by decide) v1
  rw [m2] at m1
  have top := parseValue_object (g + 5) ("aadharNum".data ++ '"' :: ':' :: ' ' ::
      '"' :: (aadharNum.data ++ '"' :: ',' :: ' ' :: '"' :: ("timestamp".data ++ '"' :: ':' ::
        ' ' :: '"' :: (timestamp.data ++ '"' :: ',' :: ' ' :: '"' :: ("size".data ++ '"' ::
          ':' :: ' ' :: ((Itoa size).data ++ ',' :: ' ' :: '"' :: ("user".data ++ '"' ::
            ':' :: ' ' :: '"' :: (user.data ++ ['"', '}']))))))))
  rw [m1] at top
  unfold parseJSON
  rw [hg, marbleText_data, top]
  rfl

/-- What the decoders of the program see in the text of a marble whose strings need
no escaping: the id, the size and the user; the category, a JSON string, does not fit
the integer field `Timestamp`, which keeps 0. -/
theorem unmarshalText_marbleText (aadharNum timestamp : String) (size : Int) (user : String)
    (h1 : jsonPlain aadharNum = true) (h2 : jsonPlain timestamp = true)
    (h3 : jsonPlain user = true) (hlo : -(2 ^ 63) ≤ size) (hhi : size < 2 ^ 63) :
    unmarshalText (marbleText aadharNum timestamp size user) =
      ⟨⟨aadharNum, 0, size, user⟩, [], AllTrades.zero, some timestamp⟩ := by
  have k1 : keyIs "aadharNum" "aadharNum" = true := by decide
  have k2 : keyIs "aadharNum" "timestamp" = false := by decide
  have k3 : keyIs "timestamp" "timestamp" = true := by decide
  have k4 : keyIs "aadharNum" "size" = false := by decide
  have k5 : keyIs "timestamp" "size" = false := by decide
  have k6 : keyIs "size" "size" = true := by decide
  have k7 : keyIs "aadharNum" "user" = false := by decide
  have k8 : keyIs "timestamp" "user" = false := by decide
  have k9 : keyIs "size" "user" = false := by decide
  have k10 : keyIs "user" "user" = true := by decide
  have o1 : keyIs "open_trades" "aadharNum" = false := by decide
  have o2 : keyIs "open_trades" "timestamp" = false := by decide
  have o3 : keyIs "open_trades" "size" = false := by decide
  have o4 : keyIs "open_trades" "user" = false := by decide
  have hp := parseInt_itoa size hlo hhi
  unfold unmarshalText
  rw [parseJSON_marbleText aadharNum timestamp size user h1 h2 h3]
  have e1 : decEkyc Ekyc.zero (JVal.obj [("aadharNum", JVal.str aadharNum),
      ("timestamp", JVal.str timestamp), ("size", JVal.num (Itoa size)),
      ("user", JVal.str user)]) = ⟨aadharNum, 0, size, user⟩ := by
    simp [decEkyc, k1, k2, k3, k4, k5, k6, k7, k8, k9, k10, decString, decInt, hp, Ekyc.zero]
  have e2 : decTrades (JVal.obj [("aadharNum", JVal.str aadharNum),
      ("timestamp", JVal.str timestamp), ("size", JVal.num (Itoa size)),
      ("user", JVal.str user)]) = AllTrades.zero := by
    simp [decTrades, o1, o2, o3, o4, AllTrades.zero]
  have e3 : timestampText (JVal.obj [("aadharNum", JVal.str aadharNum),
      ("timestamp", JVal.str timestamp), ("size", JVal.num (Itoa size)),
      ("user", JVal.str user)]) = some timestamp := by
    have f1 : decide (("aadharNum" : String) = "timestamp") = false := by decide
    have f2 : decide (("size" : String) = "timestamp") = false := by decide
    have f3 : decide (("user" : String) = "timestamp") = false := by decide
    simp [timestampText, List.filter, f1, f2, f3]
  simp only [e1, e2, e3]
  rfl

/-- The value stored by `init_marble` when the id, the category and the owner need no
escaping. -/
theorem marbleLiteral_plain (a0 a1 a2 a3 : String) (h0 : jsonPlain a0 = true)
    (h1 : jsonPlain a1 = true) (h3 : jsonPlain a3 = true) (h2 : (Atoi a2).2 = true) :
    marbleLiteral a0 (ToLower a1) (Atoi a2).1 (ToLower a3) =
      ⟨⟨a0, 0, (Atoi a2).1, ToLower a3⟩, [], AllTrades.zero, some (ToLower a1)⟩ :=
  unmarshalText_marbleText a0 (ToLower a1) (Atoi a2).1 (ToLower a3) h0
    (jsonPlain_toLower a1 h1) (jsonPlain_toLower a3 h3) (atoi_range a2 h2).1 (atoi_range a2 h2).2

/-! ## Ledger lemmas -/

theorem getState_putState_same (s : Store) (k : String) (v : Blob) :
    GetState (PutState s k v) k = some v := by
  simp [GetState, PutState]

theorem getState_putState_other (s : Store) (k k2 : String) (v : Blob) (h : k2 ≠ k) :
    GetState (PutState s k v) k2 = GetState s k2 := by
  simp [GetState, PutState, h]

/-! ## Match Finder -/

theorem find_loop_eq (s : Store) (user : String) (timestamp size : Int) (idx : List String) :
    findMarble4Trade_loop s user timestamp size idx =
      (idx.find? fun key => matches4Trade (record s key) user timestamp size).map (record s) := by
  induction idx with
  | nil => rfl
  | cons key rest ih =>
    simp only [findMarble4Trade_loop, List.find?_cons, matches4Trade, record]
    by_cases h : ToLower (unmarshalEkyc (GetState s key)).User = ToLower user ∧
        (unmarshalEkyc (GetState s key)).Timestamp = timestamp ∧
        (unmarshalEkyc (GetState s key)).Size = size
    · simp [h, record]
    · simp only [h, if_false, decide_False]
      simpa [matches4Trade, record] using ih

theorem find_eq (s : Store) (user : String) (timestamp size : Int) :
    findMarble4Trade s user timestamp size =
      ((recordIndex s).find? fun key => matches4Trade (record s key) user timestamp size).map
        (record s) := by
  simp [findMarble4Trade, find_loop_eq, recordIndex]

/-! ## Consistency sweep -/

theorem options_loop_eq (s : Store) (user : String) :
    ∀ (fuel : Nat) (kept rest : List Description) (didWork : Bool), rest.length ≤ fuel →
      cleanTrades_options s user fuel kept.length (kept ++ rest) didWork =
        (kept ++ rest.filter (backed s user),
          didWork || rest.any fun e => !backed s user e) := by
  intro fuel
  induction fuel with
  | zero =>
    intro kept rest didWork h
    have : rest = [] := List.length_eq_zero.mp (Nat.le_zero.mp h)
    subst this
    simp [cleanTrades_options]
  | succ n ih =>
    intro kept rest didWork h
    cases rest with
    | nil => simp [cleanTrades_options]
    | cons d rest =>
      have hlen : rest.length ≤ n := by simpa using h
      have hget : (kept ++ d :: rest)[kept.length]? = some d := by
        rw [List.getElem?_append_right (Nat.le_refl _)]
        simp
      simp only [cleanTrades_options, hget]
      cases hf : findMarble4Trade s user d.Timestamp d.Size with
      | none =>
        have hb : backed s user d = false := by simp [backed, hf]
        have he : (kept ++ d :: rest).eraseIdx kept.length = kept ++ rest := by
          rw [List.eraseIdx_append_of_length_le (Nat.le_refl _)]
          simp
        simp only [he]
        rw [ih kept rest true hlen]
        simp [hb]
      | some m =>
        have hb : backed s user d = true := by simp [backed, hf]
        have h1 : kept ++ d :: rest = (kept ++ [d]) ++ rest := by simp
        have h2 : kept.length + 1 = (kept ++ [d]).length := by simp
        simp only []
        rw [h1, h2, ih (kept ++ [d]) rest didWork hlen]
        simp [hb]

/-- The sweep of a book, trade by trade. -/
theorem sweep_spec_cons (s : Store) (t : AnOpenTrade) (rest : List AnOpenTrade) :
    sweep_spec s (t :: rest) =
      if (sweep_prune s t).Willing.isEmpty then sweep_spec s rest
      else sweep_prune s t :: sweep_spec s rest := by
  simp only [sweep_spec, List.map_cons, List.filter_cons]
  cases (sweep_prune s t).Willing.isEmpty <;> simp

theorem trades_loop_eq (s : Store) :
    ∀ (fuel : Nat) (done rest : List AnOpenTrade) (didWork : Bool), rest.length ≤ fuel →
      cleanTrades_loop s fuel done.length (done ++ rest) didWork =
        (done ++ sweep_spec s rest,
          didWork || rest.any fun t =>
            (t.Willing.any fun e => !backed s t.User e) || (sweep_prune s t).Willing.isEmpty) := by
  intro fuel
  induction fuel with
  | zero =>
    intro done rest didWork h
    have : rest = [] := List.length_eq_zero.mp (Nat.le_zero.mp h)
    subst this
    simp [cleanTrades_loop, sweep_spec]
  | succ n ih =>
    intro done rest didWork h
    cases rest with
    | nil => simp [cleanTrades_loop, sweep_spec]
    | cons t rest =>
      have hlen : rest.length ≤ n := by simpa using h
      have hget : (done ++ t :: rest)[done.length]? = some t := by
        rw [List.getElem?_append_right (Nat.le_refl _)]
        simp
      have hopt := options_loop_eq s t.User t.Willing.length [] t.Willing didWork (Nat.le_refl _)
      simp only [List.length_nil, List.nil_append] at hopt
      have hset : (done ++ t :: rest).set done.length (sweep_prune s t) =
          done ++ sweep_prune s t :: rest := by
        rw [List.set_append_right _ _ (Nat.le_refl _)]
        simp
      simp only [cleanTrades_loop, hget, hopt]
      have hpr : ({ t with Willing := t.Willing.filter (backed s t.User) } : AnOpenTrade) =
          sweep_prune s t := rfl
      rw [hpr, hset, sweep_spec_cons]
      by_cases hz : (List.filter (backed s t.User) t.Willing).length = 0
      · have hemp : (sweep_prune s t).Willing.isEmpty = true := by
          simp only [sweep_prune]
          exact List.isEmpty_iff_length_eq_zero.mpr hz
        have he : (done ++ sweep_prune s t :: rest).eraseIdx done.length = done ++ rest := by
          rw [List.eraseIdx_append_of_length_le (Nat.le_refl _)]
          simp
        simp only [hz, if_true, he, hemp]
        rw [ih done rest true hlen]
        simp [hemp]
      · have hemp : (sweep_prune s t).Willing.isEmpty = false := by
          simp only [sweep_prune]
          cases hw : List.filter (backed s t.User) t.Willing with
          | nil => simp [hw] at hz
          | cons a l => rfl
        have h1 : done ++ sweep_prune s t :: rest = (done ++ [sweep_prune s t]) ++ rest := by simp
        have h2 : done.length + 1 = (done ++ [sweep_prune s t]).length := by simp
        simp only [hz, if_false, hemp]
        rw [h1, h2, ih (done ++ [sweep_prune s t]) rest _ hlen]
        simp [hemp, Bool.or_assoc]

theorem sweep_spec_length_le (s : Store) (trades : List AnOpenTrade) :
    (sweep_spec s trades).length ≤ trades.length := by
  unfold sweep_spec
  exact (List.length_filter_le _ _).trans (by simp)

theorem sweep_prune_eq_self (s : Store) (t : AnOpenTrade) :
    sweep_prune s t = t ↔ (t.Willing.any fun e => !backed s t.User e) = false := by
  constructor
  · intro h
    have hw : t.Willing.filter (backed s t.User) = t.Willing := by
      have := congrArg AnOpenTrade.Willing h
      simpa [sweep_prune] using this
    rw [List.filter_eq_self] at hw
    rw [List.any_eq_false]
    intro e he
    simp [hw e he]
  · intro h
    rw [List.any_eq_false] at h
    have hw : t.Willing.filter (backed s t.User) = t.Willing := by
      rw [List.filter_eq_self]
      intro e he
      simpa using h e he
    cases t
    simp only [sweep_prune] at hw ⊢
    simp [hw]

/-- Nothing is dropped exactly when the sweep gives the book back. -/
theorem sweep_spec_eq_self_iff (s : Store) (trades : List AnOpenTrade) :
    sweep_spec s trades = trades ↔
      (trades.any fun t =>
        (t.Willing.any fun e => !backed s t.User e) || (sweep_prune s t).Willing.isEmpty) = false := by
  induction trades with
  | nil => simp [sweep_spec]
  | cons t rest ih =>
    rw [sweep_spec_cons, List.any_cons, Bool.or_eq_false_iff, Bool.or_eq_false_iff, ← ih]
    cases hemp : (sweep_prune s t).Willing.isEmpty with
    | true =>
      simp only [if_true, Bool.true_eq_false, and_false, false_and, iff_false]
      intro h
      have := sweep_spec_length_le s rest
      rw [h] at this
      simp at this
    | false =>
      simp only [Bool.false_eq_true, if_false, List.cons.injEq, and_true]
      rw [sweep_prune_eq_self]

theorem cleanTrades_eq (s : Store) :
    cleanTrades s =
      if sweep_spec s (tradeBook s) = tradeBook s then s
      else PutState s openTradesStr (marshalTrades ⟨sweep_spec s (tradeBook s)⟩) := by
  have h := trades_loop_eq s (tradeBook s).length [] (tradeBook s) false (Nat.le_refl _)
  simp only [List.length_nil, List.nil_append, Bool.false_or] at h
  unfold cleanTrades
  simp only [tradeBook] at h ⊢
  rw [h]
  by_cases hs : sweep_spec s (unmarshalTrades (GetState s openTradesStr)).OpenTrades =
      (unmarshalTrades (GetState s openTradesStr)).OpenTrades
  · have := (sweep_spec_eq_self_iff s _).mp hs
    simp [hs, this]
  · have : ¬ _ = false := fun h2 => hs ((sweep_spec_eq_self_iff s _).mpr h2)
    simp only [Bool.not_eq_false] at this
    simp [hs, this]

theorem tradeBook_cleanTrades (s : Store) :
    tradeBook (cleanTrades s) = sweep_spec s (tradeBook s) := by
  rw [cleanTrades_eq]
  by_cases hs : sweep_spec s (tradeBook s) = tradeBook s
  · simp [hs]
  · rw [if_neg hs]
    simp only [tradeBook, getState_putState_same, unmarshalTrades, marshalTrades]

theorem getState_cleanTrades_other (s : Store) (key : String) (h : key ≠ openTradesStr) :
    GetState (cleanTrades s) key = GetState s key := by
  rw [cleanTrades_eq]
  by_cases hs : sweep_spec s (tradeBook s) = tradeBook s
  · simp [hs]
  · simp [hs, getState_putState_other _ _ _ _ h]

theorem marbleIndexStr_ne_openTradesStr : marbleIndexStr ≠ openTradesStr := by decide

theorem recordIndex_cleanTrades (s : Store) : recordIndex (cleanTrades s) = recordIndex s := by
  simp [recordIndex, getState_cleanTrades_other s _ marbleIndexStr_ne_openTradesStr]

theorem cleanTrades_of_empty_book (s : Store) (h : tradeBook s = []) : cleanTrades s = s := by
  rw [cleanTrades_eq, h]
  simp [sweep_spec]

theorem matches4Trade_lower (res : Ekyc) (user user2 : String) (timestamp size : Int)
    (h : ToLower user = ToLower user2) :
    matches4Trade res user timestamp size = matches4Trade res user2 timestamp size := by
  simp [matches4Trade, h]

theorem find_lower (s : Store) (user user2 : String) (timestamp size : Int)
    (h : ToLower user = ToLower user2) :
    findMarble4Trade s user timestamp size = findMarble4Trade s user2 timestamp size := by
  simp only [find_eq, matches4Trade_lower _ user user2 _ _ h]

theorem find_eq_none_iff (s : Store) (user : String) (timestamp size : Int) :
    findMarble4Trade s user timestamp size = none ↔
      ∀ key ∈ recordIndex s, matches4Trade (record s key) user timestamp size = false := by
  rw [find_eq]
  simp [List.find?_eq_none]

/-- The finder reads only the index and the records the index lists. -/
theorem find_congr (s s2 : Store) (user : String) (timestamp size : Int)
    (hidx : recordIndex s2 = recordIndex s)
    (hrec : ∀ key ∈ recordIndex s, record s2 key = record s key) :
    findMarble4Trade s2 user timestamp size = findMarble4Trade s user timestamp size := by
  rw [find_eq, find_eq, hidx]
  generalize recordIndex s = idx at hrec
  induction idx with
  | nil => rfl
  | cons key rest ih =>
    have hk := hrec key (List.mem_cons_self _ _)
    have ih2 := ih (fun k hk2 => hrec k (List.mem_cons_of_mem _ hk2))
    simp only [List.find?_cons, hk]
    cases matches4Trade (record s key) user timestamp size with
    | true => simp [hk]
    | false => simpa using ih2

theorem sweep_spec_congr (s s2 : Store)
    (h : ∀ user timestamp size,
      findMarble4Trade s2 user timestamp size = findMarble4Trade s user timestamp size)
    (trades : List AnOpenTrade) : sweep_spec s2 trades = sweep_spec s trades := by
  have hb : backed s2 = backed s := by
    funext user e
    simp [backed, h]
  have hp : sweep_prune s2 = sweep_prune s := by
    funext t
    simp [sweep_prune, hb]
  simp [sweep_spec, hp]

theorem sweep_prune_idem (s : Store) (t : AnOpenTrade) :
    sweep_prune s (sweep_prune s t) = sweep_prune s t := by
  simp [sweep_prune]

theorem sweep_spec_idem (s : Store) (trades : List AnOpenTrade) :
    sweep_spec s (sweep_spec s trades) = sweep_spec s trades := by
  induction trades with
  | nil => rfl
  | cons t rest ih =>
    rw [sweep_spec_cons]
    cases hemp : (sweep_prune s t).Willing.isEmpty with
    | true => simpa using ih
    | false =>
      simp only [Bool.false_eq_true, if_false]
      rw [sweep_spec_cons, sweep_prune_idem, hemp]
      simp [ih]

/-- Every option the sweep keeps is backed, and every trade it keeps has an option. -/
theorem mem_sweep_spec (s : Store) (trades : List AnOpenTrade) (t : AnOpenTrade)
    (h : t ∈ sweep_spec s trades) :
    (∃ t0 ∈ trades, t = sweep_prune s t0) ∧ t.Willing ≠ [] ∧
      ∀ e ∈ t.Willing, backed s t.User e = true := by
  simp only [sweep_spec, List.mem_filter, List.mem_map] at h
  obtain ⟨⟨t0, ht0, rfl⟩, hne⟩ := h
  refine ⟨⟨t0, ht0, rfl⟩, ?_, ?_⟩
  · intro hnil
    simp [hnil] at hne
  · intro e he
    simp only [sweep_prune, List.mem_filter] at he
    exact he.2

/-! ## Trade matching engine -/

theorem perform_trade_loop_succ (args1 args2 : String) (timestamp : Int) (args4 : String)
    (size : Int) (fuel i : Nat) (trades : List AnOpenTrade) (s : Store) (t : AnOpenTrade)
    (hget : trades[i]? = some t) :
    perform_trade_loop args1 args2 timestamp args4 size (fuel + 1) i trades s =
      if t.Timestamp = timestamp then
        if (unmarshalEkyc (GetState s args2)).Size ≠ t.Want.Size then
          (Outcome.error "marble in input does not meet trade requriements", s)
        else
          match findMarble4Trade s t.User (ParseInt args4).1 size with
          | some ekyc =>
            perform_trade_loop args1 args2 timestamp args4 size fuel (i + 1) (trades.eraseIdx i)
              (PutState (set_user (set_user s [args2, t.User]).2 [ekyc.AadharNum, args1]).2
                openTradesStr (marshalTrades ⟨trades.eraseIdx i⟩))
          | none => perform_trade_loop args1 args2 timestamp args4 size fuel (i + 1) trades s
      else perform_trade_loop args1 args2 timestamp args4 size fuel (i + 1) trades s := by
  rw [perform_trade_loop]
  simp only [hget]

theorem perform_trade_loop_skip (s : Store) (args1 args2 : String) (timestamp : Int)
    (args4 : String) (size : Int) (pre : List AnOpenTrade)
    (hpre : ∀ t ∈ pre, scanSkips s args2 timestamp args4 size t) :
    ∀ (done rest : List AnOpenTrade) (fuel : Nat),
      perform_trade_loop args1 args2 timestamp args4 size (pre.length + fuel) done.length
          (done ++ (pre ++ rest)) s =
        perform_trade_loop args1 args2 timestamp args4 size fuel (done.length + pre.length)
          (done ++ (pre ++ rest)) s := by
  induction pre with
  | nil => intro done rest fuel; simp
  | cons t pre ih =>
    intro done rest fuel
    have hget : (done ++ (t :: pre ++ rest))[done.length]? = some t := by
      rw [List.getElem?_append_right (Nat.le_refl _)]
      simp
    have hfuel : (t :: pre).length + fuel = (pre.length + fuel) + 1 := by
      simp only [List.length_cons]; omega
    have h1 : done ++ (t :: pre ++ rest) = (done ++ [t]) ++ (pre ++ rest) := by simp
    have h2 : done.length + 1 = (done ++ [t]).length := by simp
    have h3 : done.length + (t :: pre).length = (done ++ [t]).length + pre.length := by
      simp only [List.length_cons, List.length_append, List.length_nil]; omega
    have ih2 := ih (fun t2 ht2 => hpre t2 (List.mem_cons_of_mem _ ht2)) (done ++ [t]) rest fuel
    rw [hfuel, h3, perform_trade_loop_succ _ _ _ _ _ _ _ _ _ t hget]
    rcases hpre t (List.mem_cons_self _ _) with hne | ⟨hsz, hnone⟩
    · rw [if_neg hne, h1, h2]
      exact ih2
    · by_cases hid : t.Timestamp = timestamp
      · have hsz2 : ¬ (unmarshalEkyc (GetState s args2)).Size ≠ t.Want.Size := by
          simpa [record] using hsz
        rw [if_pos hid, if_neg hsz2]
        simp only [hnone]
        rw [h1, h2]
        exact ih2
      · rw [if_neg hid, h1, h2]
        exact ih2

/-- When every trade of the book is skipped, the scan ends with success and the ledger
as it was. -/
theorem perform_trade_loop_all_skipped (s : Store) (args1 args2 : String) (timestamp : Int)
    (args4 : String) (size : Int) (book : List AnOpenTrade)
    (h : ∀ t ∈ book, scanSkips s args2 timestamp args4 size t) :
    perform_trade_loop args1 args2 timestamp args4 size book.length 0 book s =
      (Outcome.ok, s) := by
  have := perform_trade_loop_skip s args1 args2 timestamp args4 size book h [] [] 0
  simp only [List.append_nil, List.nil_append, Nat.add_zero, List.length_nil,
    Nat.zero_add] at this
  rw [this]
  rfl

/-- The scan up to the first trade with the wanted id, when the sizes differ. -/
theorem perform_trade_loop_mismatch (s : Store) (args1 args2 : String) (timestamp : Int)
    (args4 : String) (size : Int) (pre post : List AnOpenTrade) (t : AnOpenTrade)
    (hpre : ∀ t2 ∈ pre, t2.Timestamp ≠ timestamp) (ht : t.Timestamp = timestamp)
    (hsize : (record s args2).Size ≠ t.Want.Size) :
    perform_trade_loop args1 args2 timestamp args4 size (pre ++ t :: post).length 0
        (pre ++ t :: post) s =
      (Outcome.error "marble in input does not meet trade requriements", s) := by
  have hskip := perform_trade_loop_skip s args1 args2 timestamp args4 size pre
    (fun t2 ht2 => Or.inl (hpre t2 ht2)) [] (t :: post) (post.length + 1)
  simp only [List.nil_append, List.length_nil, Nat.zero_add] at hskip
  have hlen : (pre ++ t :: post).length = pre.length + (post.length + 1) := by simp
  rw [hlen, hskip]
  have hget : (pre ++ t :: post)[pre.length]? = some t := by
    rw [List.getElem?_append_right (Nat.le_refl _)]
    simp
  rw [perform_trade_loop_succ _ _ _ _ _ _ _ _ _ t hget]
  have hsize2 : (unmarshalEkyc (GetState s args2)).Size ≠ t.Want.Size := by
    simpa [record] using hsize
  rw [if_pos ht, if_pos hsize2]

/-- The scan when the first trade with the wanted id is the last of the book, the sizes
agree and a marble of the opener is found: both marbles are rewritten, the book is
written without the trade. -/
theorem perform_trade_loop_last (s : Store) (args1 args2 : String) (timestamp : Int)
    (args4 : String) (size : Int) (pre : List AnOpenTrade) (t : AnOpenTrade) (ekyc : Ekyc)
    (hpre : ∀ t2 ∈ pre, t2.Timestamp ≠ timestamp) (ht : t.Timestamp = timestamp)
    (hsize : (record s args2).Size = t.Want.Size)
    (hfind : findMarble4Trade s t.User (ParseInt args4).1 size = some ekyc) :
    perform_trade_loop args1 args2 timestamp args4 size (pre ++ [t]).length 0 (pre ++ [t]) s =
      (Outcome.ok,
        PutState (set_user (set_user s [args2, t.User]).2 [ekyc.AadharNum, args1]).2
          openTradesStr (marshalTrades ⟨pre⟩)) := by
  have hskip := perform_trade_loop_skip s args1 args2 timestamp args4 size pre
    (fun t2 ht2 => Or.inl (hpre t2 ht2)) [] [t] 1
  simp only [List.nil_append, List.length_nil, Nat.zero_add] at hskip
  have hlen : (pre ++ [t]).length = pre.length + 1 := by simp
  rw [hlen, hskip]
  have hget : (pre ++ [t])[pre.length]? = some t := by
    rw [List.getElem?_append_right (Nat.le_refl _)]
    simp
  have he : (pre ++ [t]).eraseIdx pre.length = pre := by
    rw [List.eraseIdx_append_of_length_le (Nat.le_refl _)]
    simp
  rw [perform_trade_loop_succ _ _ _ _ _ _ _ _ _ t hget]
  have hsize2 : ¬ (unmarshalEkyc (GetState s args2)).Size ≠ t.Want.Size := by
    simpa [record] using hsize
  rw [if_pos ht, if_neg hsize2]
  simp only [hfind, he]
  rfl

theorem perform_trade_eq (s : Store) (a0 a1 a2 a3 a4 a5 : String) (more : List String)
    (tid size : Int) (h0 : ParseInt a0 = (tid, true)) (h5 : Atoi a5 = (size, true)) :
    perform_trade s (a0 :: a1 :: a2 :: a3 :: a4 :: a5 :: more) =
      perform_trade_loop a1 a2 tid a4 size (tradeBook s).length 0 (tradeBook s) s := by
  simp [perform_trade, h0, h5, tradeBook]

theorem record_putState_same (s : Store) (k : String) (e : Ekyc) :
    record (PutState s k (marshalEkyc e)) k = e := by
  simp [record, getState_putState_same, unmarshalEkyc, marshalEkyc]

theorem record_putState_other (s : Store) (k k2 : String) (v : Blob) (h : k2 ≠ k) :
    record (PutState s k v) k2 = record s k2 := by
  simp [record, getState_putState_other _ _ _ _ h]

theorem set_user_eq (s : Store) (a0 a1 : String) :
    (set_user s [a0, a1]).2 = PutState s a0 (marshalEkyc { record s a0 with User := a1 }) := by
  simp [set_user, record]

/-- The ledger after a fulfilled trade that was the last of the book. -/
theorem perform_trade_last (s : Store) (a0 a1 a2 a3 a4 a5 : String) (more : List String)
    (tid size : Int) (pre : List AnOpenTrade) (t : AnOpenTrade) (ekyc : Ekyc)
    (h0 : ParseInt a0 = (tid, true)) (h5 : Atoi a5 = (size, true))
    (hbook : tradeBook s = pre ++ [t])
    (hpre : ∀ t2 ∈ pre, t2.Timestamp ≠ tid) (ht : t.Timestamp = tid)
    (hsize : (record s a2).Size = t.Want.Size)
    (hfind : findMarble4Trade s t.User (ParseInt a4).1 size = some ekyc) :
    perform_trade s (a0 :: a1 :: a2 :: a3 :: a4 :: a5 :: more) =
      (Outcome.ok,
        PutState
          (PutState (PutState s a2 (marshalEkyc { record s a2 with User := t.User }))
            ekyc.AadharNum
            (marshalEkyc
              { record (PutState s a2 (marshalEkyc { record s a2 with User := t.User }))
                  ekyc.AadharNum with User := a1 }))
          openTradesStr (marshalTrades ⟨pre⟩)) := by
  rw [perform_trade_eq s a0 a1 a2 a3 a4 a5 more tid size h0 h5, hbook,
    perform_trade_loop_last s a1 a2 tid a4 size pre t ekyc hpre ht hsize hfind,
    set_user_eq, set_user_eq]

/-! ## Record registry -/

theorem recordIndex_putState_index (s : Store) (l : List String) :
    recordIndex (PutState s marbleIndexStr (marshalStrings l)) = l := by
  simp [recordIndex, getState_putState_same, unmarshalStrings, marshalStrings]

theorem record_putState_index (s : Store) (l : List String) :
    record (PutState s marbleIndexStr (marshalStrings l)) marbleIndexStr = Ekyc.zero := by
  simp [record, getState_putState_same, unmarshalEkyc, marshalStrings]

/-- What a successful `init_marble` does. -/
theorem init_marble_ok (s : Store) (a0 a1 a2 a3 : String)
    (h : (init_marble s [a0, a1, a2, a3]).1 = Outcome.ok) :
    a0 ≠ "" ∧ (record s a0).AadharNum ≠ a0 ∧
    init_marble s [a0, a1, a2, a3] =
      (Outcome.ok,
        PutState (PutState s a0 (marbleLiteral a0 (ToLower a1) (Atoi a2).1 (ToLower a3)))
          marbleIndexStr
          (marshalStrings
            (unmarshalStrings
              (GetState (PutState s a0 (marbleLiteral a0 (ToLower a1) (Atoi a2).1 (ToLower a3)))
                marbleIndexStr) ++ [a0]))) := by
  simp only [init_marble] at h ⊢
  split_ifs at h ⊢ with h0 h1 h2 h3 h4 h5
  refine ⟨?_, ?_, rfl⟩
  · intro he
    apply h0
    simp [he]
  · simpa [record] using h5

/-- A successful `init_marble` had a numeric size. -/
theorem init_marble_ok_numeric (s : Store) (a0 a1 a2 a3 : String)
    (h : (init_marble s [a0, a1, a2, a3]).1 = Outcome.ok) : (Atoi a2).2 = true := by
  simp only [init_marble] at h
  split_ifs at h with c0 c1 c2 c3 c4 c5
  simpa using c4

/-- A failed `init_marble` writes nothing. -/
theorem init_marble_not_ok (s : Store) (args : List String)
    (h : (init_marble s args).1 ≠ Outcome.ok) : (init_marble s args).2 = s := by
  by_cases shape : ∃ a0 a1 a2 a3, args = [a0, a1, a2, a3]
  · obtain ⟨a0, a1, a2, a3, rfl⟩ := shape
    simp only [init_marble] at h ⊢
    split_ifs at h ⊢ <;> first | rfl | exact absurd rfl h
  · unfold init_marble
    split
    · exact absurd ⟨_, _, _, _, rfl⟩ shape
    · rfl

theorem not_live_of_zero (s : Store) (id : String) (h : record s id = Ekyc.zero) :
    ¬ liveRecord s id := by
  rintro ⟨hne, heq⟩
  rw [h] at heq
  exact hne heq.symm

theorem indexConsistent_init (a : String) : indexConsistent (Init Store.empty [a]).2 := by
  simp only [Init]
  split_ifs with h
  · refine ⟨by simp [recordIndex, GetState, Store.empty, unmarshalStrings], ?_,
      by simp [recordIndex, GetState, Store.empty, unmarshalStrings], rfl⟩
    intro id hl
    exact absurd hl (not_live_of_zero _ _ rfl)
  · have hidx : recordIndex (PutState (PutState (PutState (PutState (PutState Store.empty "kyc"
        plainBytes) "bank" plainBytes) bankIndexStr (marshalStrings [])) marbleIndexStr
        (marshalStrings [])) openTradesStr (marshalTrades AllTrades.zero)) = [] := by
      simp only [recordIndex, getState_putState_other _ _ _ _ marbleIndexStr_ne_openTradesStr,
        getState_putState_same]
      rfl
    have hrec : ∀ id, record (PutState (PutState (PutState (PutState (PutState Store.empty "kyc"
        plainBytes) "bank" plainBytes) bankIndexStr (marshalStrings [])) marbleIndexStr
        (marshalStrings [])) openTradesStr (marshalTrades AllTrades.zero)) id = Ekyc.zero := by
      intro id
      simp only [record, GetState, PutState, Store.empty]
      split_ifs <;> rfl
    refine ⟨by simp [hidx], ?_, by simp [hidx], hrec _⟩
    intro id hl
    exact absurd hl (not_live_of_zero _ _ (hrec id))

theorem indexConsistent_create (s : Store) (args : List String) (h : indexConsistent s)
    (hreg : args.head? ≠ some marbleIndexStr) (hplain : ∀ a ∈ args, jsonPlain a = true) :
    indexConsistent (init_marble s args).2 := by
  by_cases hok : (init_marble s args).1 = Outcome.ok
  · have shape : ∃ a0 a1 a2 a3, args = [a0, a1, a2, a3] := by
      by_contra hn
      unfold init_marble at hok
      split at hok
      · exact hn ⟨_, _, _, _, rfl⟩
      · exact absurd hok (by simp)
    obtain ⟨a0, a1, a2, a3, rfl⟩ := shape
    have hid : a0 ≠ marbleIndexStr := by simpa using hreg
    obtain ⟨hne, hnotlive, heq⟩ := init_marble_ok s a0 a1 a2 a3 hok
    obtain ⟨h1, h2, h3, h4⟩ := h
    rw [heq]
    simp only [getState_putState_other _ _ _ _ (Ne.symm hid)]
    have hidx : unmarshalStrings (GetState s marbleIndexStr) = recordIndex s := rfl
    rw [hidx]
    have hnotin : a0 ∉ recordIndex s := fun hin => hnotlive (h1 a0 hin).2
    have hrec : ∀ k, k ≠ marbleIndexStr → k ≠ a0 →
        record (PutState (PutState s a0 (marbleLiteral a0 (ToLower a1) (Atoi a2).1 (ToLower a3)))
          marbleIndexStr (marshalStrings (recordIndex s ++ [a0]))) k = record s k := by
      intro k hk1 hk2
      rw [record_putState_other _ _ _ _ hk1, record_putState_other _ _ _ _ hk2]
    have hrec0 : record (PutState (PutState s a0 (marbleLiteral a0 (ToLower a1) (Atoi a2).1
        (ToLower a3))) marbleIndexStr (marshalStrings (recordIndex s ++ [a0]))) a0 =
        ⟨a0, 0, (Atoi a2).1, ToLower a3⟩ := by
      rw [record_putState_other _ _ _ _ hid]
      simp only [record, getState_putState_same]
      rw [marbleLiteral_plain a0 a1 a2 a3 (hplain a0 (by simp)) (hplain a1 (by simp))
        (hplain a3 (by simp)) (init_marble_ok_numeric s a0 a1 a2 a3 hok)]
      rfl
    refine ⟨?_, ?_, ?_, record_putState_index _ _⟩
    · intro k hk
      rw [recordIndex_putState_index] at hk
      rcases List.mem_append.mp hk with hk | hk
      · have hlive := h1 k hk
        have hk1 : k ≠ marbleIndexStr := fun e => not_live_of_zero s _ h4 (e ▸ hlive)
        have hk2 : k ≠ a0 := fun e => hnotin (e ▸ hk)
        exact ⟨hlive.1, by rw [hrec k hk1 hk2]; exact hlive.2⟩
      · have : k = a0 := by simpa using hk
        subst this
        exact ⟨hne, by rw [hrec0]⟩
    · intro k hlive
      rw [recordIndex_putState_index]
      by_cases hk2 : k = a0
      · simp [hk2]
      · have hk1 : k ≠ marbleIndexStr := by
          intro e
          subst e
          exact not_live_of_zero _ _ (record_putState_index _ _) hlive
        have : liveRecord s k := ⟨hlive.1, by rw [← hrec k hk1 hk2]; exact hlive.2⟩
        exact List.mem_append_left _ (h2 k this)
    · rw [recordIndex_putState_index]
      exact List.Nodup.append h3 (List.nodup_singleton _) (by simpa using hnotin)
  · rw [init_marble_not_ok s args hok]
    exact h

theorem indexConsistent_delete (s : Store) (args : List String) (h : indexConsistent s)
    (hreg : args.head? ≠ some marbleIndexStr) : indexConsistent (Delete s args).2 := by
  unfold Delete
  split
  · rename_i id
    have hid : id ≠ marbleIndexStr := by simpa using hreg
    obtain ⟨h1, h2, h3, h4⟩ := h
    have hidx : unmarshalStrings (GetState (DelState s id) marbleIndexStr) = recordIndex s := by
      simp [GetState, DelState, recordIndex, Ne.symm hid]
    simp only [hidx]
    have hrec : ∀ k, k ≠ marbleIndexStr → k ≠ id →
        record (PutState (DelState s id) marbleIndexStr
          (marshalStrings ((recordIndex s).erase id))) k = record s k := by
      intro k hk1 hk2
      rw [record_putState_other _ _ _ _ hk1]
      simp [record, GetState, DelState, hk2]
    have hrec0 : record (PutState (DelState s id) marbleIndexStr
        (marshalStrings ((recordIndex s).erase id))) id = Ekyc.zero := by
      rw [record_putState_other _ _ _ _ hid]
      simp [record, GetState, DelState, unmarshalEkyc]
    refine ⟨?_, ?_, ?_, record_putState_index _ _⟩
    · intro k hk
      rw [recordIndex_putState_index] at hk
      have hk' := (List.Nodup.mem_erase_iff h3).mp hk
      have hlive := h1 k hk'.2
      have hk1 : k ≠ marbleIndexStr := fun e => not_live_of_zero s _ h4 (e ▸ hlive)
      exact ⟨hlive.1, by rw [hrec k hk1 hk'.1]; exact hlive.2⟩
    · intro k hlive
      rw [recordIndex_putState_index]
      have hk2 : k ≠ id := by
        intro e
        subst e
        exact not_live_of_zero _ _ hrec0 hlive
      have hk1 : k ≠ marbleIndexStr := by
        intro e
        subst e
        exact not_live_of_zero _ _ (record_putState_index _ _) hlive
      have : liveRecord s k := ⟨hlive.1, by rw [← hrec k hk1 hk2]; exact hlive.2⟩
      exact (List.Nodup.mem_erase_iff h3).mpr ⟨hk2, h2 k this⟩
    · rw [recordIndex_putState_index]
      exact List.Nodup.erase _ h3
  · exact h

theorem indexConsistent_runOps (ops : List LedgerOp) :
    ∀ s, indexConsistent s → (∀ op ∈ ops, op.regular) → indexConsistent (runOps s ops) := by
  induction ops with
  | nil => intro s h _; exact h
  | cons op ops ih =>
    intro s h hreg
    have hop := hreg op (List.mem_cons_self _ _)
    apply ih _ _ (fun o ho => hreg o (List.mem_cons_of_mem _ ho))
    cases op with
    | create args => exact indexConsistent_create s args h hop.1 hop.2
    | delete args => exact indexConsistent_delete s args h hop

/-! ## Stale offers -/

theorem invoke_delete (env : Env) (s : Store) (args : List String) :
    Invoke env s "delete" args = ((Delete s args).1, cleanTrades (Delete s args).2) := by
  simp [Invoke]

theorem invoke_set_user (env : Env) (s : Store) (args : List String) :
    Invoke env s "set_user" args = ((set_user s args).1, cleanTrades (set_user s args).2) := by
  simp [Invoke]

theorem invoke_perform_trade (env : Env) (s : Store) (args : List String) :
    Invoke env s "perform_trade" args =
      if (perform_trade s args).1 = Outcome.indexPanic then perform_trade s args
      else ((perform_trade s args).1, cleanTrades (perform_trade s args).2) := by
  simp [Invoke]

/-- After a sweep of a ledger in which the finder finds nothing for entry `e` and the
owner of trade `t`, no trade of the book that is `t` with entries dropped lists `e`, and
none is left at all when `e` was the only entry of `t`. -/
theorem pruned_after_sweep (s : Store) (t : AnOpenTrade) (e : Description)
    (hnone : findMarble4Trade s t.User e.Timestamp e.Size = none) :
    (∀ t2 ∈ tradeBook (cleanTrades s), prunedFrom t t2 → e ∉ t2.Willing) ∧
    (t.Willing = [e] → ∀ t2 ∈ tradeBook (cleanTrades s), ¬ prunedFrom t t2) := by
  have key : ∀ t2 ∈ tradeBook (cleanTrades s), t2.User = t.User → e ∉ t2.Willing := by
    intro t2 ht2 hu he
    rw [tradeBook_cleanTrades] at ht2
    have hb := (mem_sweep_spec s _ t2 ht2).2.2 e he
    simp only [backed, hu, hnone] at hb
    exact absurd hb (by simp)
  refine ⟨fun t2 ht2 hp => key t2 ht2 hp.1, ?_⟩
  intro hw t2 ht2 hp
  have hne : t2.Willing ≠ [] := by
    rw [tradeBook_cleanTrades] at ht2
    exact (mem_sweep_spec s _ t2 ht2).2.1
  have hsub := hp.2.2.2
  rw [hw] at hsub
  have hcase : ∀ w : List Description, List.Sublist w [e] → w = [] ∨ w = [e] := by
    intro w h
    cases h with
    | cons _ h => left; exact List.sublist_nil.mp h
    | cons₂ _ h => right; rw [List.sublist_nil.mp h]
  have := hcase _ hsub
  rcases this with h | h
  · exact hne h
  · exact key t2 ht2 hp.1 (by simp [h])

theorem find_none_after_delete (s : Store) (k : String) (user : String) (timestamp size : Int)
    (honly : ∀ k2 ∈ recordIndex s,
      matches4Trade (record s k2) user timestamp size = true → k2 = k)
    (hzero : matches4Trade Ekyc.zero user timestamp size = false) :
    findMarble4Trade (Delete s [k]).2 user timestamp size = none := by
  rw [find_eq_none_iff]
  simp only [Delete]
  rw [recordIndex_putState_index]
  intro key hkey
  by_cases hk1 : key = marbleIndexStr
  · subst hk1
    rw [record_putState_index]
    exact hzero
  · rw [record_putState_other _ _ _ _ hk1]
    by_cases hk2 : key = k
    · subst hk2
      have : record (DelState s key) key = Ekyc.zero := by
        simp [record, GetState, DelState, unmarshalEkyc]
      rw [this]
      exact hzero
    · have hrec : record (DelState s k) key = record s key := by
        simp [record, GetState, DelState, hk2]
      rw [hrec]
      have hmem : key ∈ recordIndex s := by
        have h1 := List.mem_of_mem_erase hkey
        by_cases hk : k = marbleIndexStr
        · subst hk
          simp [GetState, DelState, unmarshalStrings] at h1
        · have : unmarshalStrings (GetState (DelState s k) marbleIndexStr) = recordIndex s := by
            simp [GetState, DelState, recordIndex, Ne.symm hk]
          rwa [this] at h1
      cases hm : matches4Trade (record s key) user timestamp size with
      | false => rfl
      | true => exact absurd (honly key hmem hm) hk2

theorem find_none_after_set_user (s : Store) (k u : String) (user : String)
    (timestamp size : Int)
    (honly : ∀ k2 ∈ recordIndex s,
      matches4Trade (record s k2) user timestamp size = true → k2 = k)
    (hu : ToLower u ≠ ToLower user) :
    findMarble4Trade (set_user s [k, u]).2 user timestamp size = none := by
  rw [find_eq_none_iff, set_user_eq]
  intro key hkey
  by_cases hk2 : key = k
  · subst hk2
    rw [record_putState_same]
    simp [matches4Trade, hu]
  · rw [record_putState_other _ _ _ _ hk2]
    have hmem : key ∈ recordIndex s := by
      by_cases hk : k = marbleIndexStr
      · subst hk
        simp [recordIndex, getState_putState_same, unmarshalStrings, marshalEkyc] at hkey
      · have : recordIndex (PutState s k (marshalEkyc { record s k with User := u })) =
            recordIndex s := by
          simp [recordIndex, getState_putState_other _ _ _ _ (Ne.symm hk)]
        rwa [this] at hkey
    cases hm : matches4Trade (record s key) user timestamp size with
    | false => rfl
    | true => exact absurd (honly key hmem hm) hk2

/-! ## Frame lemmas -/

theorem recordIndex_putState_other (s : Store) (k : String) (v : Blob)
    (h : k ≠ marbleIndexStr) : recordIndex (PutState s k v) = recordIndex s := by
  simp [recordIndex, getState_putState_other _ _ _ _ (Ne.symm h)]

theorem tradeBook_putState_other (s : Store) (k : String) (v : Blob)
    (h : k ≠ openTradesStr) : tradeBook (PutState s k v) = tradeBook s := by
  simp [tradeBook, getState_putState_other _ _ _ _ (Ne.symm h)]

theorem tradeBook_putState_trades (s : Store) (l : List AnOpenTrade) :
    tradeBook (PutState s openTradesStr (marshalTrades ⟨l⟩)) = l := by
  simp [tradeBook, getState_putState_same, unmarshalTrades, marshalTrades]

theorem getState_delState_same (s : Store) (k : String) : GetState (DelState s k) k = none := by
  simp [GetState, DelState]

theorem getState_delState_other (s : Store) (k k2 : String) (h : k2 ≠ k) :
    GetState (DelState s k) k2 = GetState s k2 := by
  simp [GetState, DelState, h]

theorem set_user_cons (s : Store) (a0 a1 : String) (more : List String) :
    set_user s (a0 :: a1 :: more) =
      (Outcome.ok, PutState s a0 (marshalEkyc { record s a0 with User := a1 })) := by
  simp [set_user, record]

theorem delete_eq (s : Store) (id : String) :
    Delete s [id] =
      (Outcome.ok,
        PutState (DelState s id) marbleIndexStr
          (marshalStrings ((recordIndex (DelState s id)).erase id))) := by
  simp [Delete, recordIndex]

/-! ## Trade removal -/

theorem remove_trade_loop_eq (timestamp : Int) (s : Store) :
    ∀ (rest done : List AnOpenTrade),
      remove_trade_loop timestamp (done ++ rest) s done.length rest =
        if ∃ t ∈ rest, t.Timestamp = timestamp then
          PutState s openTradesStr
            (marshalTrades ⟨done ++ rest.eraseP fun t => decide (t.Timestamp = timestamp)⟩)
        else s := by
  intro rest
  induction rest with
  | nil => intro done; simp [remove_trade_loop]
  | cons t rest ih =>
    intro done
    by_cases ht : t.Timestamp = timestamp
    · have he : (done ++ t :: rest).eraseIdx done.length = done ++ rest := by
        rw [List.eraseIdx_append_of_length_le (Nat.le_refl _)]
        simp
      have hex : ∃ t2 ∈ t :: rest, t2.Timestamp = timestamp := ⟨t, List.mem_cons_self _ _, ht⟩
      simp only [remove_trade_loop, if_pos ht, he, if_pos hex]
      simp [List.eraseP_cons, ht]
    · have h1 : done ++ t :: rest = (done ++ [t]) ++ rest := by simp
      have h2 : done.length + 1 = (done ++ [t]).length := by simp
      simp only [remove_trade_loop, if_neg ht]
      rw [h1, h2, ih (done ++ [t])]
      have hiff : (∃ t2 ∈ t :: rest, t2.Timestamp = timestamp) ↔
          ∃ t2 ∈ rest, t2.Timestamp = timestamp := by
        simp [ht]
      by_cases hex : ∃ t2 ∈ rest, t2.Timestamp = timestamp
      · rw [if_pos hex, if_pos (hiff.mpr hex)]
        simp [List.eraseP_cons, ht]
      · rw [if_neg hex, if_neg (fun h => hex (hiff.mp h))]

theorem remove_trade_eq (s : Store) (a0 : String) (more : List String) (tid : Int)
    (h0 : ParseInt a0 = (tid, true)) :
    remove_trade s (a0 :: more) =
      (Outcome.ok,
        if ∃ t ∈ tradeBook s, t.Timestamp = tid then
          PutState s openTradesStr
            (marshalTrades ⟨(tradeBook s).eraseP fun t => decide (t.Timestamp = tid)⟩)
        else s) := by
  have h := remove_trade_loop_eq tid s (tradeBook s) []
  simp only [List.nil_append, List.length_nil] at h
  simp only [remove_trade, h0]
  simp only [tradeBook] at h
  simp [h, tradeBook]

/-! ## Opening a trade -/

theorem offeredSizes_getElem : ∀ (l : List String) (j : Nat),
    (offeredSizes l)[j]? = l[2 * j + 1]?
  | [], j => by simp [offeredSizes]
  | [_], j => by simp [offeredSizes]
  | _ :: z :: rest, 0 => by simp [offeredSizes]
  | _ :: z :: rest, j + 1 => by
    have ih := offeredSizes_getElem rest j
    have : 2 * (j + 1) + 1 = (2 * j + 1) + 1 + 1 := by omega
    simp only [offeredSizes, List.getElem?_cons_succ, this]
    exact ih

theorem offeredSizes_length : ∀ (l : List String), (offeredSizes l).length = l.length / 2
  | [] => by simp [offeredSizes]
  | [_] => by simp [offeredSizes]
  | _ :: _ :: rest => by
    have ih := offeredSizes_length rest
    simp only [offeredSizes, List.length_cons, ih]
    omega

theorem parseInt_of_not_numeral (s : String) (h : isNumeral s = false) :
    ParseInt s = (0, false) := by
  unfold isNumeral at h
  unfold ParseInt
  simp only [Bool.and_eq_false_iff, Bool.not_eq_false', List.isEmpty_iff] at h
  rcases h with h | h
  · simp [h]
  · have hn : parseDigits
        (if s.data.head? = some '-' ∨ s.data.head? = some '+' then s.data.tail else s.data) 0
          = none := by
      cases hp : parseDigits
        (if s.data.head? = some '-' ∨ s.data.head? = some '+' then s.data.tail else s.data) 0
      · rfl
      · rw [hp] at h
        simp at h
    simp only [hn]
    split_ifs <;> rfl

/-- The loop of `open_trade` from index `i`, where the arguments from `i` on are
`rest`, of even length: it never reads past the arguments, writes the key `_debug2`
only, returns success with one shape appended per offered size when all are numeric,
and an error as soon as one is not. -/
theorem open_trade_loop_spec (args : List String) :
    ∀ (fuel i : Nat) (rest : List String) (opn : AnOpenTrade) (s : Store),
      args.drop i = rest → rest.length % 2 = 0 → rest.length ≤ 2 * fuel →
      ∃ r opn1 s1, open_trade_loop args fuel i opn s = (r, opn1, s1) ∧
        (∀ key, key ≠ "_debug2" → GetState s1 key = GetState s key) ∧
        ((∀ z ∈ offeredSizes rest, (Atoi z).2 = true) →
          r = Outcome.ok ∧
            opn1 = { opn with Willing := opn.Willing ++ (offeredSizes rest).map fun z =>
              (⟨(ParseInt (args.getD 0 "")).1, (Atoi z).1⟩ : Description) }) ∧
        ((∃ z ∈ offeredSizes rest, (Atoi z).2 = false) → ∃ msg, r = Outcome.error msg) := by
  intro fuel
  induction fuel with
  | zero =>
    intro i rest opn s hdrop heven hlen
    have hnil : rest = [] := List.length_eq_zero.mp (by omega)
    subst hnil
    refine ⟨Outcome.ok, opn, s, rfl, fun _ _ => rfl, ?_, ?_⟩
    · intro _
      exact ⟨rfl, by cases opn; simp [offeredSizes]⟩
    · rintro ⟨z, hz, _⟩
      simp [offeredSizes] at hz
  | succ n ih =>
    intro i rest opn s hdrop heven hlen
    match rest, hdrop, heven, hlen with
    | [], hdrop, _, _ =>
      have hge : ¬ i < args.length := by
        have := List.drop_eq_nil_iff.mp hdrop
        omega
      refine ⟨Outcome.ok, opn, s, by simp [open_trade_loop, hge], fun _ _ => rfl, ?_, ?_⟩
      · intro _
        exact ⟨rfl, by cases opn; simp [offeredSizes]⟩
      · rintro ⟨z, hz, _⟩
        simp [offeredSizes] at hz
    | [c], _, heven, _ => simp at heven
    | c :: z :: rest2, hdrop, heven, hlen =>
      have hlt : i < args.length := by
        by_contra hge
        have : args.drop i = [] := List.drop_eq_nil_iff.mpr (by omega)
        rw [this] at hdrop
        exact absurd hdrop (by simp)
      have hget : args[i + 1]? = some z := by
        have h1 : (args.drop i)[1]? = some z := by rw [hdrop]; simp
        rwa [List.getElem?_drop] at h1
      have hdrop2 : args.drop (i + 2) = rest2 := by
        have h1 : (args.drop i).drop 2 = rest2 := by rw [hdrop]; simp
        rw [List.drop_drop] at h1
        exact h1
      have heven2 : rest2.length % 2 = 0 := by
        simp only [List.length_cons] at heven
        omega
      have hlen2 : rest2.length ≤ 2 * n := by
        simp only [List.length_cons] at hlen
        omega
      by_cases hz : (Atoi z).2 = false
      · refine ⟨Outcome.error ("is not a numeric string " ++ z), opn, s, ?_, fun _ _ => rfl,
          ?_, ?_⟩
        · simp [open_trade_loop, hlt, hget, hz]
        · intro hall
          have := hall z (by simp [offeredSizes])
          rw [hz] at this
          exact absurd this (by simp)
        · intro _
          exact ⟨_, rfl⟩
      · have hz2 : (Atoi z).2 = true := by simpa using hz
        obtain ⟨r, opn1, s1, heq, hkeys, hok, herr⟩ := ih (i + 2) rest2
          { opn with Willing := opn.Willing ++
            [(⟨(ParseInt (args.getD 0 "")).1, (Atoi z).1⟩ : Description)] }
          (PutState s "_debug2"
            (marshalDescription ⟨(ParseInt (args.getD 0 "")).1, (Atoi z).1⟩))
          hdrop2 heven2 hlen2
        refine ⟨r, opn1, s1, ?_, ?_, ?_, ?_⟩
        · simp only [open_trade_loop, hlt, hget, hz, if_true, if_false]
          exact heq
        · intro key hkey
          rw [hkeys key hkey, getState_putState_other _ _ _ _ hkey]
        · intro hall
          obtain ⟨hr, hopn⟩ := hok (fun z2 hz2 => hall z2 (by simp [offeredSizes, hz2]))
          refine ⟨hr, ?_⟩
          rw [hopn]
          simp [offeredSizes]
        · rintro ⟨z2, hz2mem, hz2bad⟩
          simp only [offeredSizes, List.mem_cons] at hz2mem
          rcases hz2mem with rfl | hmem
          · rw [hz2] at hz2bad
            exact absurd hz2bad (by simp)
          · exact herr ⟨z2, hmem, hz2bad⟩

/-- The trade that `open_trade` builds from its arguments at clock value `now`. -/
theorem open_trade_ok (now : Int) (s : Store) (args : List String)
    (hlen : 5 ≤ args.length) (hodd : args.length % 2 = 1)
    (h2 : (Atoi (args.getD 2 "")).2 = true)
    (hoff : ∀ z ∈ offeredSizes (args.drop 3), (Atoi z).2 = true) :
    ∃ s2, (∀ key, key ≠ "_debug1" → key ≠ "_debug2" → GetState s2 key = GetState s key) ∧
      open_trade now s args = (Outcome.ok, PutState s2 openTradesStr (marshalTrades
        ⟨tradeBook s ++ [⟨args.getD 0 "", now,
          ⟨(ParseInt (args.getD 0 "")).1, (Atoi (args.getD 2 "")).1⟩,
          (offeredSizes (args.drop 3)).map fun z =>
            (⟨(ParseInt (args.getD 0 "")).1, (Atoi z).1⟩ : Description)⟩]⟩)) := by
  have heven : (args.drop 3).length % 2 = 0 := by
    rw [List.length_drop]
    omega
  have hbound : (args.drop 3).length ≤ 2 * args.length := by
    rw [List.length_drop]
    omega
  obtain ⟨r, opn1, s1, heq, hkeys, hok, -⟩ := open_trade_loop_spec args args.length 3
    (args.drop 3)
    ⟨args.getD 0 "", now, ⟨(ParseInt (args.getD 0 "")).1, (Atoi (args.getD 2 "")).1⟩, []⟩
    (PutState s "_debug1" (marshalOpenTrade
      ⟨args.getD 0 "", now, ⟨(ParseInt (args.getD 0 "")).1, (Atoi (args.getD 2 "")).1⟩, []⟩))
    rfl heven hbound
  obtain ⟨hr, hopn⟩ := hok hoff
  subst hr
  have hkeys2 : ∀ key, key ≠ "_debug1" → key ≠ "_debug2" → GetState s1 key = GetState s key := by
    intro key hk1 hk2
    rw [hkeys key hk2, getState_putState_other _ _ _ _ hk1]
  have hbook : (unmarshalTrades (GetState s1 openTradesStr)).OpenTrades = tradeBook s := by
    rw [hkeys2 openTradesStr (by decide) (by decide)]
    rfl
  refine ⟨s1, hkeys2, ?_⟩
  have h5 : ¬ args.length < 5 := by omega
  have hodd2 : ¬ args.length % 2 = 0 := by omega
  simp only [open_trade, h5, hodd2, h2, if_false, heq, hbook, hopn, List.nil_append]
  simp

/-- An offered size that is not numeric makes `open_trade` fail after the key
`_debug1`, and possibly `_debug2`, were written. -/
theorem open_trade_bad_offer (now : Int) (s : Store) (args : List String)
    (hlen : 5 ≤ args.length) (hodd : args.length % 2 = 1)
    (h2 : (Atoi (args.getD 2 "")).2 = true)
    (hbad : ∃ z ∈ offeredSizes (args.drop 3), (Atoi z).2 = false) :
    ∃ msg s2, open_trade now s args = (Outcome.error msg, s2) ∧
      ∀ key, key ≠ "_debug1" → key ≠ "_debug2" → GetState s2 key = GetState s key := by
  have heven : (args.drop 3).length % 2 = 0 := by
    rw [List.length_drop]
    omega
  have hbound : (args.drop 3).length ≤ 2 * args.length := by
    rw [List.length_drop]
    omega
  obtain ⟨r, opn1, s1, heq, hkeys, -, herr⟩ := open_trade_loop_spec args args.length 3
    (args.drop 3)
    ⟨args.getD 0 "", now, ⟨(ParseInt (args.getD 0 "")).1, (Atoi (args.getD 2 "")).1⟩, []⟩
    (PutState s "_debug1" (marshalOpenTrade
      ⟨args.getD 0 "", now, ⟨(ParseInt (args.getD 0 "")).1, (Atoi (args.getD 2 "")).1⟩, []⟩))
    rfl heven hbound
  obtain ⟨msg, hr⟩ := herr hbad
  subst hr
  refine ⟨msg, s1, ?_, ?_⟩
  · have h5 : ¬ args.length < 5 := by omega
    have hodd2 : ¬ args.length % 2 = 0 := by omega
    simp only [open_trade, h5, hodd2, h2, if_false, heq]
    simp
  · intro key hk1 hk2
    rw [hkeys key hk2, getState_putState_other _ _ _ _ hk1]

theorem offeredSizes_drop_three (args : List String) (j : Nat) :
    (offeredSizes (args.drop 3))[j]? = args[4 + 2 * j]? := by
  rw [offeredSizes_getElem, List.getElem?_drop]
  congr 1
  omega

/-- The arguments that `open_trade` rejects before it writes anything. -/
theorem open_trade_early_error (now : Int) (s : Store) (args : List String)
    (h : args.length < 5 ∨ args.length % 2 = 0 ∨ (Atoi (args.getD 2 "")).2 = false) :
    ∃ msg, open_trade now s args = (Outcome.error msg, s) := by
  unfold open_trade
  by_cases h5 : args.length < 5
  · exact ⟨_, by rw [if_pos h5]⟩
  · by_cases hev : args.length % 2 = 0
    · exact ⟨_, by rw [if_neg h5, if_pos hev]⟩
    · have h2 : (Atoi (args.getD 2 "")).2 = false := by
        rcases h with h | h | h
        · exact absurd h h5
        · exact absurd h hev
        · exact h
      refine ⟨"3rd argument must be a numeric string", ?_⟩
      simp only [if_neg h5, if_neg hev, h2, if_true]

/-! ## The entry point -/

/-- The functions after which `Invoke` runs no sweep. -/
theorem invoke_without_sweep (env : Env) (s : Store) (args : List String) :
    Invoke env s "init_marble" args = init_marble s args ∧
    Invoke env s "open_trade" args = open_trade env.makeTimestamp s args ∧
    Invoke env s "remove_trade" args = remove_trade s args := by
  refine ⟨?_, ?_, ?_⟩ <;> simp [Invoke]

/-! ## Frames of `open_trade` and of the finder -/

/-- A successful `open_trade` had arguments that pass every check. -/
theorem open_trade_ok_inv (now : Int) (s : Store) (args : List String)
    (hok : (open_trade now s args).1 = Outcome.ok) :
    5 ≤ args.length ∧ args.length % 2 = 1 ∧ (Atoi (args.getD 2 "")).2 = true ∧
      ∀ z ∈ offeredSizes (args.drop 3), (Atoi z).2 = true := by
  by_cases h : args.length < 5 ∨ args.length % 2 = 0 ∨ (Atoi (args.getD 2 "")).2 = false
  · obtain ⟨msg, heq⟩ := open_trade_early_error now s args h
    rw [heq] at hok
    exact Outcome.noConfusion hok
  · have hlen : 5 ≤ args.length := by
      by_contra hc
      exact h (Or.inl (by omega))
    have hodd : args.length % 2 = 1 := by
      by_contra hc
      exact h (Or.inr (Or.inl (by omega)))
    have h2 : (Atoi (args.getD 2 "")).2 = true := by
      by_contra hc
      exact h (Or.inr (Or.inr (by simpa using hc)))
    refine ⟨hlen, hodd, h2, ?_⟩
    intro z hz
    by_contra hc
    obtain ⟨msg, s2, heq, -⟩ := open_trade_bad_offer now s args hlen hodd h2
      ⟨z, hz, by simpa using hc⟩
    rw [heq] at hok
    exact Outcome.noConfusion hok

/-- The finder gives the same result in two ledgers with the same index whose indexed
records are the same, or fail its test in both. -/
theorem find_congr_matches (s s2 : Store) (user : String) (timestamp size : Int)
    (hidx : recordIndex s2 = recordIndex s)
    (hrec : ∀ key ∈ recordIndex s, record s2 key = record s key ∨
      (matches4Trade (record s2 key) user timestamp size = false ∧
        matches4Trade (record s key) user timestamp size = false)) :
    findMarble4Trade s2 user timestamp size = findMarble4Trade s user timestamp size := by
  rw [find_eq, find_eq, hidx]
  generalize recordIndex s = idx at hrec
  induction idx with
  | nil => rfl
  | cons key rest ih =>
    have ih2 := ih (fun k hk2 => hrec k (List.mem_cons_of_mem _ hk2))
    rcases hrec key (List.mem_cons_self _ _) with hk | ⟨hk2, hk1⟩
    · simp only [List.find?_cons, hk]
      cases matches4Trade (record s key) user timestamp size with
      | true => simp [hk]
      | false => simpa using ih2
    · simp only [List.find?_cons, hk1, hk2]
      exact ih2

/-- What the finder returns has the timestamp and the size it was asked for. -/
theorem find_some_shape (s : Store) (user : String) (timestamp size : Int) (r : Ekyc)
    (h : findMarble4Trade s user timestamp size = some r) :
    ToLower r.User = ToLower user ∧ r.Timestamp = timestamp ∧ r.Size = size := by
  rw [find_eq] at h
  simp only [Option.map_eq_some'] at h
  obtain ⟨key, hkey, hr⟩ := h
  have hm := List.find?_some hkey
  subst hr
  simpa [matches4Trade] using hm

/-! ## The scan of `perform_trade` after a removal -/

/-- The scan when the first trade with the wanted id is fulfilled and is not the last
of the book, and no later trade has that id: both marbles are rewritten and the book is
written without the trade, then the loop goes on up to the length the book had at
entry and indexes the shortened book past its end. -/
theorem perform_trade_loop_panic (s : Store) (args1 args2 : String) (timestamp : Int)
    (args4 : String) (size : Int) (pre : List AnOpenTrade) (t next : AnOpenTrade)
    (post : List AnOpenTrade) (ekyc : Ekyc)
    (hpre : ∀ t2 ∈ pre, t2.Timestamp ≠ timestamp) (ht : t.Timestamp = timestamp)
    (hpost : ∀ t2 ∈ next :: post, t2.Timestamp ≠ timestamp)
    (hsize : (record s args2).Size = t.Want.Size)
    (hfind : findMarble4Trade s t.User (ParseInt args4).1 size = some ekyc) :
    perform_trade_loop args1 args2 timestamp args4 size (pre ++ t :: next :: post).length 0
        (pre ++ t :: next :: post) s =
      (Outcome.indexPanic,
        PutState (set_user (set_user s [args2, t.User]).2 [ekyc.AadharNum, args1]).2
          openTradesStr (marshalTrades ⟨pre ++ next :: post⟩)) := by
  have hskip := perform_trade_loop_skip s args1 args2 timestamp args4 size pre
    (fun t2 ht2 => Or.inl (hpre t2 ht2)) [] (t :: next :: post) (post.length + 2)
  simp only [List.nil_append, List.length_nil, Nat.zero_add] at hskip
  have hlen : (pre ++ t :: next :: post).length = pre.length + (post.length + 2) := by simp
  rw [hlen, hskip]
  have hget : (pre ++ t :: next :: post)[pre.length]? = some t := by
    rw [List.getElem?_append_right (Nat.le_refl _)]
    simp
  have he : (pre ++ t :: next :: post).eraseIdx pre.length = pre ++ next :: post := by
    rw [List.eraseIdx_append_of_length_le (Nat.le_refl _)]
    simp
  rw [perform_trade_loop_succ _ _ _ _ _ _ _ _ _ t hget]
  have hsize2 : ¬ (unmarshalEkyc (GetState s args2)).Size ≠ t.Want.Size := by
    simpa [record] using hsize
  rw [if_pos ht, if_neg hsize2, he]
  simp only [hfind]
  generalize PutState (set_user (set_user s [args2, t.User]).2 [ekyc.AadharNum, args1]).2
    openTradesStr (marshalTrades ⟨pre ++ next :: post⟩) = s1
  have hskip2 := perform_trade_loop_skip s1 args1 args2 timestamp args4 size post
    (fun t2 ht2 => Or.inl (hpost t2 (List.mem_cons_of_mem _ ht2))) (pre ++ [next]) [] 1
  simp only [List.append_nil, List.append_assoc, List.singleton_append, List.length_append,
    List.length_singleton] at hskip2
  rw [hskip2]
  have hnone : (pre ++ next :: post)[pre.length + 1 + post.length]? = none := by
    apply List.getElem?_eq_none
    simp only [List.length_append, List.length_cons]
    omega
  rw [perform_trade_loop]
  simp only [hnone]

/-- The panic of `perform_trade`: a fulfilled trade that is not the last of the book. -/
theorem perform_trade_panic (s : Store) (a0 a1 a2 a3 a4 a5 : String) (more : List String)
    (tid size : Int) (pre : List AnOpenTrade) (t next : AnOpenTrade)
    (post : List AnOpenTrade) (ekyc : Ekyc)
    (h0 : ParseInt a0 = (tid, true)) (h5 : Atoi a5 = (size, true))
    (hbook : tradeBook s = pre ++ t :: next :: post)
    (hpre : ∀ t2 ∈ pre, t2.Timestamp ≠ tid) (ht : t.Timestamp = tid)
    (hpost : ∀ t2 ∈ next :: post, t2.Timestamp ≠ tid)
    (hsize : (record s a2).Size = t.Want.Size)
    (hfind : findMarble4Trade s t.User (ParseInt a4).1 size = some ekyc) :
    (perform_trade s (a0 :: a1 :: a2 :: a3 :: a4 :: a5 :: more)).1 = Outcome.indexPanic := by
  rw [perform_trade_eq s a0 a1 a2 a3 a4 a5 more tid size h0 h5, hbook,
    perform_trade_loop_panic s a1 a2 tid a4 size pre t next post ekyc hpre ht hpost hsize hfind]

/-! # Claims -/

/-- C1 (end-to-end scenario).  From the ledger established by `Init` (empty index of
marbles, empty book), the creation of A1 (size 5, bob) and of A2 (size 7, alice)
succeeds, alice's `open_trade` at time `now` wanting size 5 and willing to give size 7
succeeds and books one trade with id `now`, and `perform_trade` by bob with that id,
A1 and the willing entry (timestamp 0, size 7) succeeds: afterwards A1 is owned by
alice, A2 by bob, and the book is empty; the same call through `Invoke`, which runs
the sweep afterwards, gives the same result and ledger. -/
theorem scenario_swap (env : Env) (now : Int) (tid : String)
    (h : ParseInt tid = (now, true)) :
    (Init Store.empty ["0"]).1 = Outcome.ok ∧
    recordIndex scenarioInit = [] ∧ tradeBook scenarioInit = [] ∧
    (init_marble scenarioInit ["A1", "blue", "5", "bob"]).1 = Outcome.ok ∧
    (init_marble (init_marble scenarioInit ["A1", "blue", "5", "bob"]).2
      ["A2", "red", "7", "alice"]).1 = Outcome.ok ∧
    (open_trade now scenarioMarbles ["alice", "blue", "5", "red", "7"]).1 = Outcome.ok ∧
    tradeBook (scenarioTrade now) = [⟨"alice", now, ⟨0, 5⟩, [⟨0, 7⟩]⟩] ∧
    (perform_trade (scenarioTrade now) [tid, "bob", "A1", "alice", "0", "7"]).1 = Outcome.ok ∧
    (record (perform_trade (scenarioTrade now) [tid, "bob", "A1", "alice", "0", "7"]).2
      "A1").User = "alice" ∧
    (record (perform_trade (scenarioTrade now) [tid, "bob", "A1", "alice", "0", "7"]).2
      "A2").User = "bob" ∧
    tradeBook (perform_trade (scenarioTrade now) [tid, "bob", "A1", "alice", "0", "7"]).2 = [] ∧
    Invoke env (scenarioTrade now) "perform_trade" [tid, "bob", "A1", "alice", "0", "7"] =
      perform_trade (scenarioTrade now) [tid, "bob", "A1", "alice", "0", "7"] := by
  have hopen : open_trade now scenarioMarbles ["alice", "blue", "5", "red", "7"] =
      (Outcome.ok,
        PutState
          (PutState
            (PutState scenarioMarbles "_debug1" (marshalOpenTrade ⟨"alice", now, ⟨0, 5⟩, []⟩))
            "_debug2" (marshalDescription ⟨0, 7⟩))
          openTradesStr (marshalTrades ⟨[⟨"alice", now, ⟨0, 5⟩, [⟨0, 7⟩]⟩]⟩)) := rfl
  have hbook : tradeBook (scenarioTrade now) = [] ++ [⟨"alice", now, ⟨0, 5⟩, [⟨0, 7⟩]⟩] := by
    simp only [scenarioTrade, hopen]
    rfl
  have hA1 : record (scenarioTrade now) "A1" = ⟨"A1", 0, 5, "bob"⟩ := by
    simp only [scenarioTrade, hopen]
    rfl
  have hfind : findMarble4Trade (scenarioTrade now) "alice" (ParseInt "0").1 7 =
      some ⟨"A2", 0, 7, "alice"⟩ := by
    have hc : findMarble4Trade (scenarioTrade now) "alice" (ParseInt "0").1 7 =
        findMarble4Trade scenarioMarbles "alice" (ParseInt "0").1 7 := by
      apply find_congr
      · simp only [scenarioTrade, hopen]
        rfl
      · intro key hkey
        have hk : key = "A1" ∨ key = "A2" := by
          have : recordIndex scenarioMarbles = ["A1", "A2"] := by decide
          rw [this] at hkey
          simpa using hkey
        simp only [scenarioTrade, hopen]
        rcases hk with rfl | rfl <;> rfl
    rw [hc]
    decide
  have hrun := perform_trade_last (scenarioTrade now) tid "bob" "A1" "alice" "0" "7" [] now 7 []
    ⟨"alice", now, ⟨0, 5⟩, [⟨0, 7⟩]⟩ ⟨"A2", 0, 7, "alice"⟩ h (by decide) hbook
    (by simp) rfl (by rw [hA1]) hfind
  have hempty : tradeBook (perform_trade (scenarioTrade now)
      [tid, "bob", "A1", "alice", "0", "7"]).2 = [] := by
    rw [hrun]
    simp only [tradeBook, getState_putState_same]
    rfl
  have hinv := invoke_perform_trade env (scenarioTrade now)
    [tid, "bob", "A1", "alice", "0", "7"]
  rw [cleanTrades_of_empty_book _ hempty] at hinv
  rw [hinv, hrun]
  refine ⟨by decide, by decide, by decide, by decide, by decide, by rw [hopen], ?_, rfl,
    ?_, ?_, ?_, by simp⟩
  · simpa using hbook
  · simp only [record, getState_putState_other _ openTradesStr "A1" _ (by decide),
      getState_putState_other _ "A2" "A1" _ (by decide), getState_putState_same]
    rfl
  · simp only [record, getState_putState_other _ openTradesStr "A2" _ (by decide),
      getState_putState_same]
    rfl
  · simp only [tradeBook, getState_putState_same]
    rfl

/-- C1, with the trade opened at time 1000 and closed under the id `1000`. -/
theorem scenario_swap_witness :
    ParseInt "1000" = (1000, true) ∧
      tradeBook (perform_trade (scenarioTrade 1000)
        ["1000", "bob", "A1", "alice", "0", "7"]).2 = [] :=
  ⟨by decide, (scenario_swap exampleEnv 1000 "1000" (by decide)).2.2.2.2.2.2.2.2.2.2.1⟩

/-- C2, as stated, fails at the ledger `examplePhantom`: the book holds exactly one
trade with id 10, the closer's marble A1 has the wanted size 5, and the finder returns
the record stored under `k`, another record than A1; `perform_trade` succeeds, but the
record under `k` is still owned by alice afterwards and is still what the finder
returns for alice (the new owner was written under the record's id field, the empty
key). -/
theorem perform_trade_swap_fails_on_phantom :
    tradeBook examplePhantom = [⟨"alice", 10, ⟨0, 5⟩, [⟨0, 0⟩]⟩] ∧
    (record examplePhantom "A1").Size = 5 ∧
    findMarble4Trade examplePhantom "alice" 0 0 = some (record examplePhantom "k") ∧
    record examplePhantom "k" ≠ record examplePhantom "A1" ∧
    (perform_trade examplePhantom ["10", "bob", "A1", "alice", "0", "0"]).1 = Outcome.ok ∧
    (record (perform_trade examplePhantom ["10", "bob", "A1", "alice", "0", "0"]).2 "k").User
      = "alice" ∧
    (record (perform_trade examplePhantom ["10", "bob", "A1", "alice", "0", "0"]).2 "k").User
      ≠ "bob" ∧
    findMarble4Trade (perform_trade examplePhantom ["10", "bob", "A1", "alice", "0", "0"]).2
      "alice" 0 0 = some (record examplePhantom "k") := by
  decide

/-- C2 (trade fulfillment swap), amended.  For every ledger whose book ends with a
trade `T` with id `tradeId`, no earlier trade having that id, where the record `A`
under `closerRecordId` has size `T.Want.Size`, and the finder, for `T.User` and the
opener criteria, returns a record `B` that is stored under its own id, with that id
different from `closerRecordId` and neither key being the key of the open trades:
`perform_trade` returns success, afterwards the record under `closerRecordId` is `A`
with owner `T.User`, the record under the id of `B` is `B` with owner `closerUser`, the
book is the original without `T` (the other trades unchanged, in order), and every
other key is unchanged. -/
theorem perform_trade_swap (s : Store) (tradeId closerUser closerRecordId openerUser
    openerWantTimestamp openerWantSize : String) (more : List String) (tid size : Int)
    (pre : List AnOpenTrade) (T : AnOpenTrade) (B : Ekyc)
    (h0 : ParseInt tradeId = (tid, true)) (h5 : Atoi openerWantSize = (size, true))
    (hbook : tradeBook s = pre ++ [T])
    (hpre : ∀ t ∈ pre, t.Timestamp ≠ tid) (hT : T.Timestamp = tid)
    (hsize : (record s closerRecordId).Size = T.Want.Size)
    (hfind : findMarble4Trade s T.User (ParseInt openerWantTimestamp).1 size = some B)
    (hB : record s B.AadharNum = B)
    (hAB : B.AadharNum ≠ closerRecordId)
    (hA : closerRecordId ≠ openTradesStr) (hBk : B.AadharNum ≠ openTradesStr) :
    (perform_trade s (tradeId :: closerUser :: closerRecordId :: openerUser ::
      openerWantTimestamp :: openerWantSize :: more)).1 = Outcome.ok ∧
    record (perform_trade s (tradeId :: closerUser :: closerRecordId :: openerUser ::
      openerWantTimestamp :: openerWantSize :: more)).2 closerRecordId =
        { record s closerRecordId with User := T.User } ∧
    record (perform_trade s (tradeId :: closerUser :: closerRecordId :: openerUser ::
      openerWantTimestamp :: openerWantSize :: more)).2 B.AadharNum =
        { B with User := closerUser } ∧
    tradeBook (perform_trade s (tradeId :: closerUser :: closerRecordId :: openerUser ::
      openerWantTimestamp :: openerWantSize :: more)).2 = pre ∧
    ∀ key, key ≠ closerRecordId → key ≠ B.AadharNum → key ≠ openTradesStr →
      GetState (perform_trade s (tradeId :: closerUser :: closerRecordId :: openerUser ::
        openerWantTimestamp :: openerWantSize :: more)).2 key = GetState s key := by
  rw [perform_trade_last s tradeId closerUser closerRecordId openerUser openerWantTimestamp
    openerWantSize more tid size pre T B h0 h5 hbook hpre hT hsize hfind]
  refine ⟨rfl, ?_, ?_, ?_, ?_⟩
  · rw [record_putState_other _ _ _ _ hA, record_putState_other _ _ _ _ (Ne.symm hAB),
      record_putState_same]
  · rw [record_putState_other _ _ _ _ hBk, record_putState_same,
      record_putState_other _ _ _ _ hAB, hB]
  · simp only [tradeBook, getState_putState_same]
    rfl
  · intro key h1 h2 h3
    rw [getState_putState_other _ _ _ _ h3, getState_putState_other _ _ _ _ h2,
      getState_putState_other _ _ _ _ h1]

/-- C2 amended, at the ledger `exampleOneTrade`: bob closes trade 10 with A1. -/
theorem perform_trade_swap_witness :
    record (perform_trade exampleOneTrade ["10", "bob", "A1", "alice", "0", "7"]).2 "A1" =
        ⟨"A1", 0, 5, "alice"⟩ ∧
      record (perform_trade exampleOneTrade ["10", "bob", "A1", "alice", "0", "7"]).2 "A2" =
        ⟨"A2", 0, 7, "bob"⟩ ∧
      tradeBook (perform_trade exampleOneTrade ["10", "bob", "A1", "alice", "0", "7"]).2 = [] :=
  have h := perform_trade_swap exampleOneTrade "10" "bob" "A1" "alice" "0" "7" [] 10 7 []
    ⟨"alice", 10, ⟨0, 5⟩, [⟨0, 7⟩]⟩ ⟨"A2", 0, 7, "alice"⟩ (by decide) (by decide) (by decide)
    (by simp) rfl (by decide) (by decide) (by decide) (by decide) (by decide) (by decide)
  ⟨h.2.1, h.2.2.1, h.2.2.2.1⟩

/-- C3 fails.  At the ledger `exampleOneTrade` trade 10 is found, the closer's marble
A1 has the wanted size 5, and the finder finds no marble of alice with timestamp 0 and
size 9: `findMarble4Trade` returns its error, `perform_trade` drops it and returns
success, with the ledger as it was and the trade still open, where the claim wants
the error of no eligible record. -/
theorem perform_trade_no_eligible_returns_ok :
    tradeBook exampleOneTrade = [⟨"alice", 10, ⟨0, 5⟩, [⟨0, 7⟩]⟩] ∧
    (record exampleOneTrade "A1").Size = 5 ∧
    findMarble4Trade exampleOneTrade "alice" 0 9 = none ∧
    (perform_trade exampleOneTrade ["10", "bob", "A1", "alice", "0", "9"]).1 = Outcome.ok ∧
    tradeBook (perform_trade exampleOneTrade ["10", "bob", "A1", "alice", "0", "9"]).2 =
      [⟨"alice", 10, ⟨0, 5⟩, [⟨0, 7⟩]⟩] := by
  decide

/-- The dropped error of the finder, in general.  For every ledger in which every
trade with id `tradeId` wants the size of the closer's record and has an opener for
whom the finder finds no record with the opener criteria, `perform_trade` leaves the
whole ledger unchanged (the trade remains open) and returns success, without error. -/
theorem perform_trade_no_eligible (s : Store) (tradeId closerUser closerRecordId openerUser
    openerWantTimestamp openerWantSize : String) (more : List String) (tid size : Int)
    (h0 : ParseInt tradeId = (tid, true)) (h5 : Atoi openerWantSize = (size, true))
    (hall : ∀ t ∈ tradeBook s, t.Timestamp = tid →
      (record s closerRecordId).Size = t.Want.Size ∧
        findMarble4Trade s t.User (ParseInt openerWantTimestamp).1 size = none) :
    perform_trade s (tradeId :: closerUser :: closerRecordId :: openerUser ::
      openerWantTimestamp :: openerWantSize :: more) = (Outcome.ok, s) := by
  rw [perform_trade_eq s tradeId closerUser closerRecordId openerUser openerWantTimestamp
    openerWantSize more tid size h0 h5]
  apply perform_trade_loop_all_skipped
  intro t ht
  by_cases hid : t.Timestamp = tid
  · exact Or.inr (hall t ht hid)
  · exact Or.inl hid

/-- The dropped error of the finder at the ledger `exampleOneTrade`, with the opener
criteria (0, 9). -/
theorem perform_trade_no_eligible_witness :
    (∃ t ∈ tradeBook exampleOneTrade, t.Timestamp = 10) ∧
      perform_trade exampleOneTrade ["10", "bob", "A1", "alice", "0", "9"] =
        (Outcome.ok, exampleOneTrade) :=
  ⟨by decide, perform_trade_no_eligible exampleOneTrade "10" "bob" "A1" "alice" "0" "9" [] 10 9
    (by decide) (by decide) (by decide)⟩

/-- C4, as stated, fails at the ledger `exampleSameId`: the book holds a trade with id
10 wanting size 6, which differs from the size 5 of the closer's marble A1, yet the
scan first fulfils the earlier trade with id 10, so that the error is returned with A1
already owned by alice, A2 by bob, and the first trade gone from the book. -/
theorem perform_trade_mismatch_after_fulfilment :
    (∃ t ∈ tradeBook exampleSameId, t.Timestamp = 10 ∧
      t.Want.Size ≠ (record exampleSameId "A1").Size) ∧
    (perform_trade exampleSameId ["10", "bob", "A1", "alice", "0", "7"]).1 =
      Outcome.error "marble in input does not meet trade requriements" ∧
    (record exampleSameId "A1").User = "bob" ∧
    (record (perform_trade exampleSameId ["10", "bob", "A1", "alice", "0", "7"]).2 "A1").User
      = "alice" ∧
    (record (perform_trade exampleSameId ["10", "bob", "A1", "alice", "0", "7"]).2 "A2").User
      = "bob" ∧
    tradeBook (perform_trade exampleSameId ["10", "bob", "A1", "alice", "0", "7"]).2 =
      [⟨"alice", 11, ⟨0, 5⟩, [⟨0, 7⟩]⟩, ⟨"alice", 10, ⟨0, 6⟩, [⟨0, 7⟩]⟩] := by
  decide

/-- C4 (no match, no mutation), amended.  For every ledger in which the first trade of
the book with id `tradeId` wants a size different from the size of the record under
`closerRecordId`, `perform_trade` returns the criteria-mismatch error and leaves the
whole ledger (book, index of marbles, every record) unchanged; only the two sizes
enter the decision, whatever the timestamps of the trade and of the record. -/
theorem perform_trade_mismatch (s : Store) (tradeId closerUser closerRecordId openerUser
    openerWantTimestamp openerWantSize : String) (more : List String) (tid size : Int)
    (pre post : List AnOpenTrade) (T : AnOpenTrade)
    (h0 : ParseInt tradeId = (tid, true)) (h5 : Atoi openerWantSize = (size, true))
    (hbook : tradeBook s = pre ++ T :: post)
    (hpre : ∀ t ∈ pre, t.Timestamp ≠ tid) (hT : T.Timestamp = tid)
    (hsize : (record s closerRecordId).Size ≠ T.Want.Size) :
    perform_trade s (tradeId :: closerUser :: closerRecordId :: openerUser ::
      openerWantTimestamp :: openerWantSize :: more) =
        (Outcome.error "marble in input does not meet trade requriements", s) := by
  rw [perform_trade_eq s tradeId closerUser closerRecordId openerUser openerWantTimestamp
    openerWantSize more tid size h0 h5, hbook]
  exact perform_trade_loop_mismatch s closerUser closerRecordId tid openerWantTimestamp size
    pre post T hpre hT hsize

/-- C4 amended, at the ledger `exampleSameId` with A2 (size 7) as the closer's record. -/
theorem perform_trade_mismatch_witness :
    perform_trade exampleSameId ["10", "bob", "A2", "alice", "0", "7"] =
      (Outcome.error "marble in input does not meet trade requriements", exampleSameId) :=
  perform_trade_mismatch exampleSameId "10" "bob" "A2" "alice" "0" "7" [] 10 7 []
    [⟨"alice", 11, ⟨0, 5⟩, [⟨0, 7⟩]⟩, ⟨"alice", 10, ⟨0, 6⟩, [⟨0, 7⟩]⟩]
    ⟨"alice", 10, ⟨0, 5⟩, [⟨0, 7⟩]⟩ (by decide) (by decide) (by decide) (by simp) rfl
    (by decide)

/-- C5, as stated, fails from the ledger established by `Init`: `init_marble` with the
key of the index of marbles as id succeeds, and the same call succeeds again right
after (the value under that key was overwritten by the index).  And after the creation
of A1, a second `init_marble` of A1 with an empty category fails on the argument check,
which comes first, not with the duplicate-id error. -/
theorem init_marble_twice_on_index_key :
    (init_marble scenarioInit ["_marbleindex", "blue", "5", "bob"]).1 = Outcome.ok ∧
    (init_marble (init_marble scenarioInit ["_marbleindex", "blue", "5", "bob"]).2
      ["_marbleindex", "blue", "5", "bob"]).1 = Outcome.ok ∧
    (init_marble scenarioInit ["A1", "blue", "5", "bob"]).1 = Outcome.ok ∧
    (init_marble (init_marble scenarioInit ["A1", "blue", "5", "bob"]).2
      ["A1", "", "5", "bob"]).1 = Outcome.error "2nd argument must be a non-empty string" := by
  decide

/-- C5 (uniqueness), amended.  For every ledger and arguments on which `init_marble`
succeeds, where the id is not the key of the index of marbles and the id, category
and owner are `jsonPlain`, an immediately following `init_marble` with the same id,
whatever its other arguments, fails and leaves the ledger unchanged; its error is the
duplicate-id error as soon as the other arguments pass the argument checks (none
empty, numeric size). -/
theorem init_marble_unique (s : Store) (id category size owner category2 size2 owner2 : String)
    (hid : id ≠ marbleIndexStr)
    (hplain : jsonPlain id = true ∧ jsonPlain category = true ∧ jsonPlain owner = true)
    (hok : (init_marble s [id, category, size, owner]).1 = Outcome.ok) :
    (∃ msg, (init_marble (init_marble s [id, category, size, owner]).2
      [id, category2, size2, owner2]).1 = Outcome.error msg) ∧
    (init_marble (init_marble s [id, category, size, owner]).2
      [id, category2, size2, owner2]).2 = (init_marble s [id, category, size, owner]).2 ∧
    (category2 ≠ "" → size2 ≠ "" → owner2 ≠ "" → (Atoi size2).2 = true →
      (init_marble (init_marble s [id, category, size, owner]).2
        [id, category2, size2, owner2]).1 = Outcome.error "Aadhar number arleady exists") := by
  obtain ⟨hne, _, heq⟩ := init_marble_ok s id category size owner hok
  have hrec : (unmarshalEkyc (GetState (init_marble s [id, category, size, owner]).2 id)).AadharNum
      = id := by
    rw [heq]
    simp only [getState_putState_other _ _ _ _ hid, getState_putState_same]
    rw [marbleLiteral_plain id category size owner hplain.1 hplain.2.1 hplain.2.2
      (init_marble_ok_numeric s id category size owner hok)]
    rfl
  generalize (init_marble s [id, category, size, owner]).2 = s1 at hrec
  simp only [init_marble, hrec]
  refine ⟨?_, ?_, ?_⟩
  · split_ifs <;> exact ⟨_, rfl⟩
  · split_ifs <;> rfl
  · intro h1 h2 h3 h4
    have l0 : ¬ id.length ≤ 0 := by
      have : id.length ≠ 0 := fun h => hne (String.ext (List.length_eq_zero.mp h))
      omega
    have l1 : ¬ category2.length ≤ 0 := by
      have : category2.length ≠ 0 := fun h => h1 (String.ext (List.length_eq_zero.mp h))
      omega
    have l2 : ¬ size2.length ≤ 0 := by
      have : size2.length ≠ 0 := fun h => h2 (String.ext (List.length_eq_zero.mp h))
      omega
    have l3 : ¬ owner2.length ≤ 0 := by
      have : owner2.length ≠ 0 := fun h => h3 (String.ext (List.length_eq_zero.mp h))
      omega
    simp [l0, l1, l2, l3, h4]

/-- C5 amended, from the ledger established by `Init`, with the id A1. -/
theorem init_marble_unique_witness :
    (init_marble scenarioInit ["A1", "blue", "5", "bob"]).1 = Outcome.ok ∧
      (init_marble (init_marble scenarioInit ["A1", "blue", "5", "bob"]).2
        ["A1", "red", "7", "alice"]).1 = Outcome.error "Aadhar number arleady exists" :=
  ⟨by decide,
    (init_marble_unique scenarioInit "A1" "blue" "5" "bob" "red" "7" "alice" (by decide)
      (by decide) (by decide)).2.2 (by decide) (by decide) (by decide) (by decide)⟩

/-- C6, as stated, fails after `Init` on an empty ledger followed by one create whose
id is the key of the index of marbles: the index then lists that id, and the value
under it is the index itself, not a live record. -/
theorem index_lists_its_own_key :
    "_marbleindex" ∈ recordIndex
      (runOps scenarioInit [LedgerOp.create ["_marbleindex", "blue", "5", "bob"]]) ∧
    ¬ liveRecord
      (runOps scenarioInit [LedgerOp.create ["_marbleindex", "blue", "5", "bob"]])
      "_marbleindex" := by
  decide

/-- C6 (index consistency), amended.  In every ledger reached from the one left by
`Init` on an empty ledger through a finite sequence of creates (`init_marble`) and
deletes (`Delete`), none of which names the key of the index of marbles as its id and
whose creates have `jsonPlain` arguments: every id of the index has a live record
under it, every live record's id is in the index, and no id is in the index twice. -/
theorem index_consistency (a : String) (ops : List LedgerOp) (hops : ∀ op ∈ ops, op.regular) :
    (∀ id ∈ recordIndex (runOps (Init Store.empty [a]).2 ops),
      liveRecord (runOps (Init Store.empty [a]).2 ops) id) ∧
    (∀ id, liveRecord (runOps (Init Store.empty [a]).2 ops) id →
      id ∈ recordIndex (runOps (Init Store.empty [a]).2 ops)) ∧
    (recordIndex (runOps (Init Store.empty [a]).2 ops)).Nodup := by
  have h := indexConsistent_runOps ops _ (indexConsistent_init a) hops
  exact ⟨h.1, h.2.1, h.2.2.1⟩

/-- C6 amended, after the creation of A1 and A2 and the deletion of A1. -/
theorem index_consistency_witness :
    recordIndex (runOps (Init Store.empty ["0"]).2
      [LedgerOp.create ["A1", "blue", "5", "bob"], LedgerOp.create ["A2", "red", "7", "alice"],
        LedgerOp.delete ["A1"]]) = ["A2"] ∧
    ∀ id ∈ recordIndex (runOps (Init Store.empty ["0"]).2
        [LedgerOp.create ["A1", "blue", "5", "bob"], LedgerOp.create ["A2", "red", "7", "alice"],
          LedgerOp.delete ["A1"]]),
      liveRecord (runOps (Init Store.empty ["0"]).2
        [LedgerOp.create ["A1", "blue", "5", "bob"], LedgerOp.create ["A2", "red", "7", "alice"],
          LedgerOp.delete ["A1"]]) id :=
  ⟨by decide,
    (index_consistency "0"
      [LedgerOp.create ["A1", "blue", "5", "bob"], LedgerOp.create ["A2", "red", "7", "alice"],
        LedgerOp.delete ["A1"]] (by decide)).1⟩

/-- C7 (Match Finder is first-match in index order).  For every ledger, owner,
timestamp and size, `findMarble4Trade` returns the record `r` exactly when the index
splits as `pre ++ key :: post` where no id of `pre` holds a record passing the test
(same user up to case, same timestamp, same size), the record under `key` passes it
and is `r`; it returns the error exactly when no id of the index holds such a record;
and two owners equal after lower-casing give the same result. -/
theorem findMarble4Trade_first_match (s : Store) (owner owner2 : String) (timestamp size : Int)
    (h : ToLower owner = ToLower owner2) :
    (∀ r, findMarble4Trade s owner timestamp size = some r ↔
      ∃ pre key post, recordIndex s = pre ++ key :: post ∧
        (∀ k ∈ pre, matches4Trade (record s k) owner timestamp size = false) ∧
        matches4Trade (record s key) owner timestamp size = true ∧ r = record s key) ∧
    (findMarble4Trade s owner timestamp size = none ↔
      ∀ key ∈ recordIndex s, ¬ (ToLower (record s key).User = ToLower owner ∧
        (record s key).Timestamp = timestamp ∧ (record s key).Size = size)) ∧
    findMarble4Trade s owner timestamp size = findMarble4Trade s owner2 timestamp size := by
  refine ⟨?_, ?_, find_lower s owner owner2 timestamp size h⟩
  · intro r
    rw [find_eq]
    constructor
    · intro hr
      rw [Option.map_eq_some'] at hr
      obtain ⟨key, hkey, rfl⟩ := hr
      rw [List.find?_eq_some] at hkey
      obtain ⟨hm, pre, post, hsplit, hpre⟩ := hkey
      exact ⟨pre, key, post, hsplit, fun k hk => by simpa using hpre k hk, hm, rfl⟩
    · rintro ⟨pre, key, post, hsplit, hpre, hm, rfl⟩
      rw [Option.map_eq_some']
      refine ⟨key, ?_, rfl⟩
      rw [List.find?_eq_some]
      exact ⟨hm, pre, post, hsplit, fun k hk => by simp [hpre k hk]⟩
  · rw [find_eq_none_iff]
    simp [matches4Trade]

/-- C7, at the ledger `exampleFinder` with the owners `Alice` and `alice`, and at the
ledger `exampleUnicodeOwner` with the owners `émile` and `Émile` for the marble of
`ÉMILE`. -/
theorem findMarble4Trade_first_match_witness :
    ToLower "Alice" = ToLower "alice" ∧
      findMarble4Trade exampleFinder "Alice" 0 7 = some ⟨"A2", 0, 7, "alice"⟩ ∧
      findMarble4Trade exampleFinder "Alice" 0 7 = findMarble4Trade exampleFinder "alice" 0 7 ∧
      findMarble4Trade exampleUnicodeOwner "émile" 0 5 = some ⟨"A1", 0, 5, "ÉMILE"⟩ ∧
      findMarble4Trade exampleUnicodeOwner "émile" 0 5 =
        findMarble4Trade exampleUnicodeOwner "Émile" 0 5 :=
  ⟨by decide, by decide,
    (findMarble4Trade_first_match exampleFinder "Alice" "alice" 0 7 (by decide)).2.2,
    by decide,
    (findMarble4Trade_first_match exampleUnicodeOwner "émile" "Émile" 0 5 (by decide)).2.2⟩

/-- C8, as stated, fails for the records when the index lists the key of the open
trades.  At the ledger `exampleReservedKey` the value under that key is read both as
the book and as a marble of bob, which the index lists; the sweep drops the second
trade and writes the book under the key: the marble read from it is gone, and the
finder, which returned it, finds nothing. -/
theorem cleanTrades_rewrites_indexed_record :
    recordIndex exampleReservedKey = ["_opentrades"] ∧
    record exampleReservedKey "_opentrades" = ⟨"x", 1, 1, "bob"⟩ ∧
    findMarble4Trade exampleReservedKey "bob" 1 1 = some ⟨"x", 1, 1, "bob"⟩ ∧
    tradeBook (cleanTrades exampleReservedKey) = [⟨"bob", 10, ⟨0, 5⟩, [⟨1, 1⟩]⟩] ∧
    record (cleanTrades exampleReservedKey) "_opentrades" = ⟨"", 0, 0, ""⟩ ∧
    findMarble4Trade (cleanTrades exampleReservedKey) "bob" 1 1 = none := by
  decide

/-- C8 (Sweep equals its reference definition), amended.  For every ledger whose
index of marbles does not list the key of the open trades, the book after `cleanTrades`
is `sweep_spec` of the book before (willing lists cut down to the backed entries, then
the trades without entry dropped); the index of marbles, the value under every key other
than the key of the open trades, every record the index lists and every result of the
finder are unchanged; the ledger is written (under the key of the open trades, with
that book) only when the sweep changes the book, and is otherwise untouched; any number
of loop rounds at least the length of the book gives the same book. -/
theorem cleanTrades_refines_sweep_spec (s : Store) (hidx : openTradesStr ∉ recordIndex s) :
    tradeBook (cleanTrades s) = sweep_spec s (tradeBook s) ∧
    recordIndex (cleanTrades s) = recordIndex s ∧
    (∀ key, key ≠ openTradesStr → GetState (cleanTrades s) key = GetState s key) ∧
    (∀ key ∈ recordIndex s, record (cleanTrades s) key = record s key) ∧
    (∀ user timestamp size,
      findMarble4Trade (cleanTrades s) user timestamp size =
        findMarble4Trade s user timestamp size) ∧
    cleanTrades s =
      (if sweep_spec s (tradeBook s) = tradeBook s then s
        else PutState s openTradesStr (marshalTrades ⟨sweep_spec s (tradeBook s)⟩)) ∧
    (∀ fuel, (tradeBook s).length ≤ fuel →
      (cleanTrades_loop s fuel 0 (tradeBook s) false).1 = sweep_spec s (tradeBook s) ∧
      ((cleanTrades_loop s fuel 0 (tradeBook s) false).2 = false ↔
        sweep_spec s (tradeBook s) = tradeBook s)) := by
  have hrec : ∀ key ∈ recordIndex s, record (cleanTrades s) key = record s key := by
    intro key hkey
    have hne : key ≠ openTradesStr := fun hk => hidx (hk ▸ hkey)
    simp [record, getState_cleanTrades_other s key hne]
  refine ⟨tradeBook_cleanTrades s, recordIndex_cleanTrades s,
    fun key h => getState_cleanTrades_other s key h, hrec,
    fun user timestamp size => find_congr _ _ _ _ _ (recordIndex_cleanTrades s) hrec,
    cleanTrades_eq s, ?_⟩
  intro fuel hfuel
  have h := trades_loop_eq s fuel [] (tradeBook s) false hfuel
  simp only [List.length_nil, List.nil_append, Bool.false_or] at h
  rw [h]
  exact ⟨rfl, (sweep_spec_eq_self_iff s _).symm⟩

/-- C8 amended, at the ledger `exampleSweep`: of the two trades of alice the sweep
keeps the first, cut down to the entry she can back, and both marbles are as before. -/
theorem cleanTrades_refines_sweep_spec_witness :
    tradeBook (cleanTrades exampleSweep) = [⟨"alice", 10, ⟨0, 5⟩, [⟨0, 7⟩]⟩] ∧
      record (cleanTrades exampleSweep) "A2" = ⟨"A2", 0, 7, "alice"⟩ :=
  have h := cleanTrades_refines_sweep_spec exampleSweep (by decide)
  ⟨h.1.trans (by decide), (h.2.2.2.1 "A2" (by decide)).trans (by decide)⟩

/-- C9, as stated, fails at the ledger `exampleReservedKey`: the first sweep drops the
second trade and rewrites the key of the open trades, after which the marble read from
that key is gone, and the second sweep drops the first trade as well. -/
theorem cleanTrades_not_idempotent :
    tradeBook (cleanTrades exampleReservedKey) = [⟨"bob", 10, ⟨0, 5⟩, [⟨1, 1⟩]⟩] ∧
    tradeBook (cleanTrades (cleanTrades exampleReservedKey)) = [] ∧
    cleanTrades (cleanTrades exampleReservedKey) ≠ cleanTrades exampleReservedKey := by
  have h1 : tradeBook (cleanTrades exampleReservedKey) = [⟨"bob", 10, ⟨0, 5⟩, [⟨1, 1⟩]⟩] := by
    decide
  have h2 : tradeBook (cleanTrades (cleanTrades exampleReservedKey)) = [] := by decide
  refine ⟨h1, h2, fun h => ?_⟩
  rw [h, h1] at h2
  exact absurd h2 (by decide)

/-- C9 (Sweep idempotence), amended.  For every ledger whose index of marbles does not
list the key of the open trades, a second `cleanTrades` gives the same ledger as the
first, finds nothing to drop (the sweep of the book is the book) and does not write
(its `didWork` flag stays false). -/
theorem cleanTrades_idempotent (s : Store) (h : openTradesStr ∉ recordIndex s) :
    cleanTrades (cleanTrades s) = cleanTrades s ∧
    sweep_spec (cleanTrades s) (tradeBook (cleanTrades s)) = tradeBook (cleanTrades s) ∧
    (cleanTrades_loop (cleanTrades s) (tradeBook (cleanTrades s)).length 0
      (tradeBook (cleanTrades s)) false).2 = false := by
  have hfind : ∀ user timestamp size,
      findMarble4Trade (cleanTrades s) user timestamp size =
        findMarble4Trade s user timestamp size := by
    intro user timestamp size
    apply find_congr _ _ _ _ _ (recordIndex_cleanTrades s)
    intro key hkey
    have hne : key ≠ openTradesStr := fun hk => h (hk ▸ hkey)
    simp [record, getState_cleanTrades_other s key hne]
  have hfix : sweep_spec (cleanTrades s) (tradeBook (cleanTrades s)) =
      tradeBook (cleanTrades s) := by
    rw [sweep_spec_congr s (cleanTrades s) hfind, tradeBook_cleanTrades, sweep_spec_idem]
  refine ⟨?_, hfix, ?_⟩
  · rw [cleanTrades_eq (cleanTrades s), if_pos hfix]
  · have h2 := trades_loop_eq (cleanTrades s) (tradeBook (cleanTrades s)).length []
      (tradeBook (cleanTrades s)) false (Nat.le_refl _)
    simp only [List.length_nil, List.nil_append, Bool.false_or] at h2
    rw [h2]
    exact (sweep_spec_eq_self_iff _ _).mp hfix

/-- C9 amended, at the ledger `exampleSweep`. -/
theorem cleanTrades_idempotent_witness :
    openTradesStr ∉ recordIndex exampleSweep ∧
      tradeBook (cleanTrades exampleSweep) = [⟨"alice", 10, ⟨0, 5⟩, [⟨0, 7⟩]⟩] ∧
      cleanTrades (cleanTrades exampleSweep) = cleanTrades exampleSweep :=
  ⟨by decide, by decide, (cleanTrades_idempotent exampleSweep (by decide)).1⟩

/-- C10, as stated, fails in two ways.  At the ledger `exampleTwiceIndexed` the marble
under `k` is the only record of the index that satisfies the willing entry (0, 0) of
the trade of the user with the empty name, yet after `Invoke` of `delete` on `k` the
trade still lists the entry: the index keeps the second occurrence of `k`, and the
absent key reads as the zero record, which satisfies the entry.  At the ledger
`exampleOneTrade` the marble A2 is the only record that satisfies the willing entry
(0, 7) of alice's trade, yet after `Invoke` of `set_user` on A2 with the new user
`ALICE`, a string other than `alice`, the trade still lists the entry: users are
compared after lower-casing. -/
theorem stale_offer_kept :
    ("k" ∈ recordIndex exampleTwiceIndexed ∧
      matches4Trade (record exampleTwiceIndexed "k") "" 0 0 = true ∧
      (∀ k2 ∈ recordIndex exampleTwiceIndexed,
        matches4Trade (record exampleTwiceIndexed k2) "" 0 0 = true → k2 = "k") ∧
      tradeBook exampleTwiceIndexed = [⟨"", 10, ⟨0, 5⟩, [⟨0, 0⟩]⟩] ∧
      tradeBook (Invoke exampleEnv exampleTwiceIndexed "delete" ["k"]).2 =
        [⟨"", 10, ⟨0, 5⟩, [⟨0, 0⟩]⟩]) ∧
    ("A2" ∈ recordIndex exampleOneTrade ∧
      matches4Trade (record exampleOneTrade "A2") "alice" 0 7 = true ∧
      (∀ k2 ∈ recordIndex exampleOneTrade,
        matches4Trade (record exampleOneTrade k2) "alice" 0 7 = true → k2 = "A2") ∧
      tradeBook exampleOneTrade = [⟨"alice", 10, ⟨0, 5⟩, [⟨0, 7⟩]⟩] ∧
      "ALICE" ≠ "alice" ∧
      tradeBook (Invoke exampleEnv exampleOneTrade "set_user" ["A2", "ALICE"]).2 =
        [⟨"alice", 10, ⟨0, 5⟩, [⟨0, 7⟩]⟩]) := by
  decide

/-- C10 (stale-offer pruning), amended.  For every ledger in which the record under the
indexed key `k` is the only record of the index that satisfies willing entry `e` of
trade `T` (owner `T.User` up to case, timestamp and size of `e`), and in which the
zero record, as read from an absent key, does not satisfy it: after `Invoke` of
`delete` on `k`, and after `Invoke` of `set_user` on `k` with a user `u` that differs
from `T.User` after lower-casing, no trade of the book that is `T` with entries dropped
lists `e`, and no such trade is left in the book at all when `e` was the only willing
entry of `T`. -/
theorem stale_offer_pruned (env : Env) (s : Store) (k u : String) (T : AnOpenTrade)
    (e : Description) (hT : T ∈ tradeBook s) (he : e ∈ T.Willing) (hk : k ∈ recordIndex s)
    (hsat : matches4Trade (record s k) T.User e.Timestamp e.Size = true)
    (honly : ∀ k2 ∈ recordIndex s,
      matches4Trade (record s k2) T.User e.Timestamp e.Size = true → k2 = k)
    (hzero : matches4Trade Ekyc.zero T.User e.Timestamp e.Size = false)
    (hu : ToLower u ≠ ToLower T.User) :
    ((∀ T2 ∈ tradeBook (Invoke env s "delete" [k]).2, prunedFrom T T2 → e ∉ T2.Willing) ∧
      (T.Willing = [e] →
        ∀ T2 ∈ tradeBook (Invoke env s "delete" [k]).2, ¬ prunedFrom T T2)) ∧
    ((∀ T2 ∈ tradeBook (Invoke env s "set_user" [k, u]).2, prunedFrom T T2 → e ∉ T2.Willing) ∧
      (T.Willing = [e] →
        ∀ T2 ∈ tradeBook (Invoke env s "set_user" [k, u]).2, ¬ prunedFrom T T2)) := by
  rw [invoke_delete, invoke_set_user]
  exact ⟨pruned_after_sweep _ T e (find_none_after_delete s k _ _ _ honly hzero),
    pruned_after_sweep _ T e (find_none_after_set_user s k u _ _ _ honly hu)⟩

/-- C10 amended, at the ledger `exampleOneTrade`: A2 is deleted, or given to bob. -/
theorem stale_offer_pruned_witness :
    tradeBook (Invoke exampleEnv exampleOneTrade "delete" ["A2"]).2 = [] ∧
      tradeBook (Invoke exampleEnv exampleOneTrade "set_user" ["A2", "bob"]).2 = [] ∧
      ∀ T2 ∈ tradeBook (Invoke exampleEnv exampleOneTrade "set_user" ["A2", "bob"]).2,
        ¬ prunedFrom ⟨"alice", 10, ⟨0, 5⟩, [⟨0, 7⟩]⟩ T2 :=
  ⟨by decide, by decide,
    (stale_offer_pruned exampleEnv exampleOneTrade "A2" "bob" ⟨"alice", 10, ⟨0, 5⟩, [⟨0, 7⟩]⟩
      ⟨0, 7⟩ (by decide) (by decide) (by decide) (by decide) (by decide) (by decide)
      (by decide)).2.2 rfl⟩

/-- C11, as stated, fails when the id is a reserved key.  On the ledger of the scenario
`set_user` on the key of the index of marbles succeeds and leaves an empty index where
A1 and A2 were listed; on the ledger `exampleOneTrade`, `set_user` on the key of the
open trades succeeds and leaves an empty book where one trade was open. -/
theorem set_user_on_reserved_key :
    (set_user scenarioMarbles ["_marbleindex", "bob"]).1 = Outcome.ok ∧
    recordIndex scenarioMarbles = ["A1", "A2"] ∧
    recordIndex (set_user scenarioMarbles ["_marbleindex", "bob"]).2 = [] ∧
    (set_user exampleOneTrade ["_opentrades", "bob"]).1 = Outcome.ok ∧
    tradeBook exampleOneTrade = [⟨"alice", 10, ⟨0, 5⟩, [⟨0, 7⟩]⟩] ∧
    tradeBook (set_user exampleOneTrade ["_opentrades", "bob"]).2 = [] := by
  decide

/-- C11 (ownership single-valuedness), amended.  For every ledger, every id other than
the two reserved keys and every user `u`, `set_user` on `id` and `u` succeeds;
afterwards the record under `id` has owner exactly `u` and its other fields as before,
the value under every other key is unchanged, and so are the index of marbles and the
book of open trades. -/
theorem set_user_frame (s : Store) (id u : String) (more : List String)
    (h1 : id ≠ marbleIndexStr) (h2 : id ≠ openTradesStr) :
    (set_user s (id :: u :: more)).1 = Outcome.ok ∧
    (record (set_user s (id :: u :: more)).2 id).User = u ∧
    record (set_user s (id :: u :: more)).2 id = { record s id with User := u } ∧
    (∀ key, key ≠ id → GetState (set_user s (id :: u :: more)).2 key = GetState s key) ∧
    recordIndex (set_user s (id :: u :: more)).2 = recordIndex s ∧
    tradeBook (set_user s (id :: u :: more)).2 = tradeBook s := by
  rw [set_user_cons]
  refine ⟨rfl, ?_, record_putState_same _ _ _, ?_, recordIndex_putState_other _ _ _ h1,
    tradeBook_putState_other _ _ _ h2⟩
  · rw [record_putState_same]
  · intro key hkey
    exact getState_putState_other _ _ _ _ hkey

/-- C11 amended, at the ledger `exampleOneTrade`: A2 is given to bob. -/
theorem set_user_frame_witness :
    record (set_user exampleOneTrade ["A2", "bob"]).2 "A2" = ⟨"A2", 0, 7, "bob"⟩ ∧
      recordIndex (set_user exampleOneTrade ["A2", "bob"]).2 = ["A1", "A2"] :=
  have h := set_user_frame exampleOneTrade "A2" "bob" [] (by decide) (by decide)
  ⟨h.2.2.1, h.2.2.2.2.1.trans (by decide)⟩

/-- C12 fails for the category.  On the ledger established by `Init`, `init_marble`
stores A1 with the category blue, written as a JSON string in the member `timestamp`;
`set_user` on A1 succeeds and stores the record encoded anew from the decoded struct,
whose integer field `Timestamp` could not take that string: the id A1 and the size 5 are
kept, the category is no longer in the stored value.  The same happens to both marbles
of the scenario when `perform_trade` swaps their owners. -/
theorem category_lost_on_owner_change :
    (init_marble scenarioInit ["A1", "blue", "5", "bob"]).1 = Outcome.ok ∧
    (GetState (init_marble scenarioInit ["A1", "blue", "5", "bob"]).2 "A1").map
      Blob.timestampString = some (some "blue") ∧
    (set_user (init_marble scenarioInit ["A1", "blue", "5", "bob"]).2 ["A1", "alice"]).1
      = Outcome.ok ∧
    (GetState (set_user (init_marble scenarioInit ["A1", "blue", "5", "bob"]).2
      ["A1", "alice"]).2 "A1").map Blob.timestampString = some none ∧
    GetState (set_user (init_marble scenarioInit ["A1", "blue", "5", "bob"]).2
      ["A1", "alice"]).2 "A1" = some (marshalEkyc ⟨"A1", 0, 5, "alice"⟩) ∧
    (GetState (scenarioTrade 1000) "A2").map Blob.timestampString = some (some "red") ∧
    (perform_trade (scenarioTrade 1000) ["1000", "bob", "A1", "alice", "0", "7"]).1
      = Outcome.ok ∧
    (GetState (perform_trade (scenarioTrade 1000)
      ["1000", "bob", "A1", "alice", "0", "7"]).2 "A2").map Blob.timestampString = some none ∧
    (GetState (perform_trade (scenarioTrade 1000)
      ["1000", "bob", "A1", "alice", "0", "7"]).2 "A1").map Blob.timestampString
        = some none := by
  decide

/-- C13, as stated, fails when the id is a reserved key.  On the ledger
`exampleOneTrade`, `Delete` of the key of the open trades leaves an empty book where
one trade was open, and `Delete` of the key of the index of marbles, which the index
does not list, leaves an empty index where A1 and A2 were listed. -/
theorem delete_on_reserved_key :
    (Delete exampleOneTrade ["_opentrades"]).1 = Outcome.ok ∧
    tradeBook exampleOneTrade = [⟨"alice", 10, ⟨0, 5⟩, [⟨0, 7⟩]⟩] ∧
    tradeBook (Delete exampleOneTrade ["_opentrades"]).2 = [] ∧
    (Delete exampleOneTrade ["_marbleindex"]).1 = Outcome.ok ∧
    recordIndex exampleOneTrade = ["A1", "A2"] ∧
    "_marbleindex" ∉ recordIndex exampleOneTrade ∧
    recordIndex (Delete exampleOneTrade ["_marbleindex"]).2 = [] := by
  decide

/-- C13 (delete removes exactly one index occurrence), amended.  For every ledger and
every id other than the two reserved keys, `Delete` of `id` succeeds, leaves no value
under `id`, and leaves the index equal to the original with only the first occurrence
of `id` removed: when the index is `pre ++ id :: post` with `id` not in `pre` it becomes
`pre ++ post` (later occurrences of `id` in `post` are kept), and it is unchanged when
`id` does not occur; the value under every key other than `id` and the key of the
index, and the book of open trades, are unchanged. -/
theorem delete_first_occurrence (s : Store) (id : String)
    (h1 : id ≠ marbleIndexStr) (h2 : id ≠ openTradesStr) :
    (Delete s [id]).1 = Outcome.ok ∧
    GetState (Delete s [id]).2 id = none ∧
    recordIndex (Delete s [id]).2 = (recordIndex s).erase id ∧
    (∀ pre post, recordIndex s = pre ++ id :: post → id ∉ pre →
      recordIndex (Delete s [id]).2 = pre ++ post) ∧
    (id ∉ recordIndex s → recordIndex (Delete s [id]).2 = recordIndex s) ∧
    (∀ key, key ≠ id → key ≠ marbleIndexStr →
      GetState (Delete s [id]).2 key = GetState s key) ∧
    tradeBook (Delete s [id]).2 = tradeBook s := by
  have hidx : recordIndex (DelState s id) = recordIndex s := by
    simp [recordIndex, getState_delState_other _ _ _ (Ne.symm h1)]
  have herase : recordIndex (Delete s [id]).2 = (recordIndex s).erase id := by
    rw [delete_eq, recordIndex_putState_index, hidx]
  refine ⟨by rw [delete_eq], ?_, herase, ?_, ?_, ?_, ?_⟩
  · rw [delete_eq, getState_putState_other _ _ _ _ h1, getState_delState_same]
  · intro pre post hsplit hpre
    rw [herase, hsplit, List.erase_append_right _ hpre, List.erase_cons_head]
  · intro hnot
    rw [herase, List.erase_of_not_mem hnot]
  · intro key hk1 hk2
    rw [delete_eq, getState_putState_other _ _ _ _ hk2, getState_delState_other _ _ _ hk1]
  · rw [delete_eq, tradeBook_putState_other _ _ _ marbleIndexStr_ne_openTradesStr]
    simp [tradeBook, getState_delState_other _ _ _ (Ne.symm h2)]

/-- C13 amended, at the ledger `exampleTwiceIndexed`: of the two occurrences of `k` in
the index, one is left. -/
theorem delete_first_occurrence_witness :
    recordIndex exampleTwiceIndexed = ["k", "k"] ∧
      recordIndex (Delete exampleTwiceIndexed ["k"]).2 = ["k"] ∧
      GetState (Delete exampleTwiceIndexed ["k"]).2 "k" = none :=
  have h := delete_first_occurrence exampleTwiceIndexed "k" (by decide) (by decide)
  ⟨by decide, h.2.2.2.1 [] ["k"] (by decide) (by simp), h.2.1⟩

/-- C14, as stated, fails when the id is a reserved key.  On the ledger
`exampleOneTrade`, `init_marble` with the key of the open trades as id succeeds and
leaves an empty book where one trade was open; with the key of the index of marbles as
id it succeeds, the index is then that id alone (A1 and A2 are gone from it) and the
value under the id is the index, no record with that id field. -/
theorem init_marble_on_reserved_key :
    (init_marble exampleOneTrade ["_opentrades", "blue", "5", "bob"]).1 = Outcome.ok ∧
    tradeBook exampleOneTrade = [⟨"alice", 10, ⟨0, 5⟩, [⟨0, 7⟩]⟩] ∧
    tradeBook (init_marble exampleOneTrade ["_opentrades", "blue", "5", "bob"]).2 = [] ∧
    (init_marble exampleOneTrade ["_marbleindex", "blue", "5", "bob"]).1 = Outcome.ok ∧
    recordIndex exampleOneTrade = ["A1", "A2"] ∧
    recordIndex (init_marble exampleOneTrade ["_marbleindex", "blue", "5", "bob"]).2 =
      ["_marbleindex"] ∧
    (record (init_marble exampleOneTrade ["_marbleindex", "blue", "5", "bob"]).2
      "_marbleindex").AadharNum = "" := by
  decide

/-- C14 (create postcondition), amended.  For every ledger and arguments on which
`init_marble` succeeds, where the id is neither of the two reserved keys and the id,
category and owner are `jsonPlain`: afterwards the key `id` holds a record with id
field `id`, the parsed size and the lower-cased owner (its timestamp field reads 0, the
lower-cased category being kept as text), the index is the previous index with `id`
appended at the end, and the book of open trades and the value under every key other
than `id` and the key of the index are unchanged. -/
theorem init_marble_postcondition (s : Store) (id category size owner : String)
    (h1 : id ≠ marbleIndexStr) (h2 : id ≠ openTradesStr)
    (hplain : jsonPlain id = true ∧ jsonPlain category = true ∧ jsonPlain owner = true)
    (hok : (init_marble s [id, category, size, owner]).1 = Outcome.ok) :
    Atoi size = ((Atoi size).1, true) ∧
    record (init_marble s [id, category, size, owner]).2 id =
      ⟨id, 0, (Atoi size).1, ToLower owner⟩ ∧
    (GetState (init_marble s [id, category, size, owner]).2 id).map Blob.timestampString =
      some (some (ToLower category)) ∧
    recordIndex (init_marble s [id, category, size, owner]).2 = recordIndex s ++ [id] ∧
    tradeBook (init_marble s [id, category, size, owner]).2 = tradeBook s ∧
    (∀ key, key ≠ id → key ≠ marbleIndexStr →
      GetState (init_marble s [id, category, size, owner]).2 key = GetState s key) := by
  have hnum : (Atoi size).2 = true := by
    simp only [init_marble] at hok
    split_ifs at hok with c0 c1 c2 c3 c4 c5
    simpa using c4
  obtain ⟨_, _, heq⟩ := init_marble_ok s id category size owner hok
  rw [heq]
  simp only [getState_putState_other _ _ _ _ (Ne.symm h1)]
  refine ⟨?_, ?_, ?_, ?_, ?_, ?_⟩
  · exact Prod.ext rfl hnum
  · rw [record_putState_other _ _ _ _ h1]
    simp only [record, getState_putState_same]
    rw [marbleLiteral_plain id category size owner hplain.1 hplain.2.1 hplain.2.2 hnum]
    rfl
  · rw [getState_putState_other _ _ _ _ h1, getState_putState_same,
      marbleLiteral_plain id category size owner hplain.1 hplain.2.1 hplain.2.2 hnum]
    rfl
  · rw [recordIndex_putState_index]
    rfl
  · rw [tradeBook_putState_other _ _ _ marbleIndexStr_ne_openTradesStr,
      tradeBook_putState_other _ _ _ h2]
  · intro key hk1 hk2
    rw [getState_putState_other _ _ _ _ hk2, getState_putState_other _ _ _ _ hk1]

/-- C14 amended, on the ledger established by `Init`, with the id A1 and the owner
`ÉMILE`, stored as `émile`. -/
theorem init_marble_postcondition_witness :
    (init_marble scenarioInit ["A1", "blue", "5", "ÉMILE"]).1 = Outcome.ok ∧
      record (init_marble scenarioInit ["A1", "blue", "5", "ÉMILE"]).2 "A1" =
        ⟨"A1", 0, 5, "émile"⟩ ∧
      recordIndex (init_marble scenarioInit ["A1", "blue", "5", "ÉMILE"]).2 = ["A1"] :=
  have h := init_marble_postcondition scenarioInit "A1" "blue" "5" "ÉMILE" (by decide)
    (by decide) (by decide) (by decide)
  ⟨by decide, h.2.1.trans (by decide), h.2.2.2.1.trans (by decide)⟩

/-- C15 fails for `perform_trade`.  On the ledger `exampleSameId` the trade with id 11
is the second of three; `perform_trade` fulfils it, rewrites both marbles and the book,
and its loop then indexes the shortened book past its end: `Invoke` meets the panic and
never reaches the sweep.  The book is left with the two other trades of alice, both
offering a size she no longer owns, where the sweep would have left none. -/
theorem invoke_perform_trade_skips_sweep :
    (perform_trade exampleSameId ["11", "bob", "A1", "alice", "0", "7"]).1
      = Outcome.indexPanic ∧
    (Invoke exampleEnv exampleSameId "perform_trade" ["11", "bob", "A1", "alice", "0", "7"]).1
      = Outcome.indexPanic ∧
    (record (Invoke exampleEnv exampleSameId "perform_trade"
      ["11", "bob", "A1", "alice", "0", "7"]).2 "A1").User = "alice" ∧
    (record (Invoke exampleEnv exampleSameId "perform_trade"
      ["11", "bob", "A1", "alice", "0", "7"]).2 "A2").User = "bob" ∧
    tradeBook (Invoke exampleEnv exampleSameId "perform_trade"
      ["11", "bob", "A1", "alice", "0", "7"]).2
        = [⟨"alice", 10, ⟨0, 5⟩, [⟨0, 7⟩]⟩, ⟨"alice", 10, ⟨0, 6⟩, [⟨0, 7⟩]⟩] ∧
    tradeBook (cleanTrades (perform_trade exampleSameId
      ["11", "bob", "A1", "alice", "0", "7"]).2) = [] := by
  decide

/-- C16 (unknown trade id is a silent no-op).  For every ledger and every argument
list of six entries or more whose trade id and opener size are numeric, such that no
trade of the book has that id, `perform_trade` returns success without error and
leaves the whole ledger unchanged. -/
theorem perform_trade_unknown_id (s : Store) (tradeId closerUser closerRecordId openerUser
    openerWantTimestamp openerWantSize : String) (more : List String) (tid size : Int)
    (h0 : ParseInt tradeId = (tid, true)) (h5 : Atoi openerWantSize = (size, true))
    (hnone : ∀ t ∈ tradeBook s, t.Timestamp ≠ tid) :
    perform_trade s (tradeId :: closerUser :: closerRecordId :: openerUser ::
      openerWantTimestamp :: openerWantSize :: more) = (Outcome.ok, s) := by
  rw [perform_trade_eq s tradeId closerUser closerRecordId openerUser openerWantTimestamp
    openerWantSize more tid size h0 h5]
  exact perform_trade_loop_all_skipped s closerUser closerRecordId tid openerWantTimestamp size
    (tradeBook s) (fun t ht => Or.inl (hnone t ht))

/-- C16, at the ledger `exampleSameId` with the unknown trade id 99. -/
theorem perform_trade_unknown_id_witness :
    perform_trade exampleSameId ["99", "bob", "A1", "alice", "0", "7"] =
      (Outcome.ok, exampleSameId) :=
  perform_trade_unknown_id exampleSameId "99" "bob" "A1" "alice" "0" "7" [] 99 7
    (by decide) (by decide) (by decide)

/-- C17, as stated, fails for the records when the index lists the key of the open
trades.  At the ledger `exampleReservedKey` the value under that key is read both as
the book and as a marble of bob, which the index lists; `remove_trade` of the trade 11
writes the book under the key: the marble read from it is gone, and the finder, which
returned it, finds nothing. -/
theorem remove_trade_rewrites_indexed_record :
    recordIndex exampleReservedKey = ["_opentrades"] ∧
    record exampleReservedKey "_opentrades" = ⟨"x", 1, 1, "bob"⟩ ∧
    findMarble4Trade exampleReservedKey "bob" 1 1 = some ⟨"x", 1, 1, "bob"⟩ ∧
    (remove_trade exampleReservedKey ["11"]).1 = Outcome.ok ∧
    tradeBook (remove_trade exampleReservedKey ["11"]).2 = [⟨"bob", 10, ⟨0, 5⟩, [⟨1, 1⟩]⟩] ∧
    record (remove_trade exampleReservedKey ["11"]).2 "_opentrades" = ⟨"", 0, 0, ""⟩ ∧
    findMarble4Trade (remove_trade exampleReservedKey ["11"]).2 "bob" 1 1 = none := by
  decide

/-- C17 (trade removal), amended.  For every ledger whose index of marbles does not
list the key of the open trades, and every numeric trade id, `remove_trade` returns
success and leaves the book equal to the original with only the first trade with that
id removed: a book `pre ++ T :: post`, with `T` the first trade with the id, becomes
`pre ++ post` (later trades with the same id are kept, all in order); when no trade has
the id the ledger is unchanged; the value under every key other than the key of the
open trades, every record the index lists, every result of the finder and the index
of marbles are never changed. -/
theorem remove_trade_first (s : Store) (tradeId : String) (more : List String) (tid : Int)
    (h0 : ParseInt tradeId = (tid, true)) (hidx : openTradesStr ∉ recordIndex s) :
    (remove_trade s (tradeId :: more)).1 = Outcome.ok ∧
    tradeBook (remove_trade s (tradeId :: more)).2 =
      (tradeBook s).eraseP (fun t => decide (t.Timestamp = tid)) ∧
    (∀ pre T post, tradeBook s = pre ++ T :: post → (∀ t ∈ pre, t.Timestamp ≠ tid) →
      T.Timestamp = tid → tradeBook (remove_trade s (tradeId :: more)).2 = pre ++ post) ∧
    ((∀ t ∈ tradeBook s, t.Timestamp ≠ tid) → (remove_trade s (tradeId :: more)).2 = s) ∧
    (∀ key, key ≠ openTradesStr →
      GetState (remove_trade s (tradeId :: more)).2 key = GetState s key) ∧
    (∀ key ∈ recordIndex s, record (remove_trade s (tradeId :: more)).2 key = record s key) ∧
    (∀ user timestamp size,
      findMarble4Trade (remove_trade s (tradeId :: more)).2 user timestamp size =
        findMarble4Trade s user timestamp size) ∧
    recordIndex (remove_trade s (tradeId :: more)).2 = recordIndex s := by
  rw [remove_trade_eq s tradeId more tid h0]
  have hbook : tradeBook (if ∃ t ∈ tradeBook s, t.Timestamp = tid then
      PutState s openTradesStr
        (marshalTrades ⟨(tradeBook s).eraseP fun t => decide (t.Timestamp = tid)⟩)
      else s) = (tradeBook s).eraseP (fun t => decide (t.Timestamp = tid)) := by
    by_cases hex : ∃ t ∈ tradeBook s, t.Timestamp = tid
    · rw [if_pos hex, tradeBook_putState_trades]
    · rw [if_neg hex]
      symm
      apply List.eraseP_of_forall_not
      intro t ht
      simpa using fun h => hex ⟨t, ht, h⟩
  have hother : ∀ key, key ≠ openTradesStr →
      GetState (if ∃ t ∈ tradeBook s, t.Timestamp = tid then
        PutState s openTradesStr
          (marshalTrades ⟨(tradeBook s).eraseP fun t => decide (t.Timestamp = tid)⟩)
        else s) key = GetState s key := by
    intro key hkey
    by_cases hex : ∃ t ∈ tradeBook s, t.Timestamp = tid
    · rw [if_pos hex, getState_putState_other _ _ _ _ hkey]
    · rw [if_neg hex]
  have hindex : recordIndex (if ∃ t ∈ tradeBook s, t.Timestamp = tid then
      PutState s openTradesStr
        (marshalTrades ⟨(tradeBook s).eraseP fun t => decide (t.Timestamp = tid)⟩)
      else s) = recordIndex s := by
    simp only [recordIndex, hother _ marbleIndexStr_ne_openTradesStr]
  have hrec : ∀ key ∈ recordIndex s,
      record (if ∃ t ∈ tradeBook s, t.Timestamp = tid then
        PutState s openTradesStr
          (marshalTrades ⟨(tradeBook s).eraseP fun t => decide (t.Timestamp = tid)⟩)
        else s) key = record s key := by
    intro key hkey
    have hne : key ≠ openTradesStr := fun hk => hidx (hk ▸ hkey)
    simp only [record, hother key hne]
  refine ⟨rfl, hbook, ?_, ?_, hother, hrec,
    fun user timestamp size => find_congr _ _ _ _ _ hindex hrec, hindex⟩
  · intro pre T post hsplit hpre hT
    rw [hbook, hsplit, List.eraseP_append_right _ (by simpa using hpre)]
    simp [List.eraseP_cons, hT]
  · intro hnone
    have hex : ¬ ∃ t ∈ tradeBook s, t.Timestamp = tid := fun ⟨t, ht, h⟩ => hnone t ht h
    simp only [if_neg hex]

/-- C17 amended, at the ledger `exampleSameId`: of the two trades with id 10 the
first goes, and the marble A1 is as before. -/
theorem remove_trade_first_witness :
    tradeBook (remove_trade exampleSameId ["10"]).2 =
        [⟨"alice", 11, ⟨0, 5⟩, [⟨0, 7⟩]⟩, ⟨"alice", 10, ⟨0, 6⟩, [⟨0, 7⟩]⟩] ∧
      record (remove_trade exampleSameId ["10"]).2 "A1" = ⟨"A1", 0, 5, "bob"⟩ :=
  have h := remove_trade_first exampleSameId "10" [] 10 (by decide) (by decide)
  ⟨h.2.1.trans (by decide), (h.2.2.2.2.2.1 "A1" (by decide)).trans (by decide)⟩

/-- C18, as stated, fails in two ways.  A successful `open_trade` writes the keys
`_debug1` and `_debug2`: on the ledger `exampleDebugKey`, where a marble of carol is
stored under `_debug1`, the record under that key is another one afterwards.  And when
the first argument is a numeral out of the 64-bit range the parse fails, yet the
timestamps of the want and of the willing entry are the largest 64-bit integer, not 0. -/
theorem open_trade_overwrites_debug_key :
    (open_trade 1000 exampleDebugKey ["alice", "blue", "5", "red", "7"]).1 = Outcome.ok ∧
    record exampleDebugKey "_debug1" = ⟨"_debug1", 0, 9, "carol"⟩ ∧
    record (open_trade 1000 exampleDebugKey ["alice", "blue", "5", "red", "7"]).2 "_debug1"
      = ⟨"", 1000, 0, "alice"⟩ ∧
    (ParseInt "99999999999999999999").2 = false ∧
    tradeBook (open_trade 1000 scenarioMarbles
        ["99999999999999999999", "blue", "5", "red", "7"]).2
      = [⟨"99999999999999999999", 1000, ⟨9223372036854775807, 5⟩,
          [⟨9223372036854775807, 7⟩]⟩] := by
  decide

/-- C18 (open-trade postcondition), amended.  For every ledger, clock value `now` and
argument list of odd length at least 5 whose third argument and offered sizes
(`args[4]`, `args[6]`, ...) are numeric, `open_trade` succeeds without reading past the
arguments; the book of open trades becomes the previous book with one trade appended at
the end, of owner `args[0]` and id `now`, wanting the size `args[2]`, with one willing
entry per offered size, in order, `(n - 3) / 2` of them; the timestamp of the want and of
every willing entry is the value `ParseInt` returns for `args[0]`, which is 0 when
`args[0]` is not a decimal numeral; the index of marbles is unchanged, and so is the
value under every key other than `_debug1`, `_debug2` and the key of the open trades. -/
theorem open_trade_postcondition (now : Int) (s : Store) (args : List String)
    (hlen : 5 ≤ args.length) (hodd : args.length % 2 = 1)
    (h2 : (Atoi (args.getD 2 "")).2 = true)
    (hoff : ∀ z ∈ offeredSizes (args.drop 3), (Atoi z).2 = true) :
    (open_trade now s args).1 = Outcome.ok ∧
    tradeBook (open_trade now s args).2 =
      tradeBook s ++ [⟨args.getD 0 "", now,
        ⟨(ParseInt (args.getD 0 "")).1, (Atoi (args.getD 2 "")).1⟩,
        (offeredSizes (args.drop 3)).map fun z =>
          (⟨(ParseInt (args.getD 0 "")).1, (Atoi z).1⟩ : Description)⟩] ∧
    (offeredSizes (args.drop 3)).length = (args.length - 3) / 2 ∧
    (∀ j, (offeredSizes (args.drop 3))[j]? = args[4 + 2 * j]?) ∧
    (isNumeral (args.getD 0 "") = false → (ParseInt (args.getD 0 "")).1 = 0) ∧
    recordIndex (open_trade now s args).2 = recordIndex s ∧
    (∀ key, key ≠ "_debug1" → key ≠ "_debug2" → key ≠ openTradesStr →
      GetState (open_trade now s args).2 key = GetState s key) := by
  obtain ⟨s2, hkeys, heq⟩ := open_trade_ok now s args hlen hodd h2 hoff
  rw [heq]
  refine ⟨rfl, tradeBook_putState_trades _ _, ?_, offeredSizes_drop_three args, ?_, ?_, ?_⟩
  · rw [offeredSizes_length, List.length_drop]
  · intro h
    rw [parseInt_of_not_numeral _ h]
  · rw [recordIndex_putState_other _ _ _ (by decide)]
    unfold recordIndex
    rw [hkeys marbleIndexStr (by decide) (by decide)]
  · intro key hk1 hk2 hk3
    rw [getState_putState_other _ _ _ _ hk3]
    exact hkeys key hk1 hk2

/-- C18 amended, at the ledger of the scenario: alice, not a numeral, opens a trade
wanting size 5 and offering the sizes 7 and 9. -/
theorem open_trade_postcondition_witness :
    tradeBook (open_trade 1000 scenarioMarbles ["alice", "blue", "5", "red", "7", "red", "9"]).2
      = [⟨"alice", 1000, ⟨0, 5⟩, [⟨0, 7⟩, ⟨0, 9⟩]⟩] ∧
    recordIndex (open_trade 1000 scenarioMarbles
      ["alice", "blue", "5", "red", "7", "red", "9"]).2 = ["A1", "A2"] :=
  have h := open_trade_postcondition 1000 scenarioMarbles
    ["alice", "blue", "5", "red", "7", "red", "9"] (by decide) (by decide) (by decide)
    (by decide)
  ⟨h.2.1.trans (by decide), h.2.2.2.2.2.1.trans (by decide)⟩

/-- C19, as stated, fails on its last part.  An offered size that is not numeric is
found after the key `_debug1` was written: on the ledger `exampleDebugKey`, where a
marble of carol is stored under `_debug1`, `open_trade` returns an error and the record
under that key is another one afterwards. -/
theorem open_trade_error_after_debug_write :
    (open_trade 1000 exampleDebugKey ["alice", "blue", "5", "red", "x"]).1
      = Outcome.error "is not a numeric string x" ∧
    record exampleDebugKey "_debug1" = ⟨"_debug1", 0, 9, "carol"⟩ ∧
    record (open_trade 1000 exampleDebugKey ["alice", "blue", "5", "red", "x"]).2 "_debug1"
      = ⟨"", 1000, 0, "alice"⟩ := by
  decide

/-- C19 (open-trade rejection), amended.  For every ledger, clock value and argument
list, `open_trade` returns an error if and only if the argument count is less than 5 or
even, or `args[2]` is not numeric, or some offered size (`args[4]`, `args[6]`, ...) is
not numeric, and it never reads past the arguments; whenever it returns an error the
value under every key other than `_debug1` and `_debug2` is unchanged, and so are the
book of open trades and the index of marbles; when the error is one of the argument
count or of `args[2]`, nothing at all is written. -/
theorem open_trade_rejection (now : Int) (s : Store) (args : List String) :
    ((∃ msg, (open_trade now s args).1 = Outcome.error msg) ↔
      (args.length < 5 ∨ args.length % 2 = 0 ∨ (Atoi (args.getD 2 "")).2 = false ∨
        ∃ z ∈ offeredSizes (args.drop 3), (Atoi z).2 = false)) ∧
    (∀ j, (offeredSizes (args.drop 3))[j]? = args[4 + 2 * j]?) ∧
    (open_trade now s args).1 ≠ Outcome.indexPanic ∧
    ((∃ msg, (open_trade now s args).1 = Outcome.error msg) →
      (∀ key, key ≠ "_debug1" → key ≠ "_debug2" →
        GetState (open_trade now s args).2 key = GetState s key) ∧
      tradeBook (open_trade now s args).2 = tradeBook s ∧
      recordIndex (open_trade now s args).2 = recordIndex s) ∧
    ((args.length < 5 ∨ args.length % 2 = 0 ∨ (Atoi (args.getD 2 "")).2 = false) →
      (open_trade now s args).2 = s) := by
  have hearly : (args.length < 5 ∨ args.length % 2 = 0 ∨ (Atoi (args.getD 2 "")).2 = false) →
      (open_trade now s args).2 = s := by
    intro h
    obtain ⟨msg, heq⟩ := open_trade_early_error now s args h
    rw [heq]
  have hframe : ∀ s2 : Store,
      (∀ key, key ≠ "_debug1" → key ≠ "_debug2" → GetState s2 key = GetState s key) →
      tradeBook s2 = tradeBook s ∧ recordIndex s2 = recordIndex s := by
    intro s2 hk
    unfold tradeBook recordIndex
    rw [hk openTradesStr (by decide) (by decide), hk marbleIndexStr (by decide) (by decide)]
    exact ⟨rfl, rfl⟩
  by_cases h : args.length < 5 ∨ args.length % 2 = 0 ∨ (Atoi (args.getD 2 "")).2 = false
  · obtain ⟨msg, heq⟩ := open_trade_early_error now s args h
    refine ⟨⟨fun _ => ?_, fun _ => ⟨msg, by rw [heq]⟩⟩, offeredSizes_drop_three args, ?_,
      fun _ => ?_, hearly⟩
    · rcases h with h | h | h
      · exact Or.inl h
      · exact Or.inr (Or.inl h)
      · exact Or.inr (Or.inr (Or.inl h))
    · rw [heq]
      exact fun hp => Outcome.noConfusion hp
    · rw [heq]
      exact ⟨fun _ _ _ => rfl, rfl, rfl⟩
  · have hlen : 5 ≤ args.length := by
      by_contra hc
      exact h (Or.inl (by omega))
    have hodd : args.length % 2 = 1 := by
      by_contra hc
      exact h (Or.inr (Or.inl (by omega)))
    have h2 : (Atoi (args.getD 2 "")).2 = true := by
      by_contra hc
      exact h (Or.inr (Or.inr (by simpa using hc)))
    by_cases hbad : ∃ z ∈ offeredSizes (args.drop 3), (Atoi z).2 = false
    · obtain ⟨msg, s2, heq, hkeys⟩ := open_trade_bad_offer now s args hlen hodd h2 hbad
      refine ⟨⟨fun _ => Or.inr (Or.inr (Or.inr hbad)), fun _ => ⟨msg, by rw [heq]⟩⟩,
        offeredSizes_drop_three args, ?_, fun _ => ?_, hearly⟩
      · rw [heq]
        exact fun hp => Outcome.noConfusion hp
      · rw [heq]
        exact ⟨hkeys, hframe s2 hkeys⟩
    · have hoff : ∀ z ∈ offeredSizes (args.drop 3), (Atoi z).2 = true := by
        intro z hz
        by_contra hc
        exact hbad ⟨z, hz, by simpa using hc⟩
      obtain ⟨s2, hkeys, heq⟩ := open_trade_ok now s args hlen hodd h2 hoff
      have hnot : ¬ ∃ msg, (open_trade now s args).1 = Outcome.error msg := by
        rw [heq]
        rintro ⟨msg, hm⟩
        exact Outcome.noConfusion hm
      refine ⟨⟨fun hp => absurd hp hnot, fun hp => ?_⟩, offeredSizes_drop_three args, ?_,
        fun hp => absurd hp hnot, hearly⟩
      · rcases hp with hp | hp | hp | hp
        · exact absurd (Or.inl hp) h
        · exact absurd (Or.inr (Or.inl hp)) h
        · exact absurd (Or.inr (Or.inr hp)) h
        · exact absurd hp hbad
      · rw [heq]
        exact fun hp => Outcome.noConfusion hp

/-- C20 (create rejection is side-effect free).  For every ledger and argument list,
when the argument count is not 4, or one of the arguments is the empty string, or the
size argument is not numeric, or the value under the id already decodes to a record
with that id field, `init_marble` returns an error and the ledger it leaves is the
ledger it found: no key is written. -/
theorem init_marble_rejection (s : Store) (args : List String)
    (h : args.length ≠ 4 ∨ "" ∈ args ∨ (Atoi (args.getD 2 "")).2 = false ∨
      (record s (args.getD 0 "")).AadharNum = args.getD 0 "") :
    ∃ msg, init_marble s args = (Outcome.error msg, s) := by
  by_cases shape : ∃ a0 a1 a2 a3, args = [a0, a1, a2, a3]
  · obtain ⟨a0, a1, a2, a3, rfl⟩ := shape
    simp only [init_marble]
    split_ifs with c0 c1 c2 c3 c4 c5
    · exact ⟨_, rfl⟩
    · exact ⟨_, rfl⟩
    · exact ⟨_, rfl⟩
    · exact ⟨_, rfl⟩
    · exact ⟨_, rfl⟩
    · exact ⟨_, rfl⟩
    · exfalso
      have e0 : a0 ≠ "" := fun e => c0 (by simp [e])
      have e1 : a1 ≠ "" := fun e => c1 (by simp [e])
      have e2 : a2 ≠ "" := fun e => c2 (by simp [e])
      have e3 : a3 ≠ "" := fun e => c3 (by simp [e])
      rcases h with h | h | h | h
      · simp at h
      · simp only [List.mem_cons, List.mem_singleton, List.not_mem_nil, or_false] at h
        rcases h with h | h | h | h
        · exact e0 h.symm
        · exact e1 h.symm
        · exact e2 h.symm
        · exact e3 h.symm
      · exact c4 (by simpa using h)
      · exact c5 (by simpa [record] using h)
  · refine ⟨"========Incorrect number of arguments. Expecting 4", ?_⟩
    unfold init_marble
    split
    · exact absurd ⟨_, _, _, _, rfl⟩ shape
    · rfl

/-- C20, on the ledger of the scenario: a non-numeric size, and an id that exists. -/
theorem init_marble_rejection_witness :
    init_marble scenarioMarbles ["A3", "blue", "x", "bob"] =
        (Outcome.error "3rd argument must be a numeric string", scenarioMarbles) ∧
      ∃ msg, init_marble scenarioMarbles ["A1", "blue", "5", "bob"] =
        (Outcome.error msg, scenarioMarbles) :=
  ⟨by
    obtain ⟨msg, h⟩ := init_marble_rejection scenarioMarbles ["A3", "blue", "x", "bob"]
      (Or.inr (Or.inr (Or.inl (by decide))))
    have hm : (init_marble scenarioMarbles ["A3", "blue", "x", "bob"]).1 =
        Outcome.error "3rd argument must be a numeric string" := by decide
    rw [h] at hm ⊢
    simp only at hm
    rw [hm],
   init_marble_rejection scenarioMarbles ["A1", "blue", "5", "bob"]
    (Or.inr (Or.inr (Or.inr (by decide))))⟩

/-- C21, as stated, fails: `open_trade` does not look at the marbles.  On the ledger of
the scenario, where alice owns one marble, of size 7, her `open_trade` offering the
size 99 succeeds and books the entry (0, 99), for which the finder finds no marble of
hers in the ledger it leaves. -/
theorem open_trade_books_unbacked_offer :
    (open_trade 1000 scenarioMarbles ["alice", "blue", "5", "red", "99"]).1 = Outcome.ok ∧
    tradeBook (open_trade 1000 scenarioMarbles ["alice", "blue", "5", "red", "99"]).2
      = [⟨"alice", 1000, ⟨0, 5⟩, [⟨0, 99⟩]⟩] ∧
    findMarble4Trade (open_trade 1000 scenarioMarbles ["alice", "blue", "5", "red", "99"]).2
      "alice" 0 99 = none := by
  decide

/-- C21 (offers and owned records), amended.  For every ledger whose index lists none
of the keys `_debug1`, `_debug2` and the key of the open trades, after every successful
`open_trade` the finder returns, for every user and shape, what it returned before:
the new trade, appended to the book with `args[0]` as owner and one willing entry per
offered size, has a willing entry backed by a marble of the opener afterwards exactly
when the opener owned such a marble before.  `open_trade` makes no such test. -/
theorem open_trade_offers_unchecked (now : Int) (s : Store) (args : List String)
    (hok : (open_trade now s args).1 = Outcome.ok)
    (h1 : "_debug1" ∉ recordIndex s) (h2 : "_debug2" ∉ recordIndex s)
    (h3 : openTradesStr ∉ recordIndex s) :
    (∀ user timestamp size,
      findMarble4Trade (open_trade now s args).2 user timestamp size =
        findMarble4Trade s user timestamp size) ∧
    ∃ t, tradeBook (open_trade now s args).2 = tradeBook s ++ [t] ∧
      t.User = args.getD 0 "" ∧
      t.Willing = (offeredSizes (args.drop 3)).map (fun z =>
        (⟨(ParseInt (args.getD 0 "")).1, (Atoi z).1⟩ : Description)) ∧
      ∀ e ∈ t.Willing, backed (open_trade now s args).2 t.User e = backed s t.User e := by
  obtain ⟨hlen, hodd, hsz, hoff⟩ := open_trade_ok_inv now s args hok
  obtain ⟨s2, hkeys, heq⟩ := open_trade_ok now s args hlen hodd hsz hoff
  have hfind : ∀ user timestamp size,
      findMarble4Trade (open_trade now s args).2 user timestamp size =
        findMarble4Trade s user timestamp size := by
    intro user timestamp size
    rw [heq]
    apply find_congr
    · rw [recordIndex_putState_other _ _ _ (by decide)]
      unfold recordIndex
      rw [hkeys marbleIndexStr (by decide) (by decide)]
    · intro key hkey
      have hk1 : key ≠ "_debug1" := fun h => h1 (h ▸ hkey)
      have hk2 : key ≠ "_debug2" := fun h => h2 (h ▸ hkey)
      have hk3 : key ≠ openTradesStr := fun h => h3 (h ▸ hkey)
      rw [record_putState_other _ _ _ _ hk3]
      unfold record
      rw [hkeys key hk1 hk2]
  refine ⟨hfind, ⟨args.getD 0 "", now,
    ⟨(ParseInt (args.getD 0 "")).1, (Atoi (args.getD 2 "")).1⟩,
    (offeredSizes (args.drop 3)).map fun z =>
      (⟨(ParseInt (args.getD 0 "")).1, (Atoi z).1⟩ : Description)⟩, ?_, rfl, rfl, ?_⟩
  · rw [heq]
    exact tradeBook_putState_trades _ _
  · intro e _
    simp only [backed, hfind]

/-- C21 amended, at the ledger of the scenario: of the two sizes alice offers, 7 is
backed before and after, 99 neither before nor after. -/
theorem open_trade_offers_unchecked_witness :
    backed (open_trade 1000 scenarioMarbles ["alice", "blue", "5", "red", "7", "red", "99"]).2
        "alice" ⟨0, 7⟩ = true ∧
      backed (open_trade 1000 scenarioMarbles ["alice", "blue", "5", "red", "7", "red", "99"]).2
        "alice" ⟨0, 99⟩ = false :=
  have h := (open_trade_offers_unchecked 1000 scenarioMarbles
    ["alice", "blue", "5", "red", "7", "red", "99"] (by decide) (by decide) (by decide)
    (by decide)).1
  ⟨by simp only [backed, h]; decide, by simp only [backed, h]; decide⟩

/-- C22, as stated, fails on one point: the record that `set_user` makes can be
indexed.  In the ledger `exampleIndexedAbsent`, reached by creating `k` twice around a
`write` and deleting it once, the index lists `k` and no value is stored under `k`;
after `set_user` on `k` and bob the key holds the record with empty id field, zero size
and timestamp, and owner bob, the index still lists `k`, and the finder returns that
record. -/
theorem phantom_record_is_indexed :
    GetState exampleIndexedAbsent "k" = none ∧
    recordIndex exampleIndexedAbsent = ["k"] ∧
    (set_user exampleIndexedAbsent ["k", "bob"]).1 = Outcome.ok ∧
    record (set_user exampleIndexedAbsent ["k", "bob"]).2 "k" = ⟨"", 0, 0, "bob"⟩ ∧
    "k" ∈ recordIndex (set_user exampleIndexedAbsent ["k", "bob"]).2 ∧
    findMarble4Trade (set_user exampleIndexedAbsent ["k", "bob"]).2 "bob" 0 0
      = some ⟨"", 0, 0, "bob"⟩ := by
  decide

/-- C22 (phantom record on `set_user`), amended.  For every ledger in which no value
is stored under `id`, `set_user` on `id` and a new owner returns success; afterwards
the key `id` holds a record with empty id field, zero size, zero timestamp (a number:
no category text) and the new owner; the index of marbles is unchanged, so the record
is indexed only if `id` was listed already; and `init_marble` with the same id, then or
in any later ledger with that value under `id`, is not rejected as a duplicate: it
succeeds whenever its four arguments are non-empty and its size numeric. -/
theorem set_user_phantom (s : Store) (id newOwner : String) (more : List String)
    (habsent : GetState s id = none) :
    (set_user s (id :: newOwner :: more)).1 = Outcome.ok ∧
    GetState (set_user s (id :: newOwner :: more)).2 id
      = some (marshalEkyc ⟨"", 0, 0, newOwner⟩) ∧
    record (set_user s (id :: newOwner :: more)).2 id = ⟨"", 0, 0, newOwner⟩ ∧
    (GetState (set_user s (id :: newOwner :: more)).2 id).map Blob.timestampString
      = some none ∧
    recordIndex (set_user s (id :: newOwner :: more)).2 = recordIndex s ∧
    (id ∈ recordIndex (set_user s (id :: newOwner :: more)).2 ↔ id ∈ recordIndex s) ∧
    (∀ s2 : Store, GetState s2 id = GetState (set_user s (id :: newOwner :: more)).2 id →
      ∀ category size owner,
        (init_marble s2 [id, category, size, owner]).1
            ≠ Outcome.error "Aadhar number arleady exists" ∧
          (id ≠ "" → category ≠ "" → size ≠ "" → owner ≠ "" → (Atoi size).2 = true →
            (init_marble s2 [id, category, size, owner]).1 = Outcome.ok)) := by
  have hrec : record s id = Ekyc.zero := by
    simp [record, habsent, unmarshalEkyc]
  have hidx : recordIndex (set_user s (id :: newOwner :: more)).2 = recordIndex s := by
    rw [set_user_cons]
    by_cases hid : id = marbleIndexStr
    · subst hid
      simp [recordIndex, getState_putState_same, habsent, unmarshalStrings, marshalEkyc]
    · exact recordIndex_putState_other _ _ _ hid
  have hget : GetState (set_user s (id :: newOwner :: more)).2 id
      = some (marshalEkyc ⟨"", 0, 0, newOwner⟩) := by
    rw [set_user_cons, getState_putState_same, hrec]
    rfl
  refine ⟨by rw [set_user_cons], hget, ?_, ?_, hidx, by rw [hidx], ?_⟩
  · simp [record, hget, unmarshalEkyc, marshalEkyc]
  · rw [hget]
    rfl
  · intro s2 hs2 category size owner
    have hid2 : (unmarshalEkyc (GetState s2 id)).AadharNum = "" := by
      rw [hs2, hget]
      rfl
    have hlen : ∀ a : String, a ≠ "" → ¬ a.length ≤ 0 := by
      intro a ha hle
      apply ha
      have h0 : a.length = 0 := by omega
      have hd : a.data = [] := List.length_eq_zero.mp h0
      exact String.ext hd
    constructor
    · simp only [init_marble, hid2]
      split_ifs with c0 c1 c2 c3 c4 c5
      all_goals first
        | (exfalso; apply c0; rw [← c5]; decide)
        | (intro hc; simp at hc)
    · intro e0 e1 e2 e3 hnum
      have hne : ¬ ("" : String) = id := fun h => e0 h.symm
      simp only [init_marble, hid2, if_neg (hlen id e0), if_neg (hlen category e1),
        if_neg (hlen size e2), if_neg (hlen owner e3), hnum, if_neg hne]
      simp

/-- C22 amended, on the ledger of the scenario, where nothing is stored under A3. -/
theorem set_user_phantom_witness :
    record (set_user scenarioMarbles ["A3", "carol"]).2 "A3" = ⟨"", 0, 0, "carol"⟩ ∧
      recordIndex (set_user scenarioMarbles ["A3", "carol"]).2 = ["A1", "A2"] ∧
      (init_marble (set_user scenarioMarbles ["A3", "carol"]).2
        ["A3", "blue", "5", "bob"]).1 = Outcome.ok :=
  have h := set_user_phantom scenarioMarbles "A3" "carol" [] (by decide)
  ⟨h.2.2.1, h.2.2.2.2.1.trans (by decide),
    (h.2.2.2.2.2.2 _ rfl "blue" "5" "bob").2 (by decide) (by decide) (by decide) (by decide)
      (by decide)⟩

/-- C23, as stated, fails: no error is made for an absent key.  `GetState` gives no
bytes and no error for a key that holds nothing, as `init_marble` relies on when it
creates a marble, and `read` hands that on: on the empty ledger `read` of A1 is a
successful result without bytes. -/
theorem read_absent_key_succeeds :
    GetState Store.empty "A1" = none ∧
    read Store.empty ["A1"] = Except.ok none ∧
    Query Store.empty "read" ["A1"] = Except.ok none :=
  ⟨rfl, rfl, rfl⟩

/-- C23 (read), amended.  For every ledger and id, `read` returns without error
exactly what is stored under `id`: the bytes when a value is present, and a successful
result without bytes when no value is stored; with another number of arguments it
returns an error.  `read` issues no write: it is a function of the ledger that
returns no ledger, and `Query` hands its result out. -/
theorem read_returns_stored (s : Store) (id : String) :
    read s [id] = Except.ok (GetState s id) ∧
    (∀ v, GetState s id = some v → read s [id] = Except.ok (some v)) ∧
    (GetState s id = none → read s [id] = Except.ok none) ∧
    Query s "read" [id] = read s [id] ∧
    (∀ args : List String, args.length ≠ 1 → ∃ msg, read s args = Except.error msg) := by
  refine ⟨rfl, ?_, ?_, ?_, ?_⟩
  · intro v hv
    rw [← hv]
    rfl
  · intro h
    rw [← h]
    rfl
  · simp [Query]
  · intro args hargs
    match args, hargs with
    | [], _ => exact ⟨_, rfl⟩
    | [a], h => simp at h
    | _ :: _ :: _, _ => exact ⟨_, rfl⟩

/-- C24 fails.  In the ledger `exampleTwoTrades` the book holds two trades of alice,
with the ids 1000 and 1001; `perform_trade` by bob with the id 1000 fulfils the first:
both marbles change owner and the book is written with the second trade alone.  The
loop, bounded by the length 2 the book had at entry, then reads position 1 of the
shortened book, which has length 1: an index out of range. -/
theorem perform_trade_indexes_past_end :
    tradeBook exampleTwoTrades
      = [⟨"alice", 1000, ⟨0, 5⟩, [⟨0, 7⟩]⟩, ⟨"alice", 1001, ⟨0, 5⟩, [⟨0, 7⟩]⟩] ∧
    (perform_trade exampleTwoTrades ["1000", "bob", "A1", "alice", "0", "7"]).1
      = Outcome.indexPanic ∧
    (record (perform_trade exampleTwoTrades ["1000", "bob", "A1", "alice", "0", "7"]).2
      "A1").User = "alice" ∧
    (record (perform_trade exampleTwoTrades ["1000", "bob", "A1", "alice", "0", "7"]).2
      "A2").User = "bob" ∧
    tradeBook (perform_trade exampleTwoTrades ["1000", "bob", "A1", "alice", "0", "7"]).2
      = [⟨"alice", 1001, ⟨0, 5⟩, [⟨0, 7⟩]⟩] ∧
    (remove_trade exampleTwoTrades ["1000"]).1 = Outcome.ok ∧
    tradeBook (remove_trade exampleTwoTrades ["1000"]).2
      = [⟨"alice", 1001, ⟨0, 5⟩, [⟨0, 7⟩]⟩] := by
  decide

/-- C25, as stated, fails when the closer's record is the opener's.  In the ledger
`exampleCloserOwner`, A1 and A2 have size 7, A2 is alice's, and alice's trade 10 wants
size 7 and offers size 7.  When A1 is bob's, `perform_trade` on A1 finds A2 for alice
and swaps: A1 goes to alice, A2 to bob.  When A1 is alice's, the finder returns A1
itself, the first of her marbles of that shape: A1 is given to alice, then to bob, and
A2 stays with alice.  The final ledger depends on the owner of the closer's record. -/
theorem perform_trade_depends_on_closer_owner :
    (perform_trade (exampleCloserOwner "bob") ["10", "bob", "A1", "alice", "0", "7"]).1
      = Outcome.ok ∧
    (record (perform_trade (exampleCloserOwner "bob")
      ["10", "bob", "A1", "alice", "0", "7"]).2 "A1").User = "alice" ∧
    (record (perform_trade (exampleCloserOwner "bob")
      ["10", "bob", "A1", "alice", "0", "7"]).2 "A2").User = "bob" ∧
    (perform_trade (exampleCloserOwner "alice") ["10", "bob", "A1", "alice", "0", "7"]).1
      = Outcome.ok ∧
    (record (perform_trade (exampleCloserOwner "alice")
      ["10", "bob", "A1", "alice", "0", "7"]).2 "A1").User = "bob" ∧
    (record (perform_trade (exampleCloserOwner "alice")
      ["10", "bob", "A1", "alice", "0", "7"]).2 "A2").User = "alice" := by
  decide

/-- C25 (closer ownership is never checked), amended.  `perform_trade` never reads
`args[3]`: for every ledger its result and final ledger are the same for every value
of it.  And for every ledger that satisfies the conditions of the swap (the trade `T`
with the id is the last of the book and the first with that id, the closer's record has
the wanted size, the finder returns a record `B` stored under its own id, which is not
the closer's key, and neither key is reserved), in which the closer's record is not
owned by the opener: when that record is first given to any third user `v` other than
the opener (owners compared lower-cased), `perform_trade` still succeeds, with the same
final ledger, in which the closer's record is owned by the opener and `B` by the
closer. -/
theorem perform_trade_ignores_closer_owner (s : Store)
    (tradeId closerUser closerRecordId openerUser openerUser2 openerWantTimestamp
      openerWantSize v : String) (more : List String) (tid size : Int)
    (pre : List AnOpenTrade) (T : AnOpenTrade) (B : Ekyc)
    (h0 : ParseInt tradeId = (tid, true)) (h5 : Atoi openerWantSize = (size, true))
    (hbook : tradeBook s = pre ++ [T])
    (hpre : ∀ t ∈ pre, t.Timestamp ≠ tid) (hT : T.Timestamp = tid)
    (hsize : (record s closerRecordId).Size = T.Want.Size)
    (hfind : findMarble4Trade s T.User (ParseInt openerWantTimestamp).1 size = some B)
    (hB : record s B.AadharNum = B) (hne : B.AadharNum ≠ closerRecordId)
    (hk1 : closerRecordId ≠ openTradesStr) (hk2 : B.AadharNum ≠ openTradesStr)
    (hk3 : closerRecordId ≠ marbleIndexStr)
    (hown : ToLower (record s closerRecordId).User ≠ ToLower T.User)
    (hv : ToLower v ≠ ToLower T.User) :
    (∀ s0 : Store,
      perform_trade s0 (tradeId :: closerUser :: closerRecordId :: openerUser2 ::
          openerWantTimestamp :: openerWantSize :: more) =
        perform_trade s0 (tradeId :: closerUser :: closerRecordId :: openerUser ::
          openerWantTimestamp :: openerWantSize :: more)) ∧
    (perform_trade (set_user s [closerRecordId, v]).2
      (tradeId :: closerUser :: closerRecordId :: openerUser2 :: openerWantTimestamp ::
        openerWantSize :: more)).1 = Outcome.ok ∧
    (perform_trade s
      (tradeId :: closerUser :: closerRecordId :: openerUser :: openerWantTimestamp ::
        openerWantSize :: more)).1 = Outcome.ok ∧
    (∀ key,
      GetState (perform_trade (set_user s [closerRecordId, v]).2
        (tradeId :: closerUser :: closerRecordId :: openerUser2 :: openerWantTimestamp ::
          openerWantSize :: more)).2 key =
      GetState (perform_trade s
        (tradeId :: closerUser :: closerRecordId :: openerUser :: openerWantTimestamp ::
          openerWantSize :: more)).2 key) ∧
    (record (perform_trade (set_user s [closerRecordId, v]).2
      (tradeId :: closerUser :: closerRecordId :: openerUser2 :: openerWantTimestamp ::
        openerWantSize :: more)).2 closerRecordId).User = T.User ∧
    (record (perform_trade (set_user s [closerRecordId, v]).2
      (tradeId :: closerUser :: closerRecordId :: openerUser2 :: openerWantTimestamp ::
        openerWantSize :: more)).2 B.AadharNum).User = closerUser := by
  have hs2 : (set_user s [closerRecordId, v]).2 =
      PutState s closerRecordId (marshalEkyc { record s closerRecordId with User := v }) :=
    set_user_eq s closerRecordId v
  have hbook2 : tradeBook (set_user s [closerRecordId, v]).2 = pre ++ [T] := by
    rw [hs2, tradeBook_putState_other _ _ _ hk1, hbook]
  have hrecA : record (set_user s [closerRecordId, v]).2 closerRecordId =
      { record s closerRecordId with User := v } := by
    rw [hs2, record_putState_same]
  have hsize2 : (record (set_user s [closerRecordId, v]).2 closerRecordId).Size =
      T.Want.Size := by
    rw [hrecA]
    exact hsize
  have hfind2 : findMarble4Trade (set_user s [closerRecordId, v]).2 T.User
      (ParseInt openerWantTimestamp).1 size = some B := by
    rw [← hfind]
    apply find_congr_matches
    · rw [hs2, recordIndex_putState_other _ _ _ hk3]
    · intro key _
      by_cases hkey : key = closerRecordId
      · right
        subst hkey
        rw [hrecA]
        constructor
        · simp only [matches4Trade, decide_eq_false_iff_not]
          exact fun h => hv h.1
        · simp only [matches4Trade, decide_eq_false_iff_not]
          exact fun h => hown h.1
      · left
        rw [hs2, record_putState_other _ _ _ _ hkey]
  have e1 := perform_trade_last s tradeId closerUser closerRecordId openerUser
    openerWantTimestamp openerWantSize more tid size pre T B h0 h5 hbook hpre hT hsize hfind
  have e2 := perform_trade_last (set_user s [closerRecordId, v]).2 tradeId closerUser
    closerRecordId openerUser2 openerWantTimestamp openerWantSize more tid size pre T B h0 h5
    hbook2 hpre hT hsize2 hfind2
  have hBrec : ∀ (s0 : Store) (x : Blob),
      record (PutState s0 closerRecordId x) B.AadharNum = record s0 B.AadharNum :=
    fun s0 x => record_putState_other _ _ _ _ hne
  have hBrec2 : record (set_user s [closerRecordId, v]).2 B.AadharNum = B := by
    rw [hs2, hBrec, hB]
  refine ⟨fun s0 => rfl, by rw [e2], by rw [e1], ?_, ?_, ?_⟩
  · intro key
    rw [e1, e2]
    simp only [hBrec, hBrec2, hB, hrecA]
    rw [hs2]
    simp only [GetState, PutState]
    split_ifs <;> rfl
  · rw [e2, record_putState_other _ _ _ _ hk1, record_putState_other _ _ _ _ (Ne.symm hne),
      record_putState_same, hrecA]
  · rw [e2, record_putState_other _ _ _ _ hk2, record_putState_same]

/-- C25 amended, at the ledger `exampleCloserOwner` with A1 owned by bob: when A1 is
first given to carol, bob still closes the trade with it. -/
theorem perform_trade_ignores_closer_owner_witness :
    (perform_trade (set_user (exampleCloserOwner "bob") ["A1", "carol"]).2
      ["10", "bob", "A1", "nobody", "0", "7"]).1 = Outcome.ok ∧
    (record (perform_trade (set_user (exampleCloserOwner "bob") ["A1", "carol"]).2
      ["10", "bob", "A1", "nobody", "0", "7"]).2 "A1").User = "alice" :=
  have h := perform_trade_ignores_closer_owner (exampleCloserOwner "bob") "10" "bob" "A1"
    "alice" "nobody" "0" "7" "carol" [] 10 7 [] ⟨"alice", 10, ⟨0, 7⟩, [⟨0, 7⟩]⟩
    ⟨"A2", 0, 7, "alice"⟩ (by decide) (by decide) (by decide) (by decide) (by decide)
    (by decide) (by decide) (by decide) (by decide) (by decide) (by decide) (by decide)
    (by decide) (by decide)
  ⟨h.2.1, h.2.2.2.2.1⟩

/-- C26 fails for a category that closes the string it is written in.  `init_marble`
writes the category between quotes without escaping it: with the category
`x", "timestamp": 5, "y": "` the text stored under A1 holds a second member `timestamp`,
the number 5, which the decoder stores in the field after it skipped the first.  The
record reads with timestamp 5, and the finder returns it for the timestamp 5 and not
for 0. -/
theorem created_record_with_injected_timestamp :
    marbleText "A1" "x\", \"timestamp\": 5, \"y\": \"" 5 "bob" =
      "\x7b\"aadharNum\": \"A1\", \"timestamp\": \"x\", \"timestamp\": 5, \"y\": \"\", \"size\": 5, \"user\": \"bob\"\x7d" ∧
    (init_marble scenarioInit ["A1", "x\", \"timestamp\": 5, \"y\": \"", "5", "bob"]).1
      = Outcome.ok ∧
    record (init_marble scenarioInit ["A1", "x\", \"timestamp\": 5, \"y\": \"", "5", "bob"]).2
      "A1" = ⟨"A1", 5, 5, "bob"⟩ ∧
    findMarble4Trade
      (init_marble scenarioInit ["A1", "x\", \"timestamp\": 5, \"y\": \"", "5", "bob"]).2
      "bob" 5 5 = some ⟨"A1", 5, 5, "bob"⟩ ∧
    findMarble4Trade
      (init_marble scenarioInit ["A1", "x\", \"timestamp\": 5, \"y\": \"", "5", "bob"]).2
      "bob" 0 5 = none := by
  decide

/-- Created records whose strings need no escaping.  For every successful
`init_marble` whose id, category and owner need no escaping in a JSON string, whatever
the category: the value it writes decodes to the id, the timestamp 0, the parsed size
and the lower-cased owner (the category is kept as a JSON string, which the integer
field does not take); it is the value under the id afterwards, unless the id is the
key of the index; and in every ledger that holds that value under a key, the record
read from the key has timestamp 0, the finder returns that record only when asked for
the timestamp 0, and `set_user` on the key stores the record with the number 0 as
timestamp. -/
theorem created_record_timestamp_zero (s : Store) (id category size owner : String)
    (hplain : jsonPlain id = true ∧ jsonPlain category = true ∧ jsonPlain owner = true)
    (hok : (init_marble s [id, category, size, owner]).1 = Outcome.ok) :
    marbleLiteral id (ToLower category) (Atoi size).1 (ToLower owner) =
      ⟨⟨id, 0, (Atoi size).1, ToLower owner⟩, [], AllTrades.zero, some (ToLower category)⟩ ∧
    (id ≠ marbleIndexStr →
      GetState (init_marble s [id, category, size, owner]).2 id =
        some (marbleLiteral id (ToLower category) (Atoi size).1 (ToLower owner))) ∧
    (∀ (s2 : Store) (key : String),
      GetState s2 key = some (marbleLiteral id (ToLower category) (Atoi size).1 (ToLower owner)) →
      (record s2 key).Timestamp = 0 ∧
      (∀ user timestamp sz,
        findMarble4Trade s2 user timestamp sz = some (record s2 key) → timestamp = 0) ∧
      (∀ u, GetState (set_user s2 [key, u]).2 key =
        some (marshalEkyc ⟨id, 0, (Atoi size).1, u⟩))) := by
  have hlit := marbleLiteral_plain id category size owner hplain.1 hplain.2.1 hplain.2.2
    (init_marble_ok_numeric s id category size owner hok)
  obtain ⟨_, _, heq⟩ := init_marble_ok s id category size owner hok
  refine ⟨hlit, ?_, ?_⟩
  · intro hid
    rw [heq, getState_putState_other _ _ _ _ hid, getState_putState_same]
  · intro s2 key hkey
    have hrec : record s2 key = ⟨id, 0, (Atoi size).1, ToLower owner⟩ := by
      simp only [record, hkey, hlit]
      rfl
    refine ⟨by rw [hrec], ?_, ?_⟩
    · intro user timestamp sz hfind
      have hshape := (find_some_shape s2 user timestamp sz _ hfind).2.1
      rw [hrec] at hshape
      exact hshape.symm
    · intro u
      rw [set_user_eq, getState_putState_same, hrec]

/-- A created record on the ledger established by `Init`: the marble A1 created with
the category blue reads with timestamp 0, and is stored with the number 0 once given to
alice. -/
theorem created_record_timestamp_zero_witness :
    (record (init_marble scenarioInit ["A1", "blue", "5", "bob"]).2 "A1").Timestamp = 0 ∧
      GetState (set_user (init_marble scenarioInit ["A1", "blue", "5", "bob"]).2
        ["A1", "alice"]).2 "A1" = some (marshalEkyc ⟨"A1", 0, 5, "alice"⟩) :=
  have h := created_record_timestamp_zero scenarioInit "A1" "blue" "5" "bob"
    ⟨by decide, by decide, by decide⟩ (by decide)
  have hs := h.2.2 (init_marble scenarioInit ["A1", "blue", "5", "bob"]).2 "A1"
    (h.2.1 (by decide))
  ⟨hs.1, hs.2.2 "alice"⟩

end Chaincode
